import Mathlib

/-!
# Leveled logging engine (`pkg/util/log/clog.go`): shallow embedding and proofs

The Go source is embedded as pure Lean functions.

* Go strings are rune sequences, `List Char` (texts that are valid UTF-8), with lengths
  taken in bytes (`byteLen`); `logBridge.Write`, which cuts a byte slice at byte offsets,
  is modelled on bytes (`Bytes`).
* Go `int`, `int32` and `int64` values are `Int`; Go's `/` and `%` on them are
  `Int.tdiv` and `Int.tmod` (truncation toward zero).
* A Go run-time panic (index out of range, `panic(err)`) is `none` of `Option`.
* The formatter reads `time.Local` at one instant, so it takes the zone as the offset east
  of UTC, in seconds, that the zone has at that instant; the decoder takes the zone as a
  `Location`, which may have daylight saving time.
-/

namespace Clog

/-- Go strings and byte slices, as sequences of runes. -/
abbrev Str := List Char

/-! ## Severity and Entry (declared in the generated protobuf code) -/

/-- Modelled from the spec: the Severity enum lives in generated protobuf code that is not
part of the source file; the spec orders INFO < WARNING < ERROR < FATAL with NONE a
threshold-only sentinel, and `severityChar[s-1]` fixes INFO = 1. -/
def Severity_UNKNOWN : Int := 0

/-- Modelled from the spec: see `Severity_UNKNOWN`. -/
def Severity_INFO : Int := 1

/-- Modelled from the spec: see `Severity_UNKNOWN`. -/
def Severity_WARNING : Int := 2

/-- Modelled from the spec: see `Severity_UNKNOWN`. -/
def Severity_ERROR : Int := 3

/-- Modelled from the spec: see `Severity_UNKNOWN`. -/
def Severity_FATAL : Int := 4

/-- Modelled from the spec: see `Severity_UNKNOWN`; NONE is above every entry severity. -/
def Severity_NONE : Int := 5

/-- Modelled from the spec: the Entry message {severity, nanosecond timestamp, calling-thread
id, source file, source line, message text}; the struct is generated protobuf code. -/
structure Entry where
  Severity : Int
  Time : Int
  Goroutine : Int
  File : Str
  Line : Int
  Message : Str
deriving DecidableEq, Repr

/-- The zero value of Entry. -/
def Entry.zero : Entry := ⟨0, 0, 0, [], 0, []⟩

/-- Source: `const severityChar = "IWEF"`. -/
def severityChar : Str := ['I', 'W', 'E', 'F']

/-- Source: `const digits = "0123456789"`. -/
def digits : Str := ['0', '1', '2', '3', '4', '5', '6', '7', '8', '9']

/-- Indexing `s[i]` of a Go string with a Go int: a panic when `i` is out of range. -/
def charAt (s : Str) (i : Int) : Option Char :=
  if 0 ≤ i then s.get? i.toNat else none

/-! ## The part of package `time` the formatter and the decoder use -/

/-- A `time.Time` in the zone `time.Local`: seconds since the Unix epoch, nanoseconds within
the second, and the offset of the zone at that instant, in seconds east of UTC (one
instant has one offset, also in a zone with daylight saving time). -/
structure Time where
  sec : Int
  nsec : Int
  loc : Int
deriving DecidableEq, Repr

/-- Go `time.Unix(sec, nsec)` shown in the local zone: nsec outside [0, 1e9) is carried
into the seconds. -/
def Time.Unix (sec nsec : Int) (loc : Int) : Time :=
  ⟨sec + nsec / 1000000000, nsec % 1000000000, loc⟩

/-- Go `Time.UnixNano`. -/
def Time.UnixNano (t : Time) : Int := t.sec * 1000000000 + t.nsec

/-- Go `daysBefore`: days in a non-leap year before each month. -/
def daysBefore : List Int := [0, 31, 59, 90, 120, 151, 181, 212, 243, 273, 304, 334, 365]

/-- Lookup `daysBefore[m]`. -/
def daysBeforeAt (m : Int) : Int := daysBefore.getD m.toNat 0

/-- Go `isLeap`. -/
def isLeap (year : Int) : Bool :=
  year % 4 == 0 && (year % 100 != 0 || year % 400 == 0)

/-- Days in a month, by the leap flag of the year (the body of Go `daysIn`). -/
def daysInMonth (leap : Bool) (month : Int) : Int :=
  if month == 2 && leap then 29 else daysBeforeAt month - daysBeforeAt (month - 1)

/-- Go `daysIn`. -/
def daysIn (month year : Int) : Int := daysInMonth (isLeap year) month

/-- The year and the day within the year of a day count since 0001-01-01, by the cycle
arithmetic of Go `absDate` (400-, 100-, 4- and 1-year cycles). Go counts from an absolute
zero year that is 1 modulo 400, so the cycles are aligned the same way. -/
def absYearDay (d : Int) : Int × Int :=
  let n400 := d / 146097
  let y := 400 * n400
  let d := d - 146097 * n400
  let n100 := d / 36524
  let n100 := n100 - n100 / 4
  let y := y + 100 * n100
  let d := d - 36524 * n100
  let n4 := d / 1461
  let y := y + 4 * n4
  let d := d - 1461 * n4
  let n1 := d / 365
  let n1 := n1 - n1 / 4
  let y := y + n1
  let d := d - 365 * n1
  (y + 1, d)

/-- The month and the day of the month of a day within a year, as in Go `absDate`; `leap`
is `isLeap(year)`. -/
def monthDay (leap : Bool) (yday : Int) : Int × Int :=
  if leap && yday == 31 + 29 - 1 then (2, 29)
  else
    let day := if leap && yday > 31 + 29 - 1 then yday - 1 else yday
    let month := day / 31
    let stop := daysBeforeAt (month + 1)
    if day ≥ stop then (month + 2, day - stop + 1)
    else (month + 1, day - daysBeforeAt month + 1)

/-- Days from 0001-01-01 to 1970-01-01. -/
def unixEpochDays : Int := 719162

/-- Seconds since 0001-01-01 00:00:00 on the local clock. -/
def Time.localSecs (t : Time) : Int := t.sec + t.loc + unixEpochDays * 86400

/-- Go `Time.Date`: year, month and day on the local clock. -/
def Time.Date (t : Time) : Int × Int × Int :=
  let yd := absYearDay (t.localSecs / 86400)
  let md := monthDay (isLeap yd.1) yd.2
  (yd.1, md.1, md.2)

/-- Go `Time.Year`. -/
def Time.Year (t : Time) : Int := t.Date.1

/-- Go `Time.Clock`: hour, minute and second on the local clock. -/
def Time.Clock (t : Time) : Int × Int × Int :=
  let s := t.localSecs % 86400
  (s / 3600, s % 3600 / 60, s % 60)

/-- Go `Time.Nanosecond`. -/
def Time.Nanosecond (t : Time) : Int := t.nsec

/-- Days from 0001-01-01 to the given civil date, by the cycle arithmetic of Go
`time.Date`. -/
def daysSinceYear1 (year month day : Int) : Int :=
  let y := year - 1
  let n400 := y / 400
  let y := y - 400 * n400
  let d := 146097 * n400
  let n100 := y / 100
  let y := y - 100 * n100
  let d := d + 36524 * n100
  let n4 := y / 4
  let y := y - 4 * n4
  let d := d + 1461 * n4
  let d := d + 365 * y
  let d := d + daysBeforeAt (month - 1)
  let d := if isLeap year && month ≥ 3 then d + 1 else d
  d + (day - 1)

/-- The instant at which a clock that runs `loc` seconds ahead of UTC shows the given date
and time (fields already in range): the day count of Go `time.Date`, less the offset. -/
def Time.ofDate (year month day hour min sec nsec : Int) (loc : Int) : Time :=
  ⟨daysSinceYear1 year month day * 86400 + hour * 3600 + min * 60 + sec
      - unixEpochDays * 86400 - loc, nsec, loc⟩

/-! ## Buffers and the digit helpers -/

/-- Source: `colorProfile`, the escape sequences of a terminal colour profile. -/
structure colorProfile where
  infoPrefix : Str
  warnPrefix : Str
  errorPrefix : Str
  timePrefix : Str
deriving DecidableEq, Repr

/-- The escape character. -/
def esc : Char := Char.ofNat 27

/-- Source: `colorReset`. -/
def colorReset : Str := esc :: "[0m".toList

/-- Source: `colorProfile8`. -/
def colorProfile8 : colorProfile :=
  ⟨esc :: "[0;36;49m".toList, esc :: "[0;33;49m".toList, esc :: "[0;31;49m".toList,
   esc :: "[2;37;49m".toList⟩

/-- Source: `colorProfile256`. -/
def colorProfile256 : colorProfile :=
  ⟨esc :: "[38;5;33m".toList, esc :: "[38;5;214m".toList, esc :: "[38;5;160m".toList,
   esc :: "[38;5;246m".toList⟩

/-- Source: `buffer`: the bytes.Buffer contents and the 64-byte scratch array `tmp`. The
`next` link of the free list is kept by the list that holds the buffers. -/
structure buffer where
  bytes : Str
  tmp : List Char
deriving DecidableEq, Repr

/-- The assignment `tmp[i] = c`: a panic when `i` is out of range. -/
def setAt (tmp : List Char) (i : Nat) (c : Char) : Option (List Char) :=
  if i < tmp.length then some (tmp.set i c) else none

/-- Go `copy(tmp[i:], src)`: copies `min(len(tmp)-i, len(src))` bytes and returns that
count; slicing panics when `i > len(tmp)`. -/
def copyAt (tmp : List Char) (i : Nat) (src : Str) : Option (List Char × Nat) :=
  if i ≤ tmp.length then
    let k := min (tmp.length - i) src.length
    some (tmp.take i ++ src.take k ++ tmp.drop (i + k), k)
  else none

/-- Source: `buffer.twoDigits`. -/
def twoDigits (tmp : List Char) (i : Nat) (d : Int) : Option (List Char × Nat) := do
  let c1 ← charAt digits (d.tmod 10)
  let tmp ← setAt tmp (i + 1) c1
  let d := d.tdiv 10
  let c0 ← charAt digits (d.tmod 10)
  let tmp ← setAt tmp i c0
  some (tmp, 2)

/-- The two loops of `buffer.nDigits`, with `k = j + 1` positions left to fill. -/
def nDigitsLoop (i : Nat) (pad : Char) : Nat → List Char → Int → Option (List Char)
  | 0, tmp, _ => some tmp
  | k + 1, tmp, d =>
    if d > 0 then do
      let c ← charAt digits (d.tmod 10)
      let tmp ← setAt tmp (i + k) c
      nDigitsLoop i pad k tmp (d.tdiv 10)
    else do
      let tmp ← setAt tmp (i + k) pad
      nDigitsLoop i pad k tmp d

/-- Source: `buffer.nDigits`. -/
def nDigits (tmp : List Char) (n i : Nat) (d : Int) (pad : Char) : Option (List Char × Nat) :=
  (nDigitsLoop i pad n tmp d).map fun t => (t, n)

/-- The loop of `buffer.someDigits`: `j` is decremented before each write, so `j = 0`
on entry is the index -1. -/
def someDigitsLoop : Nat → List Char → Int → Option (List Char × Nat)
  | 0, _, _ => none
  | j + 1, tmp, d => do
    let c ← charAt digits (d.tmod 10)
    let tmp ← setAt tmp j c
    let d := d.tdiv 10
    if d = 0 then some (tmp, j) else someDigitsLoop j tmp d

/-- Source: `buffer.someDigits`. -/
def someDigits (tmp : List Char) (i : Nat) (d : Int) : Option (List Char × Nat) := do
  let r ← someDigitsLoop tmp.length tmp d
  copyAt r.1 i (r.1.drop r.2)

/-! ## Formatting an entry -/

/-- The statement pair `tmp[n] = c; n++`. -/
def putc (st : List Char × Nat) (c : Char) : Option (List Char × Nat) :=
  (setAt st.1 st.2 c).map fun t => (t, st.2 + 1)

/-- The statement `n += buf.twoDigits(n, d)`. -/
def put2 (st : List Char × Nat) (d : Int) : Option (List Char × Nat) :=
  (twoDigits st.1 st.2 d).map fun r => (r.1, st.2 + r.2)

/-- The statement `n += copy(tmp[n:], src)`. -/
def putCopy (st : List Char × Nat) (src : Str) : Option (List Char × Nat) :=
  (copyAt st.1 st.2 src).map fun r => (r.1, st.2 + r.2)

/-- The colour escape chosen by the `switch s` of `formatHeader`. -/
def severityColor (colors : colorProfile) (s : Int) : Str :=
  if s = Severity_INFO then colors.infoPrefix
  else if s = Severity_WARNING then colors.warnPrefix
  else if s = Severity_ERROR ∨ s = Severity_FATAL then colors.errorPrefix
  else []

/-- The statement `n += buf.nDigits(k, n, d, pad)`. -/
def putN (st : List Char × Nat) (k : Nat) (d : Int) (pad : Char) : Option (List Char × Nat) :=
  (nDigits st.1 k st.2 d pad).map fun r => (r.1, st.2 + r.2)

/-- The first write group of `formatHeader`: optional colour escape, severity letter, date,
optional colour escape for the time, clock with microseconds and the blank after it. -/
def headerStamp (tmp0 : List Char) (s : Int) (now : Time) (colors : Option colorProfile) :
    Option (List Char × Nat) :=
  (match colors with
    | some c => putCopy (tmp0, 0) (severityColor c s)
    | none => some (tmp0, 0))
  |>.bind (fun st => (charAt severityChar (s - 1)).bind fun sc => putc st sc)
  |>.bind (fun st => put2 st (now.Date.1 - 2000))
  |>.bind (fun st => put2 st now.Date.2.1)
  |>.bind (fun st => put2 st now.Date.2.2)
  |>.bind (fun st => match colors with
    | some c => putCopy st c.timePrefix
    | none => some st)
  |>.bind (fun st => putc st ' ')
  |>.bind (fun st => put2 st now.Clock.1)
  |>.bind (fun st => putc st ':')
  |>.bind (fun st => put2 st now.Clock.2.1)
  |>.bind (fun st => putc st ':')
  |>.bind (fun st => put2 st now.Clock.2.2)
  |>.bind (fun st => putc st '.')
  |>.bind (fun st => putN st 6 (now.Nanosecond.tdiv 1000) '0')
  |>.bind (fun st => putc st ' ')

/-- The goroutine id of `formatHeader`, written only when it is positive. -/
def headerGid (st : List Char × Nat) (gid : Int) : Option (List Char × Nat) :=
  if gid > 0 then
    (someDigits st.1 st.2 gid).bind fun r => putc (r.1, st.2 + r.2) ' '
  else some st

/-- The slice `tmp[:n]`: a panic when `n` exceeds the array. -/
def sliceTo (st : List Char × Nat) : Option Str :=
  if st.2 ≤ st.1.length then some (st.1.take st.2) else none

/-- The second write group of `formatHeader`: the colon, the line number, a blank, the
optional colour reset and a second blank, assembled from index 0 of the scratch array. -/
def headerTail (tmp : List Char) (line : Int) (colors : Option colorProfile) :
    Option (List Char × Nat) :=
  (setAt tmp 0 ':')
  |>.bind (fun tmp => someDigits tmp 1 line)
  |>.bind (fun r => putc (r.1, r.2 + 1) ' ')
  |>.bind (fun st => match colors with
    | some _ => putCopy st colorReset
    | none => some st)
  |>.bind (fun st => putc st ' ')

/-- Source: `formatHeader`. `tmp0` is the scratch array of the buffer that `getBuffer`
handed out (its byte contents are empty); the result is `none` when the Go code panics. -/
def formatHeader (tmp0 : List Char) (s : Int) (now : Time) (gid : Int) (file : Str)
    (line : Int) (colors : Option colorProfile) : Option buffer :=
  let line := if line < 0 then 0 else line
  let s := if s > Severity_FATAL then Severity_INFO else s
  ((headerStamp tmp0 s now colors).bind fun st => headerGid st gid).bind fun st =>
  (sliceTo st).bind fun head =>
  (headerTail st.1 line colors).bind fun st2 =>
  (sliceTo st2).map fun tail => ⟨head ++ file ++ tail, st2.1⟩

/-- Source: `formatLogEntry`. `loc` is the offset `time.Local` has at the instant
`entry.Time`; `tmp0` is the scratch array of the buffer that `getBuffer` handed out. -/
def formatLogEntry (loc : Int) (tmp0 : List Char) (entry : Entry) (stackBytes : Str)
    (colors : Option colorProfile) : Option buffer :=
  (formatHeader tmp0 entry.Severity (Time.Unix 0 entry.Time loc) entry.Goroutine
    entry.File entry.Line colors).bind fun buf =>
  let bytes := buf.bytes ++ entry.Message
  bytes.getLast?.map fun last =>
  let bytes := if last ≠ '\n' then bytes ++ ['\n'] else bytes
  let bytes := if stackBytes.length > 0 then bytes ++ stackBytes else bytes
  ⟨bytes, buf.tmp⟩

/-- The length in bytes of a rune sequence (`len` of the string, `bytes.Buffer.Len`). -/
def byteLen (s : Str) : Nat := (s.map Char.utf8Size).sum

/-- A fresh buffer's scratch array: 64 zero bytes. -/
def zeroTmp : List Char := List.replicate 64 (Char.ofNat 0)

/-! ## The line format, as the specification words it -/

/-- The zero-padded decimal of `n` in exactly `k` digits (the low `k` digits of `n`). -/
def fixedWidth : Nat → Nat → Str
  | 0, _ => []
  | k + 1, n => fixedWidth k (n / 10) ++ [Nat.digitChar (n % 10)]

/-- The shortest decimal representation of a natural number: generic decimal
formatting (`Nat.toDigits 10`, the digits of `Nat.repr`). -/
def decimal (n : Nat) : Str := Nat.toDigits 10 n

/-- The decimal representation of an integer, with a minus sign when negative. -/
def decimalInt (i : Int) : Str :=
  if i < 0 then '-' :: decimal (-i).toNat else decimal i.toNat

/-- The severity letter of the line format: I, W, E or F. -/
def severityLetter (s : Int) : Char :=
  if s = Severity_INFO then 'I'
  else if s = Severity_WARNING then 'W'
  else if s = Severity_ERROR then 'E'
  else 'F'

/-- The timestamp text `yymmdd hh:mm:ss.uuuuuu` of a time in the years 2000-2099. -/
def stampText (t : Time) : Str :=
  fixedWidth 2 (t.Date.1 - 2000).toNat ++ fixedWidth 2 t.Date.2.1.toNat
    ++ fixedWidth 2 t.Date.2.2.toNat ++ [' ']
    ++ fixedWidth 2 t.Clock.1.toNat ++ [':'] ++ fixedWidth 2 t.Clock.2.1.toNat ++ [':']
    ++ fixedWidth 2 t.Clock.2.2.toNat ++ ['.'] ++ fixedWidth 6 (t.Nanosecond / 1000).toNat

/-- The log line of the specification, `Lyymmdd hh:mm:ss.uuuuuu [gid ]file:line  message`
with a newline unless the message ends in one, then the raw stack bytes; `lineNo` is the
text of the line-number field. -/
def lineFormat (loc : Int) (e : Entry) (stackBytes : Str) (lineNo : Str) : Str :=
  [severityLetter e.Severity] ++ stampText (Time.Unix 0 e.Time loc) ++ [' ']
    ++ (if e.Goroutine > 0 then decimal e.Goroutine.toNat ++ [' '] else [])
    ++ e.File ++ [':'] ++ lineNo ++ [' ', ' '] ++ e.Message
    ++ (if e.Message.getLast? = some '\n' then [] else ['\n'])
    ++ stackBytes

/-- Scratch invariant of the formatter: the array has 64 bytes, of which the first `n`
are `acc`. -/
def Scratch (st : List Char × Nat) (acc : Str) : Prop :=
  st.1.length = 64 ∧ st.2 = acc.length ∧ st.1.take st.2 = acc

/-- Checks `monthDay` on one day of the year: the month and the day are in range and
count back to the same day of the year. -/
def monthDayOK (leap : Bool) (yday : Int) : Bool :=
  let md := monthDay leap yday
  decide (1 ≤ md.1) && decide (md.1 ≤ 12) && decide (1 ≤ md.2)
    && decide (md.2 ≤ daysInMonth leap md.1)
    && decide (daysBeforeAt (md.1 - 1) + (if leap && decide (md.1 ≥ 3) then 1 else 0)
        + (md.2 - 1) = yday)

/-- The entry used to witness the line-format theorem. -/
def sampleEntry : Entry :=
  ⟨Severity_INFO, 1478000000123456789, 12, "clog.go".toList, 42, "hello".toList⟩

/-! ## The header pattern `entryRE`

Go's `regexp` package gives leftmost-first (Perl-like) matches. An expression is modelled in
list-of-successes form: every way it can match a prefix of the input, in priority order,
each with its value and the unconsumed rest. The first element of the list at the leftmost
position that has one is the match the package reports. -/

/-- A matcher: all matches of a prefix of the input, in priority order. -/
abbrev Re (α : Type) := Str → List (α × Str)

/-- One rune of a character class. -/
def Re.cls (p : Char → Bool) : Re Char
  | c :: t => if p c then [(c, t)] else []
  | [] => []

/-- The literal rune `c`. -/
def Re.lit (c : Char) : Re Char := Re.cls (fun x => x == c)

/-- Greedy repetition `x*` of a character class: the longest run first, then shorter
ones. -/
def Re.star (p : Char → Bool) : Re Str
  | [] => [([], [])]
  | c :: t =>
    if p c then (Re.star p t).map (fun r => (c :: r.1, r.2)) ++ [([], c :: t)]
    else [([], c :: t)]

/-- Greedy repetition `x+` of a character class. -/
def Re.plus (p : Char → Bool) : Re Str := fun s =>
  (Re.cls p s).flatMap fun r => (Re.star p r.2).map fun q => (r.1 :: q.1, q.2)

/-- Counted repetition `x{n}` of a character class. -/
def Re.rep (p : Char → Bool) : Nat → Re Str
  | 0 => fun s => [([], s)]
  | n + 1 => fun s =>
    (Re.cls p s).flatMap fun r => (Re.rep p n r.2).map fun q => (r.1 :: q.1, q.2)

/-- Greedy option `x?`: the match of `x` first, then the empty match. -/
def Re.opt {α : Type} (a : Re α) : Re (Option α) := fun s =>
  (a s).map (fun r => (some r.1, r.2)) ++ [(none, s)]

/-- The class `\d`: the ASCII digits. -/
def isDigit (c : Char) : Bool := decide ('0' ≤ c) && decide (c ≤ '9')

/-- The class `[IWEF]`. -/
def isSeverityChar (c : Char) : Bool := c == 'I' || c == 'W' || c == 'E' || c == 'F'

/-- The class `[^:]`; a negated class matches a newline too. -/
def notColon (c : Char) : Bool := c != ':'

/-- The class `.`: any rune but a newline. -/
def notNewline (c : Char) : Bool := c != '\n'

/-- Group 2 of `entryRE`: `\d{6} \d{2}:\d{2}:\d{2}.\d{6}`. -/
def reStamp : Re Str := fun s =>
  (Re.rep isDigit 6 s).flatMap fun a =>
  (Re.lit ' ' a.2).flatMap fun b =>
  (Re.rep isDigit 2 b.2).flatMap fun c =>
  (Re.lit ':' c.2).flatMap fun d =>
  (Re.rep isDigit 2 d.2).flatMap fun e =>
  (Re.lit ':' e.2).flatMap fun f =>
  (Re.rep isDigit 2 f.2).flatMap fun g =>
  (Re.cls notNewline g.2).flatMap fun h =>
  (Re.rep isDigit 6 h.2).map fun i =>
  (a.1 ++ [b.1] ++ c.1 ++ [d.1] ++ e.1 ++ [f.1] ++ g.1 ++ [h.1] ++ i.1, i.2)

/-- The body of the optional group `(?:(\d+) )?` of `entryRE`. -/
def reGid : Re Str := fun s =>
  (Re.plus isDigit s).flatMap fun a => (Re.lit ' ' a.2).map fun b => (a.1, b.2)

/-- The submatches `m[1]` to `m[6]` of `entryRE`; a group that did not take part in the
match is empty. -/
structure Submatch where
  m1 : Str
  m2 : Str
  m3 : Str
  m4 : Str
  m5 : Str
  m6 : Str
deriving DecidableEq, Repr

/-- The opening of `entryRE` after its anchor: `([IWEF])(\d{6} \d{2}:\d{2}:\d{2}.\d{6}) `,
with the values of groups 1 and 2. -/
def reHead : Re (Char × Str) := fun s =>
  (Re.cls isSeverityChar s).flatMap fun r1 =>
  (reStamp r1.2).flatMap fun r2 =>
  (Re.lit ' ' r2.2).map fun r3 => ((r1.1, r2.1), r3.2)

/-- The closing of `entryRE`: `([^:]+):(\d+)  (.*)`, with the values of groups 4, 5
and 6. -/
def reTail : Re (Str × Str × Str) := fun s =>
  (Re.plus notColon s).flatMap fun r5 =>
  (Re.lit ':' r5.2).flatMap fun r6 =>
  (Re.plus isDigit r6.2).flatMap fun r7 =>
  (Re.lit ' ' r7.2).flatMap fun r8 =>
  (Re.lit ' ' r8.2).flatMap fun r9 =>
  (Re.star notNewline r9.2).map fun r10 => ((r5.1, r7.1, r10.1), r10.2)

/-- Source: `entryRE` after its anchor,
`([IWEF])(\d{6} \d{2}:\d{2}:\d{2}.\d{6}) (?:(\d+) )?([^:]+):(\d+)  (.*)`. -/
def entryREBody : Re Submatch := fun s =>
  (reHead s).flatMap fun h =>
  (Re.opt reGid h.2).flatMap fun g =>
  (reTail g.2).map fun t =>
  (⟨[h.1.1], h.1.2, g.1.getD [], t.1.1, t.1.2.1, t.1.2.2⟩, t.2)

/-- The leftmost match of `entryRE` (`(?m)^` followed by the body) in a text: its start
index and its submatches. `bol` says whether the current position is the beginning of the
text or follows a newline. -/
def entryREFind : Bool → Str → Option (Nat × Submatch)
  | bol, [] => if bol then ((entryREBody []).head?).map fun r => (0, r.1) else none
  | bol, c :: t =>
    match (if bol then (entryREBody (c :: t)).head? else none) with
    | some r => some (0, r.1)
    | none => (entryREFind (c == '\n') t).map fun r => (r.1 + 1, r.2)

/-- Go `entryRE.FindSubmatch(b)`. -/
def FindSubmatch (b : Str) : Option Submatch := (entryREFind true b).map fun r => r.2

/-- Go `entryRE.FindIndex(b)`, first component: the start of the leftmost match. -/
def FindIndex (b : Str) : Option Nat := (entryREFind true b).map fun r => r.1

/-! ## The parts of `time` and `strconv` the decoder uses -/

/-- The value of a decimal digit rune. -/
def digitVal (c : Char) : Int := (c.toNat : Int) - 48

/-- The value of a run of decimal digits. -/
def digitsVal (s : Str) : Int := s.foldl (fun acc c => acc * 10 + digitVal c) 0

/-- The digits of a number text after its optional sign. -/
def stripSign (s : Str) : Str :=
  match s with
  | '+' :: t => t
  | '-' :: t => t
  | _ => s

/-- Go `strconv.Atoi` on a 64-bit platform: an optional sign and decimal digits; `none`
for a syntax error or a value outside the int64 range. -/
def Atoi (s : Str) : Option Int :=
  let body := stripSign s
  let neg := s.head? == some '-'
  if body.isEmpty || !body.all isDigit then none
  else
    let v := if neg then -digitsVal body else digitsVal body
    if v < -(2 ^ 63) ∨ 2 ^ 63 ≤ v then none else some v

/-- Go `time.getnum`: one or two digits (`fixed`: exactly two). -/
def getnum (s : Str) (fixed : Bool) : Option (Int × Str) :=
  match s with
  | a :: b :: t =>
    if isDigit a then
      if isDigit b then some (digitVal a * 10 + digitVal b, t)
      else if fixed then none else some (digitVal a, b :: t)
    else none
  | [a] => if isDigit a && !fixed then some (digitVal a, []) else none
  | [] => none

/-- The two-digit year of layout element `06`: `time.atoi` of the first two bytes (an
optional sign, then digits only), 69..99 in the 1900s and the rest in the 2000s. -/
def parseYear (s : Str) : Option (Int × Str) :=
  match s with
  | a :: b :: t =>
    let y : Option Int :=
      if isDigit a && isDigit b then some (digitVal a * 10 + digitVal b)
      else if (a == '+' || a == '-') && isDigit b then
        some (if a == '-' then -digitVal b else digitVal b)
      else none
    y.map fun y => (if y ≥ 69 then y + 1900 else y + 2000, t)
  | _ => none

/-- A literal byte of the layout that must be next in the value. -/
def expect (c : Char) (s : Str) : Option Str :=
  match s with
  | x :: t => if x == c then some t else none
  | [] => none

/-- The layout element `.999999`: a period and up to nine digits give the nanoseconds; when
the value does not continue with a period and a digit, the fraction counts as omitted and
the value is left as it is. This is package `time` of the Go releases the source was
written for; from Go 1.17 on a comma is taken like the period. -/
def parseFrac (s : Str) : Int × Str :=
  match s with
  | '.' :: d :: t =>
    if isDigit d then
      let ds := (d :: t).takeWhile isDigit |>.take 9
      (digitsVal ds * 10 ^ (9 - ds.length), (d :: t).drop ds.length)
    else (0, s)
  | _ => (0, s)

/-- Go `time.Location`, as far as `time.Date` uses it: `lookup sec` is
`Location.lookup(sec)`, which gives the offset (seconds east of UTC) in effect at the Unix
time `sec` and the Unix times at which that offset begins and ends to be in effect (the
end is exclusive). A zone with daylight saving time has several such periods. -/
structure Location where
  lookup : Int → Int × Int × Int

/-- The offset of the zone at the Unix time `sec`. -/
def Location.offset (z : Location) (sec : Int) : Int := (z.lookup sec).1

/-- Go `time.FixedZone` (and `time.UTC` for offset 0): one offset from the first to the
last instant of an int64 (-2^63 to 2^63 - 1). -/
def Location.fixed (offset : Int) : Location :=
  ⟨fun _ => (offset, -9223372036854775808, 9223372036854775807)⟩

/-- Go `time.UTC`. -/
def UTC : Location := Location.fixed 0

/-- Go `time.Date(year, month, day, hour, min, sec, nsec, loc)` for fields already in
range (`time.Parse` has checked them): the fields are first read as UTC, the zone is
looked up at that instant, and when the instant less the offset found falls before or
after the period found, the offset of the neighbouring period is taken. -/
def Location.Date (z : Location) (year month day hour min sec nsec : Int) : Time :=
  let unix := (Time.ofDate year month day hour min sec nsec 0).sec
  let r := z.lookup unix
  let offset :=
    if r.1 ≠ 0 then
      if unix - r.1 < r.2.1 then (z.lookup (r.2.1 - 1)).1
      else if unix - r.1 ≥ r.2.2 then (z.lookup r.2.2).1
      else r.1
    else 0
  ⟨unix - offset, nsec, z.offset (unix - offset)⟩

/-- Go `time.ParseInLocation("060102 15:04:05.999999", value, loc)`: `none` stands for a
parse error. -/
def parseTime (value : Str) (z : Location) : Option Time :=
  (parseYear value).bind fun y =>
  (getnum y.2 true).bind fun mo =>
  (if mo.1 ≤ 0 ∨ 12 < mo.1 then none else getnum mo.2 true).bind fun d =>
  (expect ' ' d.2).bind fun s1 =>
  (getnum s1 false).bind fun h =>
  (if 24 ≤ h.1 then none else expect ':' h.2).bind fun s2 =>
  (getnum s2 true).bind fun mi =>
  (if 60 ≤ mi.1 then none else expect ':' mi.2).bind fun s3 =>
  (getnum s3 true).bind fun sec =>
  if 60 ≤ sec.1 then none
  else
    let fr := parseFrac sec.2
    if fr.2.length > 0 then none
    else if d.1 < 1 ∨ d.1 > daysIn mo.1 y.1 then none
    else some (z.Date y.1 mo.1 d.1 h.1 mi.1 sec.1 fr.1)

/-! ## The decoder -/

/-- Source: `EntryDecoder.split`, the scanner's split function: the advance and the
token. -/
def split (data : Str) (atEOF : Bool) : Nat × Option Str :=
  if atEOF && data.length == 0 then (0, none)
  else
    match FindIndex (data.drop 1) with
    | none => if atEOF then (data.length, some data) else (0, none)
    | some i => (i + 1, some (data.take (i + 1)))

/-- Source: `EntryDecoder`: the input the scanner has not yet handed out. The reader is one
without read errors that reports the end of its input on a read of its own (a file, a
buffer in memory). -/
structure EntryDecoder where
  rest : Str
deriving DecidableEq, Repr

/-- Go `bufio.MaxScanTokenSize`: the largest buffer `bufio.Scanner` allocates. -/
def maxScanTokenSize : Nat := 64 * 1024

/-- The length in bytes of a match of `entryRE` up to the two blanks before group 6: the
shortest text in which the header matches. -/
def Submatch.headBytes (m : Submatch) : Nat :=
  byteLen m.m1 + byteLen m.m2 + 1 + (if m.m3.isEmpty then 0 else byteLen m.m3 + 1)
    + byteLen m.m4 + 1 + byteLen m.m5 + 2

/-- The number of bytes of the input `data` that the scanner's buffer has to hold before
`split` gives it a token. When a next header begins after the first byte, `split` finds it
as soon as the header is in the buffer up to the two blanks before its message. When
there is none, `split` gives the token only once the reader has reported the end of the
input, which takes a read into a buffer that still has room for a byte. -/
def scanWindow (data : Str) : Nat :=
  match entryREFind true (data.drop 1) with
  | some r => byteLen (data.take (r.1 + 1)) + r.2.headBytes
  | none => byteLen data + 1

/-- What a call of `bufio.Scanner.Scan` gives: a token and the decoder after it, the end of
the input (`Scan` is false and `Err` is nil), or `bufio.ErrTooLong` (`Scan` is false and
`Err` is that error). -/
inductive ScanResult where
  | token (tok : Str) (d : EntryDecoder)
  | eof
  | tooLong
deriving DecidableEq, Repr

/-- Go `bufio.Scanner.Scan` with `split`. The scanner calls `split` on the input it has
read so far, reads on while `split` asks for more, and grows its buffer up to
`maxScanTokenSize` bytes; when the buffer is full at that size and `split` has not given a
token, `Scan` fails with `bufio.ErrTooLong`. A match of `entryRE` in the part read so far
is a match at the same place in the whole input, so the token is the one `split` gives on
the whole input at its end, provided the buffer can hold `scanWindow` bytes. -/
def EntryDecoder.scan (d : EntryDecoder) : ScanResult :=
  match split d.rest true with
  | (adv, some tok) =>
    if scanWindow d.rest ≤ maxScanTokenSize then .token tok ⟨d.rest.drop adv⟩ else .tooLong
  | (_, none) => .eof

/-- What `Decode` returns: `io.EOF`, the scanner's error `bufio.ErrTooLong`, or the error
of `time.ParseInLocation` or of `strconv.Atoi`. -/
inductive DecodeError where
  | EOF
  | tooLong
  | parseTime
  | atoi
deriving DecidableEq, Repr

/-- The state after a call of `Decode`: the error returned (`none` is nil), the entry the
caller passed in as the call left it, and the decoder. After `bufio.ErrTooLong` the
decoder is given back as it was: what a further call makes of the scanner's full buffer
is not followed. -/
structure DecodeResult where
  err : Option DecodeError
  entry : Entry
  dec : EntryDecoder
deriving DecidableEq, Repr

/-- The body of the loop of `Decode` once `entryRE` has matched: the assignments to
`*entry`, in source order, up to the first error. -/
def decodeMatch (z : Location) (m : Submatch) (entry : Entry) : Option DecodeError × Entry :=
  let sev : Int :=
    (severityChar.indexOf? (m.m1.headD 'I')).map (fun i => (i : Int)) |>.getD (-1)
  let entry := { entry with Severity := sev + 1 }
  match parseTime m.m2 z with
  | none => (some .parseTime, entry)
  | some t =>
    let entry := { entry with Time := t.UnixNano }
    let g : Option Entry :=
      if m.m3.length > 0 then (Atoi m.m3).map fun g => { entry with Goroutine := g }
      else some entry
    match g with
    | none => (some .atoi, entry)
    | some entry =>
      let entry := { entry with File := m.m4 }
      match Atoi m.m5 with
      | none => (some .atoi, entry)
      | some line => (none, { entry with Line := line, Message := m.m6 })

/-- The loop of `Decode`; every iteration consumes a token, so `fuel` above the length of
the input is never used up (`none` is an exhausted `fuel`). -/
def decodeLoop (z : Location) : Nat → EntryDecoder → Entry → Option DecodeResult
  | 0, _, _ => none
  | fuel + 1, d, entry =>
    match d.scan with
    | .eof => some ⟨some .EOF, entry, d⟩
    | .tooLong => some ⟨some .tooLong, entry, d⟩
    | .token b d2 =>
      match FindSubmatch b with
      | none => decodeLoop z fuel d2 entry
      | some m =>
        let r := decodeMatch z m entry
        some ⟨r.1, r.2, d2⟩

/-- Source: `EntryDecoder.Decode`; `z` is `time.Local`. -/
def EntryDecoder.Decode (z : Location) (d : EntryDecoder) (entry : Entry) :
    Option DecodeResult :=
  decodeLoop z (d.rest.length + 1) d entry

/-- The shape of group 2 of `entryRE`: six digits, a blank, two digits, a colon, two digits,
a colon, two digits, any rune but a newline, six digits. -/
def StampShape (st : Str) : Prop :=
  ∃ d6 h m s x u, st = d6 ++ ' ' :: (h ++ ':' :: (m ++ ':' :: (s ++ x :: u))) ∧
    d6.length = 6 ∧ d6.all isDigit = true ∧ h.length = 2 ∧ h.all isDigit = true ∧
    m.length = 2 ∧ m.all isDigit = true ∧ s.length = 2 ∧ s.all isDigit = true ∧
    notNewline x = true ∧ u.length = 6 ∧ u.all isDigit = true

/-- A file name that reads as a goroutine id: decimal digits, a blank and at least one more
rune. The optional group `(?:(\d+) )?` of `entryRE` takes such digits as the id when the
line carries no id of its own. -/
def gidLike (file : Str) : Bool :=
  !(file.takeWhile isDigit).isEmpty && (file.dropWhile isDigit).head? == some ' '
    && !(file.dropWhile isDigit).tail.isEmpty

/-- Days from 0001-01-01 to the first day of a year (the year part of `daysSinceYear1`). -/
def yearStart (year : Int) : Int :=
  let y := year - 1
  let n400 := y / 400
  let y := y - 400 * n400
  let d := 146097 * n400
  let n100 := y / 100
  let y := y - 100 * n100
  let d := d + 36524 * n100
  let n4 := y / 4
  let y := y - 4 * n4
  let d := d + 1461 * n4
  d + 365 * y

/-- No match of the header pattern begins inside `x` right after one of its newlines, when
`x` is followed by `y`. -/
def noHeaderWithin (y : Str) : Str → Prop
  | [] => True
  | c :: t => (c = '\n' → t ≠ [] → entryREBody (t ++ y) = []) ∧ noHeaderWithin y t

/-- Whether the position after `x` begins a line: `x` ends in a newline, or `x` is empty
and the position before it began one. -/
def endsLine (bol : Bool) (x : Str) : Bool :=
  match x.getLast? with
  | none => bol
  | some c => c == '\n'

/-- A header line from its fields: severity letter `c`, timestamp `st`, goroutine-id digits
`g` (empty when the id is left out), file, line-number digits `ld` and message, closed by a
newline. -/
def headerLine (c : Char) (st g file ld msg : Str) : Str :=
  c :: (st ++ ' ' :: ((if g = [] then [] else g ++ [' '])
    ++ (file ++ ':' :: (ld ++ ' ' :: ' ' :: (msg ++ ['\n'])))))

/-- The fields of a header line are well formed: a severity letter, a timestamp of the
header's shape, digits for the id and the line number, a file name that is not empty, has
no colon and, when the id is left out, does not read as an id, and a message without a
newline. -/
def LineOK (c : Char) (st g file ld msg : Str) : Prop :=
  isSeverityChar c = true ∧ StampShape st ∧ g.all isDigit = true ∧ file ≠ [] ∧
    file.all notColon = true ∧ (g ≠ [] ∨ gidLike file = false) ∧ ld ≠ [] ∧
    ld.all isDigit = true ∧ msg.all notNewline = true

/-- A block of stack bytes `S` is harmless before the text `rest`: it is empty or ends in a
newline, and no match of the header pattern begins at one of its lines. -/
def StackOK (rest S : Str) : Prop :=
  (S = [] ∨ S.getLast? = some '\n') ∧ (S ≠ [] → entryREBody (S ++ rest) = []) ∧
    noHeaderWithin rest S

/-- The goroutine-id digits of an encoded line: none when the id is not positive. -/
def gidText (gid : Int) : Str := if gid > 0 then decimal gid.toNat else []

/-- The domain of the round trip, beyond the severity and the int64 ranges: a local year
the two-digit year field reads back (2000-2068), a line number that is not negative, a file
name that is not empty, has no colon and, when the id is left out, does not read as an id,
and a message without a newline. -/
def RoundTripOK (loc : Int) (e : Entry) : Prop :=
  (2000 ≤ (Time.Unix 0 e.Time loc).Year ∧ (Time.Unix 0 e.Time loc).Year ≤ 2068) ∧
    0 ≤ e.Line ∧ e.File ≠ [] ∧ e.File.all notColon = true ∧
    (e.Goroutine > 0 ∨ gidLike e.File = false) ∧ e.Message.all notNewline = true

/-- The offset `time.Local` has at the instant of an entry. -/
def entryOffset (z : Location) (e : Entry) : Int := z.offset (e.Time / 1000000000)

/-- The zone is steady around the Unix time `sec`: the period in effect at `sec` holds
`sec`, and it is also the period in effect at `sec` shifted by its offset, which is where
`time.Date` looks the zone up. Every instant of a zone without transitions is such; in a
zone with daylight saving time the instants less than the offset away from a transition
are not. -/
def Location.steadyAt (z : Location) (sec : Int) : Prop :=
  (z.lookup sec).2.1 ≤ sec ∧ sec < (z.lookup sec).2.2 ∧
    z.lookup (sec + (z.lookup sec).1) = z.lookup sec

/-- The number of bytes `formatLogEntry` writes for an entry with its stack bytes (no
colour profile); 0 when it panics. -/
def encodedLen (loc : Int) (c : Entry × Str) : Nat :=
  match formatLogEntry loc zeroTmp c.1 c.2 none with
  | some buf => byteLen buf.bytes
  | none => 0

/-- The periods of America/New_York from November 2015 to March 2017, from the time zone
database (eastern standard time is 18000 seconds behind UTC, daylight time 14400): a zone
with daylight saving time, to show what `Decode` makes of the hour that the clock shows
twice. Instants outside these periods are given the first or the last period. -/
def newYork : Location :=
  ⟨fun t =>
    if t < 1457852400 then (-18000, 1446357600, 1457852400)
    else if t < 1478412000 then (-14400, 1457852400, 1478412000)
    else (-18000, 1478412000, 1489302000)⟩

/-- Source: `modulePat`, one filter of the `--vmodule` flag. -/
structure modulePat where
  pattern : Str
  literal : Bool
  level : Int
deriving DecidableEq, Repr

/-- Source: `traceLocation`, the setting of `-log_backtrace_at`. -/
structure traceLocation where
  file : Str
  line : Int
deriving DecidableEq, Repr

/-- Source: `syncBuffer`, the log file sink: the fields that are not handles. -/
structure syncBuffer where
  lastRotation : Int
  nbytes : Int
deriving DecidableEq, Repr

/-- Source: `loggingT`, the state of the logging engine. `freeList` is the linked list of
free buffers, head first; `file` is `none` for a nil sink; `vmap` is the call-site cache,
a map from program counter to level kept as an association list (newest binding first);
`vmodule` is `vmodule.filter`. The locks, `pcs`, `gcNotify` and `exitFunc` are not state
of the model (`exitFunc` is called through the event `exitCall`). -/
structure loggingT where
  nocolor : Bool
  hasColorProfile : Bool
  colorProfile : Option colorProfile
  noStderrRedirect : Bool
  stderrThreshold : Int
  fileThreshold : Int
  freeList : List buffer
  file : Option syncBuffer
  syncWrites : Bool
  vmap : List (Nat × Int)
  filterLength : Int
  traceLocation : traceLocation
  disableDaemons : Bool
  vmodule : List modulePat
  verbosity : Int
deriving DecidableEq, Repr

/-- Source: `tracebackNone`. -/
def tracebackNone : Int := 0

/-- Source: `tracebackSingle`. -/
def tracebackSingle : Int := 1

/-- Source: `tracebackAll`. -/
def tracebackAll : Int := 2

/-- What the outside world answers during one call of `outputLogEntry`: the offset of
`time.Local` at the time of the call, `time.Now().UnixNano()`, `goid.Get()`, the startup policy `traceback`, the
flag `fatalNoStacks`, the two results of `getStacks`, `logDir.isSet()`, whether
`createFile`, `OrigStderr.Write` and `l.file.Write` fail, what `OrigStderr.Stat`, `GOOS`
and `TERM` say to `getTermColorProfile`, and whether the installed `exitFunc` returns
(`os.Exit` does not). -/
structure Env where
  loc : Int
  now : Int
  goid : Int
  traceback : Int
  fatalNoStacks : Nat
  stacksSingle : Str
  stacksAll : Str
  logDirSet : Bool
  createFails : Bool
  stderrWriteFails : Bool
  fileWriteFails : Bool
  statFails : Bool
  isWindows : Bool
  charDevice : Bool
  term : Str
  exitReturns : Bool
deriving DecidableEq, Repr

/-- What a call does to the outside world. `timeoutFlush n` is `timeoutFlush` with a bound
of `n` seconds; `exitCall code` is a call of the exit function. -/
inductive Event where
  | stderrWrite (data : Str)
  | createFile
  | fileWrite (data : Str)
  | fileFlush
  | fileSync
  | exitReport
  | logExitFuncCall
  | flushAll
  | timeoutFlush (seconds : Nat)
  | exitCall (code : Int)
deriving DecidableEq, Repr

/-- How a call ended: it returned, it panicked, or the exit function ended the process. -/
inductive Status where
  | returned
  | panicked
  | exited (code : Int)
deriving DecidableEq, Repr

/-- The engine during and after a call: its state, whether the package variable
`logExitFunc` is set, the events so far, and how the call stands. -/
structure Outcome where
  l : loggingT
  logExitFunc : Bool
  events : List Event
  status : Status
deriving DecidableEq, Repr

/-- Continue with `f` unless the call has already panicked or exited. -/
def Outcome.andThen (o : Outcome) (f : Outcome → Outcome) : Outcome :=
  match o.status with
  | .returned => f o
  | _ => o

/-- Record one event. -/
def Outcome.emit (o : Outcome) (e : Event) : Outcome :=
  { o with events := o.events ++ [e] }

/-- Source: `loggingT.getBuffer`: the head of the free list, unlinked and reset, or a new
buffer. -/
def getBuffer (l : loggingT) : buffer × loggingT :=
  match l.freeList with
  | [] => (⟨[], zeroTmp⟩, l)
  | b :: rest => ({ b with bytes := [] }, { l with freeList := rest })

/-- Source: `loggingT.putBuffer`: big buffers are dropped. -/
def putBuffer (l : loggingT) (b : buffer) : loggingT :=
  if byteLen b.bytes ≥ 256 then l else { l with freeList := b :: l.freeList }

/-- The first call of `getTermColorProfile`, after it has set `hasColorProfile`: the colour
profile the terminal gets; the outer `none` when it panics (Stat failed off Windows). -/
def detectColors (env : Env) (l : loggingT) : Option (Option colorProfile) :=
  if l.nocolor then some l.colorProfile
  else if env.statFails then
    if env.isWindows then some l.colorProfile else none
  else if env.charDevice then
    if env.term = "ansi".toList ∨ env.term = "xterm-color".toList
        ∨ env.term = "screen".toList then some (some colorProfile8)
    else if env.term = "xterm-256color".toList ∨ env.term = "screen-256color".toList then
      some (some colorProfile256)
    else some l.colorProfile
  else some l.colorProfile

/-- Source: `loggingT.getTermColorProfile`; `none` when it panics. -/
def getTermColorProfile (env : Env) (l : loggingT) : Option (Option colorProfile × loggingT) :=
  if l.hasColorProfile then some (l.colorProfile, l)
  else (detectColors env l).map fun c =>
    (c, { l with hasColorProfile := true, colorProfile := c })

/-- Source: `loggingT.outputToStderr` with `processForStderr`: format with the terminal's
colour profile, write to `OrigStderr` (a failed write panics), return the buffer. -/
def outputToStderr (env : Env) (o : Outcome) (entry : Entry) (stackBytes : Str) : Outcome :=
  match getTermColorProfile env o.l with
  | none => { o with status := .panicked }
  | some (colors, l1) =>
    let (b, l2) := getBuffer l1
    match formatLogEntry env.loc b.tmp entry stackBytes colors with
    | none => { o with l := l2, status := .panicked }
    | some buf =>
      let o := { o with l := l2, events := o.events ++ [Event.stderrWrite buf.bytes] }
      if env.stderrWriteFails then { o with status := .panicked }
      else { o with l := putBuffer o.l buf }

/-- The file branch of `outputLogEntry` once the sink exists: `processForFile`, the write
(a failed write panics), the flush and sync of `syncWrites`, and `putBuffer`. The call
`l.file.Write(data)` is one event here; what the sink does inside it, rotation included,
is `syncBuffer.Write`. -/
def writeToFile (env : Env) (o : Outcome) (entry : Entry) (stackBytes : Str) : Outcome :=
  let (b, l1) := getBuffer o.l
  match formatLogEntry env.loc b.tmp entry stackBytes none with
  | none => { o with l := l1, status := .panicked }
  | some buf =>
    let o := { o with l := l1, events := o.events ++ [Event.fileWrite buf.bytes] }
    if env.fileWriteFails then { o with status := .panicked }
    else
      let o := if o.l.syncWrites then { o with events := o.events ++ [Event.fileFlush, Event.fileSync] }
        else o
      { o with l := putBuffer o.l buf }

/-- A call of the exit function `l.exitFunc`. -/
def callExit (env : Env) (o : Outcome) (code : Int) : Outcome :=
  let o := o.emit (.exitCall code)
  if env.exitReturns then o else { o with status := .exited code }

/-- Source: `loggingT.exit`: report the error on the original stderr, then either call
`logExitFunc` and return, or flush and call the exit function with status 2. -/
def loggingT.exit (env : Env) (o : Outcome) : Outcome :=
  let o := o.emit .exitReport
  if o.logExitFunc then o.emit .logExitFuncCall
  else callExit env (o.emit .flushAll) 2

/-- Source: `traceLocation.isSet`. -/
def traceLocation.isSet (t : traceLocation) : Bool := t.line > 0

/-- The text after the last `/` of a path, or the path itself when it has none. -/
def afterLastSlash (file : Str) : Str :=
  (file.reverse.takeWhile (fun c => c != '/')).reverse

/-- Source: `traceLocation.match`. -/
def traceLocation.match (t : traceLocation) (file : Str) (line : Int) : Bool :=
  if t.line ≠ line then false else t.file == afterLastSlash file

/-- The stack bytes `outputLogEntry` attaches to an entry. -/
def stacksFor (env : Env) (l : loggingT) (s : Int) (file : Str) (line : Int) : Str :=
  if s = Severity_FATAL then
    if env.traceback = tracebackSingle then env.stacksSingle
    else if env.traceback = tracebackAll then env.stacksAll
    else []
  else if l.traceLocation.isSet && l.traceLocation.match file line then env.stacksSingle
  else []

/-- The end of `outputLogEntry`: on a FATAL entry the bounded flush and the exit
function, with status 1 when `fatalNoStacks` is set and 255 otherwise. -/
def fatalExit (env : Env) (o : Outcome) (s : Int) : Outcome :=
  if s = Severity_FATAL then
    let o := o.emit (.timeoutFlush 10)
    if env.fatalNoStacks > 0 then callExit env o 1 else callExit env o 255
  else o

/-- Source: `loggingT.outputLogEntry`. `logExitFunc` says whether the package variable
`logExitFunc` is set when the call begins. -/
def outputLogEntry (env : Env) (l : loggingT) (logExitFunc : Bool) (s : Int) (file : Str)
    (line : Int) (msg : Str) : Outcome :=
  let entry : Entry := ⟨s, env.now, env.goid, file, line, msg⟩
  let stackBytes := stacksFor env l s file line
  let o : Outcome := ⟨l, (if s = Severity_FATAL then true else logExitFunc), [], .returned⟩
  let o := if s ≥ l.stderrThreshold then outputToStderr env o entry stackBytes else o
  o.andThen fun o =>
    if env.logDirSet && decide (s ≥ o.l.fileThreshold) then
      match o.l.file with
      | none =>
        if env.createFails then
          ((o.emit .createFile).andThen fun o => outputToStderr env o entry stackBytes).andThen
            fun o => loggingT.exit env o
        else
          let o := { o.emit .createFile with l := { o.l with file := some ⟨0, 0⟩ } }
          (writeToFile env o entry stackBytes).andThen fun o => fatalExit env o s
      | some _ => (writeToFile env o entry stackBytes).andThen fun o => fatalExit env o s
    else fatalExit env o s

/-- Whether the call wrote to stderr at all; the bytes written are in `stderrWrites`. -/
def Outcome.wroteStderr (o : Outcome) : Bool :=
  o.events.any fun e => match e with
    | .stderrWrite _ => true
    | _ => false

/-- Whether the call wrote to the log file at all; the bytes written are in
`fileWrites`. -/
def Outcome.wroteFile (o : Outcome) : Bool :=
  o.events.any fun e => match e with
    | .fileWrite _ => true
    | _ => false

/-- The exit calls of the call, in order. -/
def Outcome.exitCalls (o : Outcome) : List Int :=
  o.events.filterMap fun e => match e with
    | .exitCall c => some c
    | _ => none

/-- Whether a bounded flush was attempted during the call. -/
def Outcome.flushed (o : Outcome) : Bool :=
  o.events.any fun e => match e with
    | .timeoutFlush _ => true
    | _ => false

/-- The fields of the engine state that formatting and the buffer pool leave alone. -/
def sameRouting (a b : loggingT) : Prop :=
  a.file = b.file ∧ a.fileThreshold = b.fileThreshold ∧ a.stderrThreshold = b.stderrThreshold ∧
    a.syncWrites = b.syncWrites

/-- The file is wanted but cannot be created: a log directory is configured, the severity
reaches the file threshold, no sink is open and `createFile` fails. -/
def createFailure (env : Env) (l : loggingT) (s : Int) : Prop :=
  env.logDirSet = true ∧ s ≥ l.fileThreshold ∧ l.file = none ∧ env.createFails = true

instance (env : Env) (l : loggingT) (s : Int) : Decidable (createFailure env l s) := by
  unfold createFailure; infer_instance

/-- A state and an environment used to witness the dispatcher theorems: both thresholds at
INFO, no sink yet, a log directory configured, nothing fails, and an exit function that
returns (as the one tests install). -/
def sampleLogging : loggingT :=
  ⟨false, true, none, false, Severity_INFO, Severity_INFO, [], none, false, [], 0, ⟨[], 0⟩,
    false, [], 0⟩

/-- See `sampleLogging`. -/
def sampleEnv : Env :=
  ⟨0, 1478000000123456789, 12, tracebackSingle, 0, "STACK1\n".toList, "STACKALL\n".toList,
    true, false, false, false, false, false, false, [], true⟩

/-- The events that end a call of `outputLogEntry`: nothing, or on FATAL the bounded flush
and the exit call. -/
def fatalEvents (env : Env) (s : Int) : List Event :=
  if s = Severity_FATAL then
    [Event.timeoutFlush 10, Event.exitCall (if env.fatalNoStacks > 0 then 1 else 255)]
  else []

/-- The events of a call of `outputLogEntry` that does not panic, in order; `d1`, `d2` and
`d3` are the formatted bytes of the stderr copy, of the stderr copy written when the file
cannot be created, and of the file copy. -/
def expectedEvents (env : Env) (l : loggingT) (logExitFunc : Bool) (s : Int)
    (d1 d2 d3 : Str) : List Event :=
  (if s ≥ l.stderrThreshold then [Event.stderrWrite d1] else []) ++
  (if env.logDirSet = true ∧ s ≥ l.fileThreshold then
    (if l.file = none then [Event.createFile] else []) ++
    (if l.file = none ∧ env.createFails = true then
      [Event.stderrWrite d2, Event.exitReport] ++
        (if s = Severity_FATAL ∨ logExitFunc = true then [Event.logExitFuncCall]
         else [Event.flushAll, Event.exitCall 2])
    else
      [Event.fileWrite d3] ++
        (if l.syncWrites = true then [Event.fileFlush, Event.fileSync] else []) ++
        fatalEvents env s)
  else fatalEvents env s)

/-- The colour profile `outputToStderr` formats with in the state `l`: the one
`getTermColorProfile` returns (no profile when it panics). -/
def termColors (env : Env) (l : loggingT) : Option colorProfile :=
  match getTermColorProfile env l with
  | some r => r.1
  | none => none

/-- The bytes `d` are the entry as `formatLogEntry` renders it, with the given stack bytes
and colour profile, in one of the buffers of the pool. -/
def EntryLine (env : Env) (entry : Entry) (stackBytes : Str)
    (colors : Option colorProfile) (d : Str) : Prop :=
  ∃ tmp buf, formatLogEntry env.loc tmp entry stackBytes colors = some buf ∧ d = buf.bytes

/-- The bytes written to stderr during the call, one element for each write, in order. -/
def Outcome.stderrWrites (o : Outcome) : List Str :=
  o.events.filterMap fun e => match e with
    | .stderrWrite d => some d
    | _ => none

/-- The bytes written to the log file during the call, one element for each write, in
order. -/
def Outcome.fileWrites (o : Outcome) : List Str :=
  o.events.filterMap fun e => match e with
    | .fileWrite d => some d
    | _ => none

/-! ## Verbosity: `--verbosity`, `--vmodule` and `VDepth`

Levels are `int32` values, kept as integers. `filepath.Match` of the Go library (the
Unix build) is modelled on rune sequences; for an ASCII pattern and name this is what the
library computes byte by byte. The call stack is read from a `CallSites`. -/

/-- The conversion `int32(n)`: two's complement wrap-around. -/
def int32 (n : Int) : Int := (n + 2 ^ 31) % 2 ^ 32 - 2 ^ 31

/-- Go: `filepath.Separator` of the Unix build. -/
def Separator : Char := '/'

/-- Go: the scan loop of `filepath.scanChunk`: the chunk up to the first `*` outside a
bracket expression, and the rest of the pattern; a backslash skips the next character. -/
def scanLoop : Bool → Str → Str × Str
  | _, [] => ([], [])
  | inrange, c :: t =>
    if c = '\\' then
      match t with
      | [] => ([c], [])
      | d :: t2 => (c :: d :: (scanLoop inrange t2).1, (scanLoop inrange t2).2)
    else if c = '[' then (c :: (scanLoop true t).1, (scanLoop true t).2)
    else if c = ']' then (c :: (scanLoop false t).1, (scanLoop false t).2)
    else if c = '*' ∧ inrange = false then ([], c :: t)
    else (c :: (scanLoop inrange t).1, (scanLoop inrange t).2)

/-- Go: `filepath.scanChunk`: whether the pattern begins with stars, the chunk after
them, and the rest. -/
def scanChunk (pattern : Str) : Bool × Str × Str :=
  (decide (pattern.head? = some '*'),
    (scanLoop false (pattern.dropWhile fun c => c = '*')).1,
    (scanLoop false (pattern.dropWhile fun c => c = '*')).2)

/-- Go: `filepath.getEsc`: one, possibly escaped, character of a bracket expression and
what follows it; `none` is `ErrBadPattern`. -/
def getEsc (chunk : Str) : Option (Char × Str) :=
  match chunk with
  | [] => none
  | c :: t =>
    if c = '-' ∨ c = ']' then none
    else
      match (if c = '\\' then t else c :: t) with
      | [] => none
      | r :: nchunk => if nchunk = [] then none else some (r, nchunk)

/-- Go: the range loop of `filepath.matchChunk` for the rune `r`: whether a range
matched and the chunk after the closing bracket. The outer `none` is exhausted fuel, the
inner one `ErrBadPattern`. -/
def classLoop : Nat → Char → Str → Nat → Bool → Option (Option (Bool × Str))
  | 0, _, _, _, _ => none
  | fuel + 1, r, chunk, nrange, matched =>
    if chunk.head? = some ']' ∧ nrange > 0 then some (some (matched, chunk.tail))
    else
      match getEsc chunk with
      | none => some none
      | some (lo, chunk1) =>
        if chunk1.head? = some '-' then
          match getEsc chunk1.tail with
          | none => some none
          | some (hi, chunk2) =>
            classLoop fuel r chunk2 (nrange + 1) (matched || decide (lo ≤ r ∧ r ≤ hi))
        else classLoop fuel r chunk1 (nrange + 1) (matched || decide (lo ≤ r ∧ r ≤ lo))

/-- The three results of `filepath.matchChunk`: `(rest, true, nil)`, `("", false, nil)`
and `("", false, ErrBadPattern)`. -/
inductive ChunkResult where
  | matched (rest : Str)
  | failed
  | bad
deriving DecidableEq, Repr

/-- Go: the bracket expression of `filepath.matchChunk`, after the `[`, for the rune `r`
of the name: `matched` carries the chunk after the closing bracket. -/
def matchClass (ct : Str) (r : Char) : Option ChunkResult :=
  if ct = [] then some .bad
  else
    match classLoop (ct.length + 1) r (if ct.head? = some '^' then ct.tail else ct) 0
        false with
    | none => none
    | some none => some .bad
    | some (some (m, ct1)) =>
      if m = decide (ct.head? = some '^') then some .failed else some (.matched ct1)

/-- Go: `filepath.matchChunk` with explicit fuel (`none` when it runs out). -/
def matchChunkLoop : Nat → Str → Str → Option ChunkResult
  | 0, _, _ => none
  | _ + 1, [], s => some (.matched s)
  | _ + 1, _ :: _, [] => some .failed
  | fuel + 1, c :: ct, r :: st =>
    if c = '[' then
      match matchClass ct r with
      | some (.matched ct1) => matchChunkLoop fuel ct1 st
      | res => res
    else if c = '?' then
      if r = Separator then some .failed else matchChunkLoop fuel ct st
    else if c = '\\' then
      if ct = [] then some .bad
      else if ct.head? ≠ some r then some .failed
      else matchChunkLoop fuel ct.tail st
    else if c ≠ r then some .failed
    else matchChunkLoop fuel ct st

/-- Go: `filepath.matchChunk`. -/
def matchChunk (chunk s : Str) : Option ChunkResult :=
  matchChunkLoop (chunk.length + 1) chunk s

/-- How the star loop of `filepath.Match` ends: with the name left after a match of the
chunk further on, with no match, or with `ErrBadPattern`. -/
inductive StarResult where
  | resume (name : Str)
  | giveUp
  | bad
deriving DecidableEq, Repr

/-- Go: the loop of `filepath.Match` that looks for the chunk after skipping one more
character of the name at a time, never skipping a separator. -/
def starLoop (chunk : Str) (lastChunk : Bool) : Str → Option StarResult
  | [] => some .giveUp
  | c :: t =>
    if c = Separator then some .giveUp
    else
      match matchChunk chunk t with
      | none => none
      | some (.matched r) =>
        if lastChunk = true ∧ r ≠ [] then starLoop chunk lastChunk t else some (.resume r)
      | some .bad => some .bad
      | some .failed => starLoop chunk lastChunk t

/-- Go: what `filepath.Match` does when the chunk did not match at the current position:
after a star the star loop, then the `Pattern` loop again (`next`) on the name left; the
result is `(matched, err != nil)`. -/
def starStep (star : Bool) (chunk : Str) (lastChunk : Bool) (name : Str)
    (next : Str → Option (Bool × Bool)) : Option (Bool × Bool) :=
  if star then
    match starLoop chunk lastChunk name with
    | none => none
    | some (.resume t) => next t
    | some .bad => some (false, true)
    | some .giveUp => some (false, false)
  else some (false, false)

/-- Go: the `Pattern` loop of `filepath.Match` with explicit fuel; the result is
`(matched, err != nil)`. -/
def matchLoop : Nat → Str → Str → Option (Bool × Bool)
  | 0, _, _ => none
  | fuel + 1, pattern, name =>
    if pattern = [] then some (decide (name = []), false)
    else if (scanChunk pattern).1 = true ∧ (scanChunk pattern).2.1 = [] then
      some (!name.contains Separator, false)
    else
      match matchChunk (scanChunk pattern).2.1 name with
      | none => none
      | some .bad => some (false, true)
      | some .failed =>
        starStep (scanChunk pattern).1 (scanChunk pattern).2.1
          (decide ((scanChunk pattern).2.2 = [])) name (matchLoop fuel (scanChunk pattern).2.2)
      | some (.matched t) =>
        if t = [] ∨ (scanChunk pattern).2.2 ≠ [] then matchLoop fuel (scanChunk pattern).2.2 t
        else
          starStep (scanChunk pattern).1 (scanChunk pattern).2.1
            (decide ((scanChunk pattern).2.2 = [])) name
            (matchLoop fuel (scanChunk pattern).2.2)

/-- Go: `filepath.Match`; `none` only if the fuel of the model ran out. -/
def Match (pattern name : Str) : Option (Bool × Bool) :=
  matchLoop (pattern.length + 1) pattern name

/-- Source: `modulePat.match`: string comparison for a literal pattern, otherwise the
`matched` result of `filepath.Match` with its error dropped. -/
def modulePat.match (m : modulePat) (file : Str) : Bool :=
  if m.literal then decide (file = m.pattern)
  else
    match Match m.pattern file with
    | some (matched, _) => matched
    | none => false

/-- Source: `isLiteral`: the pattern has none of the metacharacters `\*?[]`. -/
def isLiteral (pattern : Str) : Bool :=
  !(pattern.any fun c => decide (c ∈ ['\\', '*', '?', '[', ']']))

/-- Source: `loggingT.setVState`. -/
def loggingT.setVState (l : loggingT) (verbosity : Int) (filter : List modulePat)
    (setFilter : Bool) : loggingT :=
  let l := { l with verbosity := 0 }
  let l := { l with filterLength := 0 }
  let l := if setFilter then { l with vmodule := filter, vmap := [] } else l
  let l := { l with filterLength := int32 filter.length }
  { l with verbosity := verbosity }

/-- The call stack as `VDepth` sees it: the program counter `runtime.Callers` stores for
a skip count (`none` when it returns 0) and the file `FuncForPC(pc).FileLine(pc)` names. -/
structure CallSites where
  callers : Int → Option Nat
  fileLine : Nat → Str

/-- A lookup in the map `vmap`; an assignment to the map puts the pair in front. -/
def vmapGet (vmap : List (Nat × Int)) (pc : Nat) : Option Int :=
  (vmap.find? fun kv => kv.1 = pc).map Prod.snd

/-- Source: `strings.HasSuffix(file, ".go")` and the slice that drops the suffix. -/
def trimGo (file : Str) : Str :=
  if ".go".toList.isSuffixOf file then file.take (file.length - 3) else file

/-- Source: the filter loop of `loggingT.setV`: the level of the first filter that
matches, or 0, stored in `vmap` for the call site. -/
def setVLoop (l : loggingT) (pc : Nat) (file : Str) : List modulePat → Int × loggingT
  | [] => (0, { l with vmap := (pc, 0) :: l.vmap })
  | filter :: rest =>
    if filter.match file then (filter.level, { l with vmap := (pc, filter.level) :: l.vmap })
    else setVLoop l pc file rest

/-- Source: `loggingT.setV`. -/
def loggingT.setV (cs : CallSites) (l : loggingT) (pc : Nat) : Int × loggingT :=
  setVLoop l pc (afterLastSlash (trimGo (cs.fileLine pc))) l.vmodule

/-- Source: `VDepth`; the scratch array `pcs` is left out of the state. -/
def VDepth (cs : CallSites) (l : loggingT) (level depth : Int) : Bool × loggingT :=
  if l.verbosity ≥ level then (true, l)
  else if l.filterLength > 0 then
    match cs.callers (2 + depth) with
    | none => (false, l)
    | some pc =>
      match vmapGet l.vmap pc with
      | some v => (decide (v ≥ level), l)
      | none => (decide ((l.setV cs pc).1 ≥ level), (l.setV cs pc).2)
  else (false, l)

/-- The name a call-site file is matched under, in the words of the specification: the
basename with its `.go` suffix removed. -/
def siteName (file : Str) : Str := trimGo (afterLastSlash file)

/-- The matching of one pattern in the words of the specification: string equality for a
pattern without metacharacters, glob matching otherwise. -/
def patternMatches (p : modulePat) (name : Str) : Bool :=
  if isLiteral p.pattern then decide (name = p.pattern)
  else
    match Match p.pattern name with
    | some (matched, _) => matched
    | none => false

/-- First-match-wins in the words of the specification: the level of the first pattern in
list order that matches the name, and 0 when none does. -/
def firstMatchLevel (filter : List modulePat) (name : Str) : Int :=
  match filter.find? fun p => patternMatches p name with
  | some p => p.level
  | none => 0

/-- Every level stored in the call-site cache is the level `setV` computes for that call
site from the installed filters. -/
def CacheOK (cs : CallSites) (l : loggingT) : Prop :=
  ∀ pc v, vmapGet l.vmap pc = some v → v = (l.setV cs pc).1

/-- The filters `a*=2,ab=5` as `moduleSpec.Set` builds them. -/
def sampleFilter : List modulePat :=
  [⟨"a*".toList, false, 2⟩, ⟨"ab".toList, true, 5⟩]

/-- A call stack whose call sites are all in the file `/src/pkg/ab.go`. -/
def sampleSites : CallSites :=
  ⟨fun skip => some skip.toNat, fun _ => "/src/pkg/ab.go".toList⟩

/-- The state after `--vmodule=a*=2,ab=5` with global verbosity 0. -/
def sampleVerbose : loggingT := sampleLogging.setVState 0 sampleFilter true

/-! ## Configuration input: `Severity.Set`, `level.Set`, `moduleSpec.Set` and
`traceLocation.Set`

Each `Set` returns the error, if any, together with the state it leaves. -/

/-- Go: `strings.Split(s, sep)` for a separator of one byte: the texts between the
separators, one more than there are separators. -/
def stringsSplit (sep : Char) : Str → List Str
  | [] => [[]]
  | c :: t =>
    if c = sep then [] :: stringsSplit sep t
    else (c :: (stringsSplit sep t).headD []) :: (stringsSplit sep t).tail

/-- Go: `unicode.ToUpper` as far as an ASCII result is concerned: the ASCII letters, and
the two runes outside ASCII whose upper case is an ASCII letter (dotless i and long s).
Every other rune has an upper case outside ASCII and is kept as it is. -/
def toUpperRune (c : Char) : Char :=
  if c = 'ı' then 'I' else if c = 'ſ' then 'S' else c.toUpper

/-- Go: `strings.ToUpper`. -/
def ToUpper (s : Str) : Str := s.map toUpperRune

/-- Modelled from the spec: the generated table `Severity_value`, the names of the
severities with their numbers. -/
def Severity_value : List (Str × Int) :=
  [("UNKNOWN".toList, Severity_UNKNOWN), ("INFO".toList, Severity_INFO),
   ("WARNING".toList, Severity_WARNING), ("ERROR".toList, Severity_ERROR),
   ("FATAL".toList, Severity_FATAL), ("NONE".toList, Severity_NONE)]

/-- Source: `SeverityByName`: the severity and `true`, or `(0, false)`. -/
def SeverityByName (s : Str) : Int × Bool :=
  match (Severity_value.find? fun kv => kv.1 = ToUpper s) with
  | some kv => (kv.2, true)
  | none =>
    if ToUpper s = "TRUE".toList then (Severity_INFO, true)
    else if ToUpper s = "FALSE".toList then (Severity_NONE, true)
    else (0, false)

/-- The errors the `Set` methods return. -/
inductive ConfigError where
  | atoi
  | vmoduleSyntax
  | vmoduleNegative
  | traceSyntax
  | traceNotPositive
deriving DecidableEq, Repr

/-- Source: `Severity.Set` on the severity variable `s`. -/
def Severity.Set (s : Int) (value : Str) : Option ConfigError × Int :=
  if (SeverityByName value).2 then (none, (SeverityByName value).1)
  else
    match Atoi value with
    | none => (some .atoi, s)
    | some v => (none, int32 v)

/-- Source: `level.Set`. -/
def level.Set (l : loggingT) (value : Str) : Option ConfigError × loggingT :=
  match Atoi value with
  | none => (some .atoi, l)
  | some v => (none, l.setVState (int32 v) l.vmodule false)

/-- Source: the loop of `moduleSpec.Set` over the segments of the value, with the filter
built so far. -/
def moduleSpecLoop : List Str → List modulePat → Except ConfigError (List modulePat)
  | [], filter => .ok filter
  | pat :: rest, filter =>
    if pat.length = 0 then moduleSpecLoop rest filter
    else
      match stringsSplit '=' pat with
      | [pattern, lev] =>
        if pattern.length = 0 ∨ lev.length = 0 then .error .vmoduleSyntax
        else
          match Atoi lev with
          | none => .error .vmoduleSyntax
          | some v =>
            if v < 0 then .error .vmoduleNegative
            else if v = 0 then moduleSpecLoop rest filter
            else moduleSpecLoop rest (filter ++ [⟨pattern, isLiteral pattern, int32 v⟩])
      | _ => .error .vmoduleSyntax

/-- Source: `moduleSpec.Set`. -/
def moduleSpec.Set (l : loggingT) (value : Str) : Option ConfigError × loggingT :=
  match moduleSpecLoop (stringsSplit ',' value) [] with
  | .error e => (some e, l)
  | .ok filter => (none, l.setVState l.verbosity filter true)

/-- Source: `traceLocation.Set`. -/
def traceLocation.Set (t : traceLocation) (value : Str) :
    Option ConfigError × traceLocation :=
  if value = [] then (none, { t with line := 0, file := [] })
  else
    match stringsSplit ':' value with
    | [file, line] =>
      if !file.contains '.' then (some .traceSyntax, t)
      else
        match Atoi line with
        | none => (some .traceSyntax, t)
        | some v =>
          if v ≤ 0 then (some .traceNotPositive, t)
          else (none, { t with line := v, file := file })
    | _ => (some .traceSyntax, t)

/-- A segment of a `--vmodule` value in the words of the specification: `pattern=level`
with exactly one `=`, a pattern that is not empty and a level that parses as an integer
that is not negative; the pattern and the level, or `none`. -/
def segmentPair (seg : Str) : Option (Str × Int) :=
  if (seg.count '=') = 1 then
    let pattern := seg.takeWhile fun c => c ≠ '='
    let lev := (seg.dropWhile fun c => c ≠ '=').drop 1
    match Atoi lev with
    | some v => if pattern ≠ [] ∧ 0 ≤ v then some (pattern, v) else none
    | none => none
  else none

/-- The pairs a `--vmodule` value installs in the words of the specification: those of
its segments that are not empty and have a level above 0, in order. -/
def installedPairs (value : Str) : List (Str × Int) :=
  ((stringsSplit ',' value).filter fun seg => seg ≠ []).filterMap fun seg =>
    match segmentPair seg with
    | some (pattern, v) => if v > 0 then some (pattern, v) else none
    | none => none

/-- The filter `moduleSpec.Set` builds from a pattern and a level. -/
def mkPat (pv : Str × Int) : modulePat := ⟨pv.1, isLiteral pv.1, int32 pv.2⟩

/-! ## Retention: `gcOldFiles` -/

/-- The conversion to `int64`: two's complement wrap-around. -/
def int64 (n : Int) : Int := (n + 2 ^ 63) % 2 ^ 64 - 2 ^ 63

/-- Modelled from the spec: the generated type `FileInfo`, of which `gcOldFiles` reads the
name and the size of a log file. -/
structure FileInfo where
  Name : Str
  SizeBytes : Int
deriving DecidableEq, Repr

/-- Source: the loop of `gcOldFiles` over `files[1:]`, with the sum so far: the names
passed to `os.Remove`, in order (an error of `os.Remove` is printed and the loop goes
on). -/
def gcLoop (logFilesCombinedMaxSize : Int) : Int → List FileInfo → List Str
  | _, [] => []
  | sum, f :: rest =>
    if int64 (sum + f.SizeBytes) < logFilesCombinedMaxSize then
      gcLoop logFilesCombinedMaxSize (int64 (sum + f.SizeBytes)) rest
    else f.Name :: gcLoop logFilesCombinedMaxSize (int64 (sum + f.SizeBytes)) rest

/-- Source: `loggingT.gcOldFiles`: the names of the files it removes. `logDirSet` says
whether `logDir.get()` succeeds, `files` is the result of `selectFiles` on the files
`ListLogFiles` returns, newest first (`none` when `ListLogFiles` fails). -/
def gcOldFiles (logDirSet : Bool) (files : Option (List FileInfo))
    (logFilesCombinedMaxSize : Int) : List Str :=
  if !logDirSet then []
  else
    match files with
    | none => []
    | some [] => []
    | some (f0 :: rest) => gcLoop logFilesCombinedMaxSize f0.SizeBytes rest

/-- The running total of the sizes from the newest file to the file at index `i`. -/
def runningTotal (files : List FileInfo) (i : Nat) : Int :=
  ((files.take (i + 1)).map FileInfo.SizeBytes).sum

/-- Four log files of sizes 10, 20, 30 and 40, newest first. -/
def sampleFiles : List FileInfo :=
  [⟨"log.4".toList, 10⟩, ⟨"log.3".toList, 20⟩, ⟨"log.2".toList, 30⟩, ⟨"log.1".toList, 40⟩]

/-! ## The file sink: `syncBuffer.Write` and `syncBuffer.rotateFile`

What the sink does to the file system is recorded as a list of events. An I/O error (after
which the source calls `exit`) and a panic of the formatter end the model with `failed`
set. The byte counter `nbytes` is an `int64`; it is kept as an integer, which is the same
as long as a file holds fewer than 2^63 bytes. -/

/-- What `syncBuffer.Write` does outside the sink's own fields, in order. -/
inductive SinkEvent where
  | flush
  | close
  | create
  | hijackStderr
  | newWriter
  | preamble (data : Str)
  | gcNotify
  | write (data : Str)
deriving DecidableEq, Repr

/-- What `syncBuffer.rotateFile` reads from outside `clog.go`: the ceiling
`LogFileMaxSize`, the clock, the caller that `caller.Lookup(1)` names, the texts put in the
preamble, the rotation time `create` returns, and which of the I/O steps fails. -/
structure RotateEnv where
  LogFileMaxSize : Int
  loc : Int
  now : Int
  nowText : Str
  goid : Int
  callerFile : Str
  callerLine : Int
  host : Str
  binary : Str
  arguments : Str
  createdAt : Int
  flushFails : Bool
  closeFails : Bool
  createFails : Bool
  hijackFails : Bool
  preambleFails : Bool
  writeFails : Bool
deriving DecidableEq, Repr

/-- A sink with its surroundings: the `syncBuffer`, whether its `file` is open, the engine
state `logging` (its thresholds and free list), the events so far and whether a step
failed. -/
structure SinkState where
  sb : syncBuffer
  fileOpen : Bool
  l : loggingT
  events : List SinkEvent
  failed : Bool
deriving DecidableEq, Repr

/-- Source: the five messages of the preamble in `rotateFile`. -/
def preambleMessages (env : RotateEnv) : List Str :=
  ["[config] file created at: ".toList ++ env.nowText ++ ['\n'],
   "[config] running on machine: ".toList ++ env.host ++ ['\n'],
   "[config] binary: ".toList ++ env.binary ++ ['\n'],
   "[config] arguments: ".toList ++ env.arguments ++ ['\n'],
   "line format: [IWEF]yymmdd hh:mm:ss.uuuuuu goid file:line msg utf8=✓\n".toList]

/-- The entry `rotateFile` formats for a preamble message. -/
def preambleEntry (env : RotateEnv) (msg : Str) : Entry :=
  ⟨Severity_INFO, env.now, env.goid, env.callerFile, env.callerLine, msg⟩

/-- Source: the body of the loop of `rotateFile` over the preamble messages: format the
message, write the line to the new file, count the bytes, give the buffer back. -/
def preambleStep (env : RotateEnv) (msg : Str) (o : SinkState) : SinkState :=
  match formatLogEntry env.loc (getBuffer o.l).1.tmp (preambleEntry env msg) [] none with
  | none => { o with l := (getBuffer o.l).2, failed := true }
  | some buf =>
    if env.preambleFails then { o with l := (getBuffer o.l).2, failed := true }
    else
      { o with
        sb := { o.sb with nbytes := o.sb.nbytes + byteLen buf.bytes }
        l := putBuffer (getBuffer o.l).2 buf
        events := o.events ++ [SinkEvent.preamble buf.bytes] }

/-- Source: the loop of `rotateFile` over the preamble messages; it ends at the first
step that fails. -/
def preambleLoop (env : RotateEnv) : List Str → SinkState → SinkState
  | [], o => o
  | msg :: rest, o =>
    match (preambleStep env msg o).failed with
    | true => preambleStep env msg o
    | false => preambleLoop env rest (preambleStep env msg o)

/-- The sink in `rotateFile` once the old file is flushed and closed, the new file is
created, stderr is redirected to it (when the stderr threshold is above INFO and the
redirection is not switched off) and the new `bufio.Writer` is in place. -/
def rotateStart (env : RotateEnv) (o : SinkState) : SinkState :=
  { o with
    sb := ⟨env.createdAt, 0⟩
    fileOpen := true
    events := o.events ++ (if o.fileOpen then [SinkEvent.flush, SinkEvent.close] else [])
      ++ [SinkEvent.create]
      ++ (if o.l.stderrThreshold > Severity_INFO ∧ o.l.noStderrRedirect = false then
          [SinkEvent.hijackStderr] else [])
      ++ [SinkEvent.newWriter] }

/-- Source: `syncBuffer.rotateFile`. -/
def syncBuffer.rotateFile (env : RotateEnv) (o : SinkState) : SinkState :=
  if o.fileOpen = true ∧ env.flushFails = true then
    { o with events := o.events ++ [SinkEvent.flush], failed := true }
  else if o.fileOpen = true ∧ env.closeFails = true then
    { o with events := o.events ++ [SinkEvent.flush, SinkEvent.close], failed := true }
  else if env.createFails then
    { o with
      sb := ⟨env.createdAt, 0⟩
      fileOpen := false
      events := o.events ++ (if o.fileOpen then [SinkEvent.flush, SinkEvent.close] else [])
        ++ [SinkEvent.create]
      failed := true }
  else if (o.l.stderrThreshold > Severity_INFO ∧ o.l.noStderrRedirect = false)
      ∧ env.hijackFails = true then
    { o with
      sb := ⟨env.createdAt, 0⟩
      fileOpen := true
      events := o.events ++ (if o.fileOpen then [SinkEvent.flush, SinkEvent.close] else [])
        ++ [SinkEvent.create, SinkEvent.hijackStderr]
      failed := true }
  else
    let o1 := preambleLoop env (preambleMessages env) (rotateStart env o)
    if o1.failed then o1 else { o1 with events := o1.events ++ [SinkEvent.gcNotify] }

/-- Source: `syncBuffer.Write`. -/
def syncBuffer.Write (env : RotateEnv) (o : SinkState) (p : Str) : SinkState :=
  let o1 := if o.sb.nbytes + byteLen p ≥ env.LogFileMaxSize then
      syncBuffer.rotateFile env o else o
  if o1.failed then o1
  else if env.writeFails then
    { o1 with events := o1.events ++ [SinkEvent.write p], failed := true }
  else
    { o1 with
      sb := { o1.sb with nbytes := o1.sb.nbytes + byteLen p }
      events := o1.events ++ [SinkEvent.write p] }

/-- The events of a rotation that succeeds, for a sink whose file was open or not, with
the preamble lines `ds`. -/
def rotationEvents (fileOpen : Bool) (l : loggingT) (ds : List Str) : List SinkEvent :=
  (if fileOpen then [SinkEvent.flush, SinkEvent.close] else []) ++ [SinkEvent.create]
    ++ (if l.stderrThreshold > Severity_INFO ∧ l.noStderrRedirect = false then
        [SinkEvent.hijackStderr] else [])
    ++ [SinkEvent.newWriter] ++ ds.map SinkEvent.preamble ++ [SinkEvent.gcNotify]

/-- The line `d` is what `formatLogEntry` makes of the preamble message `msg`. -/
def PreambleLine (env : RotateEnv) (d msg : Str) : Prop :=
  ∃ tmp buf, formatLogEntry env.loc tmp (preambleEntry env msg) [] none = some buf ∧
    d = buf.bytes

/-- An environment for the sink theorems: a ceiling of 1000 bytes, nothing fails. -/
def sampleRotateEnv : RotateEnv :=
  ⟨1000, 0, 1478000000123456789, "2016/11/01 11:33:20".toList, 12, "clog.go".toList, 930,
    "host".toList, "bin".toList, "[bin]".toList, 1478000000, false, false, false, false,
    false, false⟩

/-- An open sink that has written `nbytes` bytes since its last rotation. -/
def sampleSink (nbytes : Int) : SinkState :=
  ⟨⟨1477000000, nbytes⟩, true, sampleLogging, [], false⟩

/-! ## Generic decimal formatting, as the specification words it -/

/-- The zero-padded decimal of `d` in `n` digits: the shortest decimal representation
with zeros in front up to the width `n` (`%0nd`). -/
def zeroPadded (n d : Nat) : Str :=
  List.replicate (n - (decimal d).length) '0' ++ decimal d

/-! ## Histories of the verbosity state -/

/-- The zero value of `loggingT`. -/
def zeroLogging : loggingT :=
  ⟨false, false, none, false, 0, 0, [], none, false, [], 0, ⟨[], 0⟩, false, [], 0⟩

/-- Source: the state after `init`: both thresholds at INFO and `setVState(0, nil,
false)`. -/
def initialLogging : loggingT :=
  ({ zeroLogging with stderrThreshold := Severity_INFO, fileThreshold := Severity_INFO }
    : loggingT).setVState 0 [] false

/-- The calls that read or change the verbosity state. -/
inductive VOp where
  | levelSet (value : Str)
  | moduleSet (value : Str)
  | vdepth (level depth : Int)
deriving DecidableEq, Repr

/-- The state after one call. -/
def applyOp (cs : CallSites) (l : loggingT) : VOp → loggingT
  | .levelSet value => (level.Set l value).2
  | .moduleSet value => (moduleSpec.Set l value).2
  | .vdepth level depth => (VDepth cs l level depth).2

/-- The state after a sequence of calls. -/
def runOps (cs : CallSites) (l : loggingT) (ops : List VOp) : loggingT :=
  ops.foldl (applyOp cs) l

/-- The value of the last successful `level.Set` of a history, as an integer, and 0 when
there is none. -/
def lastLevelValue (ops : List VOp) : Int :=
  ops.foldl (fun acc op =>
    match op with
    | .levelSet value => (Atoi value).getD acc
    | _ => acc) 0

/-- Every level in the call-site cache is the first-match resolution of the call site's
file against the installed pattern list. -/
def CacheFresh (cs : CallSites) (l : loggingT) : Prop :=
  ∀ pc v, vmapGet l.vmap pc = some v →
    v = firstMatchLevel l.vmodule (siteName (cs.fileLine pc))

/-! ## The text of the override list: `moduleSpec.String` -/

/-- Source: the loop of `moduleSpec.String`, with the index of the next filter. -/
def stringLoop : Nat → List modulePat → Str
  | _, [] => []
  | i, f :: rest =>
    (if i > 0 then [','] else []) ++ (f.pattern ++ '=' :: decimalInt f.level)
      ++ stringLoop (i + 1) rest

/-- Source: `moduleSpec.String`. -/
def moduleSpec.String (l : loggingT) : Str := stringLoop 0 l.vmodule

/-! ## The bridge from the standard `log` package: `logBridge.Write`

`Write` takes a byte slice, measures and cuts it in bytes, and turns the pieces into
strings without looking at them, so this part of the model works on bytes, not on runes.
The call `logging.outputLogEntry(Severity(lb), file, line, text)` is a parameter of the
model: `log` gives how that call ends for the arguments it receives. -/

/-- A byte slice or a Go string as its bytes. -/
abbrev Bytes := List Nat

/-- The UTF-8 encoding of a rune. -/
def utf8Char (c : Char) : Bytes :=
  let n := c.toNat
  if n < 0x80 then [n]
  else if n < 0x800 then [0xC0 + n / 0x40, 0x80 + n % 0x40]
  else if n < 0x10000 then [0xE0 + n / 0x1000, 0x80 + n / 0x40 % 0x40, 0x80 + n % 0x40]
  else [0xF0 + n / 0x40000, 0x80 + n / 0x1000 % 0x40, 0x80 + n / 0x40 % 0x40,
    0x80 + n % 0x40]

/-- The bytes of a text. -/
def utf8 (s : Str) : Bytes := s.flatMap utf8Char

/-- Go: `bytes.SplitN(s, sep, n)` for a separator of one byte: at most `n` parts, the last
one the rest of `s` unsplit. -/
def splitN (sep : Nat) : Nat → Bytes → List Bytes
  | 0, _ => []
  | 1, s => [s]
  | n + 2, s =>
    if s.contains sep then
      (s.takeWhile fun c => c ≠ sep) :: splitN sep (n + 1) ((s.dropWhile fun c => c ≠ sep).drop 1)
    else [s]

/-- Go `strconv.Atoi(string(p))` for a byte slice `p`: a byte outside ASCII is not a sign
or a digit, so the text is a syntax error. -/
def atoiBytes (p : Bytes) : Option Int :=
  if p.all (fun c => decide (c < 128)) then Atoi (p.map Char.ofNat) else none

/-- The arguments of the call `logging.outputLogEntry(Severity(lb), file, line, text)`. -/
structure BridgeCall where
  s : Int
  file : Bytes
  line : Int
  text : Bytes
deriving DecidableEq, Repr

/-- Source: `logBridge.Write` up to the call of `outputLogEntry`: the arguments of the
call; `none` when the slice `parts[2][1 : len(parts[2])-1]` is out of range and `Write`
panics. The byte 58 is the colon. -/
def bridgeParse (lb : Int) (b : Bytes) : Option BridgeCall :=
  match splitN 58 3 b with
  | [p0, p1, p2] =>
    if p0.length < 1 ∨ p2.length < 1 then
      some ⟨lb, utf8 "???".toList, 1, utf8 "bad log format: ".toList ++ b⟩
    else if p2.length - 1 < 1 then none
    else
      match atoiBytes p1 with
      | some v => some ⟨lb, p0, v, (p2.drop 1).take (p2.length - 1 - 1)⟩
      | none => some ⟨lb, p0, 1, utf8 "bad line number: ".toList ++ b⟩
  | _ => some ⟨lb, utf8 "???".toList, 1, utf8 "bad log format: ".toList ++ b⟩

/-- What a call of `logBridge.Write` did: the calls of `outputLogEntry` it made, in order,
how it ended, and the count it returned (`none` when it did not return; the error it
returns is always nil). -/
structure BridgeResult where
  calls : List BridgeCall
  status : Status
  n : Option Nat
deriving DecidableEq, Repr

/-- Source: `logBridge.Write`. `log c` is how the call of `outputLogEntry` with the
arguments `c` ends; `Write` returns `len(b), nil` only when that call returns. -/
def logBridge.Write (log : BridgeCall → Status) (lb : Int) (b : Bytes) : BridgeResult :=
  match bridgeParse lb b with
  | none => ⟨[], .panicked, none⟩
  | some c =>
    match log c with
    | .returned => ⟨[c], .returned, some b.length⟩
    | st => ⟨[c], st, none⟩

/-- A call of `Write` on `len` bytes that called `outputLogEntry` exactly once, with the
arguments `c`, and returned the count `len` when that call returned. -/
def loggedOnce (log : BridgeCall → Status) (c : BridgeCall) (len : Nat) : BridgeResult :=
  ⟨[c], log c, if log c = .returned then some len else none⟩

/-- The text `moduleSpec.String` writes for one filter. -/
def patText (f : modulePat) : Str := f.pattern ++ '=' :: decimalInt f.level

/-- What holds of a pattern list that `moduleSpec.Set` installed with levels above 0: no
pattern is empty or holds `=` or `,`, the literal flags are those of `isLiteral`, and the
levels are within `int32`. -/
def InstalledOK (filter : List modulePat) : Prop :=
  ∀ f ∈ filter, f.pattern ≠ [] ∧ '=' ∉ f.pattern ∧ ',' ∉ f.pattern ∧
    f.literal = isLiteral f.pattern ∧ 0 < f.level ∧ f.level < 2 ^ 31
/-! ## Lemmas on the digit helpers and the scratch array -/

theorem charAt_digits (d : Int) (h : 0 ≤ d) :
    charAt digits (d.tmod 10) = some (Nat.digitChar (d.toNat % 10)) := by
  obtain ⟨n, rfl⟩ := Int.eq_ofNat_of_zero_le h
  have h : Int.tmod (n : Int) 10 = ((n % 10 : Nat) : Int) := by
    rw [Int.tmod_eq_emod (by omega) (by omega)]; omega
  have hlt : n % 10 < 10 := Nat.mod_lt _ (by omega)
  rw [h, Int.toNat_natCast]
  generalize n % 10 = m at hlt
  interval_cases m <;> rfl

theorem tdiv_ten_nonneg (d : Int) (h : 0 ≤ d) : 0 ≤ d.tdiv 10 := by
  rw [Int.tdiv_eq_ediv h (by omega)]; omega

theorem toNat_tdiv_ten (d : Int) (h : 0 ≤ d) : (d.tdiv 10).toNat = d.toNat / 10 := by
  rw [Int.tdiv_eq_ediv h (by omega)]; omega

theorem take_set_succ (l : List Char) (i : Nat) (c : Char) (h : i < l.length) :
    (l.set i c).take (i + 1) = l.take i ++ [c] := by
  induction l generalizing i with
  | nil => simp at h
  | cons a t ih =>
    cases i with
    | zero => simp
    | succ j => simp at h; simp [ih j h]

theorem putc_ok {st : List Char × Nat} {acc : Str} (c : Char) (h : Scratch st acc)
    (hlt : acc.length < 64) : ∃ st2, putc st c = some st2 ∧ Scratch st2 (acc ++ [c]) := by
  obtain ⟨h1, h2, h3⟩ := h
  refine ⟨(st.1.set st.2 c, st.2 + 1), ?_, ?_, ?_, ?_⟩
  · simp [putc, setAt]; omega
  · simpa using h1
  · simp [h2]
  · simp only; rw [take_set_succ _ _ _ (by omega), h3]

theorem setAt_mid (a b : List Char) (x c : Char) :
    setAt (a ++ x :: b) a.length c = some (a ++ c :: b) := by
  simp [setAt]

theorem scratch_split {st : List Char × Nat} {acc : Str} (h : Scratch st acc) :
    st.1 = acc ++ st.1.drop acc.length := by
  obtain ⟨_, h2, h3⟩ := h
  rw [h2] at h3
  conv_lhs => rw [← List.take_append_drop acc.length st.1, h3]

theorem scratch_of_append {acc rest : List Char} (h : acc.length + rest.length = 64) :
    Scratch (acc ++ rest, acc.length) acc := by
  refine ⟨by simpa using h, rfl, by simp⟩

theorem exists_of_length_ge (l : List Char) (k : Nat) (h : k ≤ l.length) :
    ∃ mid post, l = mid ++ post ∧ mid.length = k :=
  ⟨l.take k, l.drop k, (List.take_append_drop k l).symm, by simp; omega⟩

theorem exists_snoc_of_length (l : List Char) (k : Nat) (h : l.length = k + 1) :
    ∃ l0 x, l = l0 ++ [x] ∧ l0.length = k := by
  have hne : l ≠ [] := by intro h0; simp [h0] at h
  refine ⟨l.dropLast, l.getLast hne, (List.dropLast_append_getLast hne).symm, by simp [h]⟩

theorem twoDigits_mid (pre post : List Char) (x y : Char) (d : Int) (hd : 0 ≤ d) :
    twoDigits (pre ++ x :: y :: post) pre.length d =
      some (pre ++ (fixedWidth 2 d.toNat ++ post), 2) := by
  have h1 := setAt_mid (pre ++ [x]) post y (Nat.digitChar (d.toNat % 10))
  have h2 := setAt_mid pre (Nat.digitChar (d.toNat % 10) :: post) x
    (Nat.digitChar (d.toNat / 10 % 10))
  simp only [List.append_assoc, List.singleton_append, List.length_append,
    List.length_singleton] at h1
  simp only [twoDigits, charAt_digits d hd, charAt_digits _ (tdiv_ten_nonneg d hd),
    toNat_tdiv_ten d hd, Option.bind_eq_bind, Option.some_bind, h1, h2, fixedWidth,
    List.nil_append, List.singleton_append, List.cons_append]

theorem fixedWidth_length : ∀ (k n : Nat), (fixedWidth k n).length = k := by
  intro k; induction k with
  | zero => intro n; rfl
  | succ k ih => intro n; simp [fixedWidth, ih]

theorem put2_ok {st : List Char × Nat} {acc : Str} (d : Int) (h : Scratch st acc)
    (hlt : acc.length + 2 ≤ 64) (hd : 0 ≤ d) :
    ∃ st2, put2 st d = some st2 ∧ Scratch st2 (acc ++ fixedWidth 2 d.toNat) := by
  have hs := scratch_split h
  obtain ⟨h1, h2, _⟩ := h
  have hlen : (st.1.drop acc.length).length = 64 - acc.length := by simp [h1]
  match hr : st.1.drop acc.length, hlen with
  | [], hl => simp at hl; omega
  | [_], hl => simp at hl; omega
  | x :: y :: post, hl =>
    rw [hr] at hs
    refine ⟨(acc ++ (fixedWidth 2 d.toNat ++ post), acc.length + 2), ?_, ?_⟩
    · simp only [put2]; rw [hs, h2, twoDigits_mid _ _ _ _ _ hd]; simp [h2]
    · have := @scratch_of_append (acc ++ fixedWidth 2 d.toNat) post
        (by simp [fixedWidth_length] at hl ⊢; omega)
      simpa [fixedWidth_length] using this

theorem nDigitsLoop_mid (pre : List Char) : ∀ (k : Nat) (mid post : List Char) (d : Int),
    0 ≤ d → mid.length = k →
    nDigitsLoop pre.length '0' k (pre ++ (mid ++ post)) d =
      some (pre ++ (fixedWidth k d.toNat ++ post)) := by
  intro k
  induction k with
  | zero =>
    intro mid post d _ h
    rw [List.length_eq_zero] at h
    simp [h, nDigitsLoop, fixedWidth]
  | succ k ih =>
    intro mid post d hd h
    obtain ⟨m0, x, rfl, hm0⟩ := exists_snoc_of_length mid k h
    have hset : ∀ c, setAt (pre ++ (m0 ++ x :: post)) (pre.length + k) c =
        some (pre ++ (m0 ++ (c :: post))) := by
      intro c
      have := setAt_mid (pre ++ m0) post x c
      simpa [hm0] using this
    by_cases hn : d > 0
    · have := ih m0 (Nat.digitChar (d.toNat % 10) :: post) (d.tdiv 10)
        (tdiv_ten_nonneg d hd) hm0
      rw [toNat_tdiv_ten d hd] at this
      simp only [nDigitsLoop, hn, if_true, charAt_digits d hd, Option.bind_eq_bind,
        Option.some_bind, hset, this, fixedWidth, List.append_assoc, List.singleton_append]
    · have hn0 : d = 0 := by omega
      subst hn0
      have := ih m0 ('0' :: post) 0 (le_refl 0) hm0
      have h0 : Nat.digitChar 0 = '0' := rfl
      simp only [nDigitsLoop, gt_iff_lt, lt_self_iff_false, if_false, Option.bind_eq_bind,
        Option.some_bind, hset, this, fixedWidth, List.append_assoc, List.singleton_append,
        Int.toNat_zero, Nat.zero_div, Nat.zero_mod, h0] at this ⊢

theorem putN_ok {st : List Char × Nat} {acc : Str} (k : Nat) (d : Int) (h : Scratch st acc)
    (hlt : acc.length + k ≤ 64) (hd : 0 ≤ d) :
    ∃ st2, putN st k d '0' = some st2 ∧ Scratch st2 (acc ++ fixedWidth k d.toNat) := by
  have hs := scratch_split h
  obtain ⟨h1, h2, _⟩ := h
  obtain ⟨mid, post, hmp, hmid⟩ := exists_of_length_ge (st.1.drop acc.length) k
    (by simp [h1]; omega)
  rw [hmp] at hs
  refine ⟨(acc ++ (fixedWidth k d.toNat ++ post), acc.length + k), ?_, ?_⟩
  · simp only [putN, nDigits]
    rw [hs, h2, nDigitsLoop_mid acc k mid post d hd hmid]; simp [h2]
  · have hl : (acc ++ (mid ++ post)).length = 64 := by rw [← hs]; exact h1
    have := @scratch_of_append (acc ++ fixedWidth k d.toNat) post
      (by simp [fixedWidth_length] at hl ⊢; omega)
    simpa [fixedWidth_length] using this

theorem someDigitsLoop_mid : ∀ (fuel : Nat) (d : Int) (a ds : List Char) (k : Nat),
    0 ≤ d → d.toNat < fuel → d.toNat < 10 ^ k → 1 ≤ k → k ≤ a.length →
    ∃ a2 junk digs, a = a2 ++ junk ∧ junk.length = digs.length ∧ digs.length ≤ k ∧
      1 ≤ digs.length ∧
      Nat.toDigitsCore 10 fuel d.toNat ds = digs ++ ds ∧
      someDigitsLoop a.length (a ++ ds) d = some (a2 ++ (digs ++ ds), a2.length) := by
  intro fuel
  induction fuel with
  | zero => intro d a ds k _ h; omega
  | succ fuel ih =>
    intro d a ds k hd hf hk hk1 hka
    obtain ⟨a0, x, rfl, ha0⟩ := exists_snoc_of_length a (a.length - 1) (by omega)
    have hset := setAt_mid a0 ds x (Nat.digitChar (d.toNat % 10))
    have hlen : (a0 ++ [x]).length = a0.length + 1 := by simp
    by_cases h0 : d.tdiv 10 = 0
    · have h0n : d.toNat / 10 = 0 := by rw [← toNat_tdiv_ten d hd, h0]; rfl
      refine ⟨a0, [x], [Nat.digitChar (d.toNat % 10)], rfl, rfl, by simpa using hk1,
        by simp, ?_, ?_⟩
      · simp [Nat.toDigitsCore, h0n]
      · rw [hlen]
        simp only [someDigitsLoop, charAt_digits d hd, Option.bind_eq_bind, Option.some_bind,
          List.append_assoc, List.singleton_append, hset, h0, if_true]
    · have h0n : d.toNat / 10 ≠ 0 := by
        rw [← toNat_tdiv_ten d hd]; have := tdiv_ten_nonneg d hd; omega
      have hk2 : 2 ≤ k := by
        rcases Nat.lt_or_ge k 2 with h | h
        · have : k = 1 := by omega
          subst this; omega
        · exact h
      have hpow : d.toNat / 10 < 10 ^ (k - 1) := by
        have : 10 ^ k = 10 ^ (k - 1) * 10 := by
          rw [← pow_succ]; congr 1; omega
        rw [this] at hk
        exact Nat.div_lt_of_lt_mul (by omega)
      obtain ⟨a2, junk, digs, hsplit, hj, hdk, hd1, hcore, hloop⟩ :=
        ih (d.tdiv 10) a0 (Nat.digitChar (d.toNat % 10) :: ds) (k - 1)
          (tdiv_ten_nonneg d hd) (by rw [toNat_tdiv_ten d hd]; omega)
          (by rw [toNat_tdiv_ten d hd]; exact hpow) (by omega)
          (by simp at hka; omega)
      rw [toNat_tdiv_ten d hd] at hcore
      refine ⟨a2, junk ++ [x], digs ++ [Nat.digitChar (d.toNat % 10)], ?_, ?_, ?_, ?_, ?_, ?_⟩
      · rw [hsplit, List.append_assoc]
      · simp [hj]
      · simp; omega
      · simp
      · simp [Nat.toDigitsCore, h0n, hcore]
      · rw [hlen]
        simp only [someDigitsLoop, charAt_digits d hd, Option.bind_eq_bind, Option.some_bind,
          List.append_assoc, List.singleton_append, hset, h0, if_false, hloop]

theorem someDigits_ok {tmp : List Char} {i : Nat} {acc : Str} (d : Int)
    (h : Scratch (tmp, i) acc) (hd : 0 ≤ d) (hd2 : d < 10 ^ 19) (hi : i ≤ 26) :
    ∃ r, someDigits tmp i d = some r ∧ r.2 = (decimal d.toNat).length ∧ r.2 ≤ 19 ∧
      Scratch (r.1, i + r.2) (acc ++ decimal d.toNat) := by
  have hs := scratch_split h
  obtain ⟨h1, h2, h3⟩ := h
  simp only at h1 h2 h3 hs
  obtain ⟨a2, junk, digs, hsplit, hj, hdk, hd1, hcore, hloop⟩ :=
    someDigitsLoop_mid (d.toNat + 1) d tmp [] 19 hd (by omega) (by omega) (by omega)
      (by omega)
  simp only [List.append_nil] at hcore hloop
  have hdec : decimal d.toNat = digs := by simp [decimal, Nat.toDigits, hcore]
  have ha2 : a2.length + digs.length = 64 := by
    have := congrArg List.length hsplit; simp [h1] at this; omega
  have hacc : a2.take i = acc := by
    have : (a2 ++ junk).take i = acc := by rw [← hsplit]; exact h3
    rw [List.take_append_of_le_length (by omega)] at this; exact this
  have hcopy : copyAt (a2 ++ digs) i ((a2 ++ digs).drop a2.length) =
      some (a2.take i ++ digs ++ (a2 ++ digs).drop (i + digs.length), digs.length) := by
    have hk : min ((a2 ++ digs).length - i) digs.length = digs.length := by
      simp; omega
    simp only [copyAt, List.drop_left, hk, List.take_length]
    rw [if_pos (by simp; omega), List.take_append_of_le_length (by omega)]
  refine ⟨(a2.take i ++ digs ++ (a2 ++ digs).drop (i + digs.length), digs.length), ?_, ?_,
    hdk, ?_⟩
  · simp only [someDigits, hloop, Option.bind_eq_bind, Option.some_bind, hcopy]
  · simp [hdec]
  · rw [hacc, hdec]
    have hi2 : i = acc.length := h2
    have := @scratch_of_append (acc ++ digs) ((a2 ++ digs).drop (i + digs.length))
      (by simp; omega)
    simpa [hi2] using this

/-! ## Lemmas on the calendar arithmetic -/

theorem isLeap_iff (y : Int) : isLeap y = true ↔ (y % 4 = 0 ∧ (y % 100 ≠ 0 ∨ y % 400 = 0)) := by
  simp [isLeap]

theorem absYearDay_range (d : Int) :
    0 ≤ (absYearDay d).2 ∧
    (absYearDay d).2 < (if isLeap (absYearDay d).1 then 366 else 365) := by
  have key : ∀ (b c g : Int), b = d / 146097 → c = (d - 146097 * b) / 36524 →
      g = (d - 146097 * b - 36524 * (c - c / 4) -
        1461 * ((d - 146097 * b - 36524 * (c - c / 4)) / 1461)) / 365 →
      0 ≤ (absYearDay d).2 ∧
      (absYearDay d).2 < (if isLeap (absYearDay d).1 then 366 else 365) := by
    intro b c g hb hc hg
    have hc5 : 0 ≤ c ∧ c ≤ 4 := by omega
    have hg5 : 0 ≤ g ∧ g ≤ 4 := by omega
    obtain ⟨hc0, hc4⟩ := hc5
    obtain ⟨hg0, hg4⟩ := hg5
    constructor
    · simp only [absYearDay]; omega
    · split
      · rename_i h; rw [isLeap_iff] at h; simp only [absYearDay] at h ⊢
        rw [← hb, ← hc, ← hg] at h ⊢
        interval_cases c <;> interval_cases g <;> omega
      · rename_i h; rw [isLeap_iff] at h; simp only [absYearDay] at h ⊢
        rw [← hb, ← hc, ← hg] at h ⊢
        interval_cases c <;> interval_cases g <;> omega
  exact key _ _ _ rfl rfl rfl

set_option maxRecDepth 100000 in
theorem monthDay_ok_fin : ∀ (leap : Bool) (n : Fin 366), (n.val < 365 ∨ leap = true) → monthDayOK leap (n.val : Int) = true := by
  decide

theorem monthDay_ok (leap : Bool) (yd : Int) (h0 : 0 ≤ yd) (h1 : yd < (if leap then 366 else 365)) :
    monthDayOK leap yd = true := by
  obtain ⟨n, rfl⟩ := Int.eq_ofNat_of_zero_le h0
  have hn : n < 366 := by split at h1 <;> omega
  have := monthDay_ok_fin leap ⟨n, hn⟩ (by
    cases leap
    · left; simp at h1; simpa using h1
    · right; rfl)
  simpa using this

/-! ## The header written by `formatHeader` -/

theorem date_facts (t : Time) :
    1 ≤ t.Date.2.1 ∧ t.Date.2.1 ≤ 12 ∧ 1 ≤ t.Date.2.2 ∧
    t.Date.2.2 ≤ daysIn t.Date.2.1 t.Date.1 := by
  have hr := absYearDay_range (t.localSecs / 86400)
  have := monthDay_ok (isLeap (absYearDay (t.localSecs / 86400)).1)
    (absYearDay (t.localSecs / 86400)).2 hr.1 hr.2
  simp only [monthDayOK, Bool.and_eq_true, decide_eq_true_eq] at this
  obtain ⟨⟨⟨⟨h1, h2⟩, h3⟩, h4⟩, _⟩ := this
  exact ⟨h1, h2, h3, h4⟩

theorem clock_facts (t : Time) :
    0 ≤ t.Clock.1 ∧ t.Clock.1 < 24 ∧ 0 ≤ t.Clock.2.1 ∧ t.Clock.2.1 < 60 ∧
    0 ≤ t.Clock.2.2 ∧ t.Clock.2.2 < 60 := by
  simp only [Time.Clock]; omega

theorem severityChar_at (s : Int) (h1 : 1 ≤ s) (h4 : s ≤ 4) :
    charAt severityChar (s - 1) = some (severityLetter s) := by
  interval_cases s <;> rfl

theorem scratch_start (tmp0 : List Char) (h : tmp0.length = 64) : Scratch (tmp0, 0) [] :=
  ⟨h, rfl, rfl⟩

theorem headerStamp_ok (tmp0 : List Char) (s : Int) (now : Time) (h : tmp0.length = 64)
    (h1 : 1 ≤ s) (h4 : s ≤ 4) (hy : 2000 ≤ now.Date.1) (hn : 0 ≤ now.nsec) :
    ∃ st, headerStamp tmp0 s now none = some st ∧
      Scratch st ([severityLetter s] ++ stampText now ++ [' ']) ∧ st.2 = 24 := by
  obtain ⟨hm1, _, hd1, _⟩ := date_facts now
  obtain ⟨hh, _, hmi, _, hs, _⟩ := clock_facts now
  have hus : 0 ≤ now.Nanosecond.tdiv 1000 := by
    simp only [Time.Nanosecond]; rw [Int.tdiv_eq_ediv hn (by omega)]; omega
  have hus2 : now.Nanosecond.tdiv 1000 = now.Nanosecond / 1000 := by
    simp only [Time.Nanosecond]; rw [Int.tdiv_eq_ediv hn (by omega)]
  have i0 := scratch_start tmp0 h
  obtain ⟨st1, e1, i1⟩ := putc_ok (severityLetter s) i0 (by simp)
  obtain ⟨st2, e2, i2⟩ := put2_ok (now.Date.1 - 2000) i1 (by simp) (by omega)
  obtain ⟨st3, e3, i3⟩ := put2_ok now.Date.2.1 i2 (by simp [fixedWidth_length]) (by omega)
  obtain ⟨st4, e4, i4⟩ := put2_ok now.Date.2.2 i3 (by simp [fixedWidth_length]) (by omega)
  obtain ⟨st5, e5, i5⟩ := putc_ok ' ' i4 (by simp [fixedWidth_length])
  obtain ⟨st6, e6, i6⟩ := put2_ok now.Clock.1 i5 (by simp [fixedWidth_length]) hh
  obtain ⟨st7, e7, i7⟩ := putc_ok ':' i6 (by simp [fixedWidth_length])
  obtain ⟨st8, e8, i8⟩ := put2_ok now.Clock.2.1 i7 (by simp [fixedWidth_length]) hmi
  obtain ⟨st9, e9, i9⟩ := putc_ok ':' i8 (by simp [fixedWidth_length])
  obtain ⟨st10, e10, i10⟩ := put2_ok now.Clock.2.2 i9 (by simp [fixedWidth_length]) hs
  obtain ⟨st11, e11, i11⟩ := putc_ok '.' i10 (by simp [fixedWidth_length])
  obtain ⟨st12, e12, i12⟩ := putN_ok 6 (now.Nanosecond.tdiv 1000) i11
    (by simp [fixedWidth_length]) hus
  obtain ⟨st13, e13, i13⟩ := putc_ok ' ' i12 (by simp [fixedWidth_length])
  refine ⟨st13, ?_, ?_, ?_⟩
  · simp only [headerStamp, severityChar_at s h1 h4, Option.some_bind, e1, e2, e3, e4, e5,
      e6, e7, e8, e9, e10, e11, e12, e13]
  · rw [hus2] at i13
    simpa [stampText] using i13
  · rw [i13.2.1]; simp [fixedWidth_length]

theorem sliceTo_ok {st : List Char × Nat} {acc : Str} (h : Scratch st acc) :
    sliceTo st = some acc := by
  obtain ⟨h1, h2, h3⟩ := h
  have : st.2 ≤ 64 := by
    have := congrArg List.length h3
    simp at this; omega
  simp [sliceTo, h1, this, h3]

theorem headerGid_ok {st : List Char × Nat} {acc : Str} (gid : Int) (h : Scratch st acc)
    (h24 : st.2 = 24) (hg : gid < 2 ^ 63) :
    ∃ st2, headerGid st gid = some st2 ∧
      Scratch st2 (acc ++ (if gid > 0 then decimal gid.toNat ++ [' '] else [])) := by
  by_cases hpos : gid > 0
  · have hacc : acc.length = 24 := by rw [← h.2.1, h24]
    obtain ⟨r, e1, _, h19, i1⟩ := @someDigits_ok st.1 st.2 acc gid h (by omega)
      (by omega) (by omega)
    have hlen : (acc ++ decimal gid.toNat).length < 64 := by
      have := i1.2.1; simp only at this; omega
    obtain ⟨st2, e2, i2⟩ := putc_ok ' ' i1 hlen
    refine ⟨st2, ?_, ?_⟩
    · simp only [headerGid, hpos, if_true, e1, Option.some_bind, e2]
    · simpa [hpos] using i2
  · exact ⟨st, by simp [headerGid, hpos], by simpa [hpos] using h⟩

theorem headerTail_ok (tmp : List Char) (line : Int) (h : tmp.length = 64) (h0 : 0 ≤ line)
    (hl : line < 2 ^ 63) :
    ∃ st, headerTail tmp line none = some st ∧
      Scratch st ([':'] ++ decimal line.toNat ++ [' ', ' ']) := by
  obtain ⟨st1, e1, i1⟩ := putc_ok ':' (scratch_start tmp h) (by simp)
  have e1b : setAt tmp 0 ':' = some st1.1 ∧ st1.2 = 1 := by
    simp only [putc, Option.map_eq_some'] at e1
    obtain ⟨t, ht, rfl⟩ := e1
    exact ⟨ht, rfl⟩
  have i1b : Scratch (st1.1, 1) [':'] := by
    have := i1; rw [← e1b.2]; simpa using this
  obtain ⟨r, e2, _, h19, i2⟩ := someDigits_ok line i1b h0 (by omega) (by omega)
  have i2b : Scratch (r.1, r.2 + 1) ([':'] ++ decimal line.toNat) := by
    rw [Nat.add_comm]; exact i2
  have hlen : ([':'] ++ decimal line.toNat).length < 64 := by
    have := i2.2.1; simp only at this; omega
  obtain ⟨st3, e3, i3⟩ := putc_ok ' ' i2b hlen
  have hlen3 : ([':'] ++ decimal line.toNat ++ [' ']).length < 64 := by
    have := i2.2.1; simp only at this
    simp only [List.length_append, List.length_singleton] at this ⊢; omega
  obtain ⟨st4, e4, i4⟩ := putc_ok ' ' i3 hlen3
  refine ⟨st4, ?_, ?_⟩
  · simp only [headerTail, e1b.1, Option.some_bind, e2, e3, e4]
  · simpa using i4

theorem formatHeader_ok (tmp0 : List Char) (s : Int) (now : Time) (gid : Int) (file : Str)
    (line : Int) (h : tmp0.length = 64) (h1 : 1 ≤ s) (h4 : s ≤ 4) (hy : 2000 ≤ now.Date.1)
    (hn : 0 ≤ now.nsec) (hg : gid < 2 ^ 63) (hl : line < 2 ^ 63) :
    (formatHeader tmp0 s now gid file line none).map buffer.bytes =
      some ([severityLetter s] ++ stampText now ++ [' ']
        ++ (if gid > 0 then decimal gid.toNat ++ [' '] else [])
        ++ file ++ [':'] ++ decimal (max line 0).toNat ++ [' ', ' ']) := by
  obtain ⟨st1, e1, i1, n1⟩ := headerStamp_ok tmp0 s now h h1 h4 hy hn
  obtain ⟨st2, e2, i2⟩ := headerGid_ok gid i1 n1 hg
  have hline : (if line < 0 then 0 else line) = max line 0 := by
    split <;> omega
  obtain ⟨st3, e3, i3⟩ := headerTail_ok st2.1 (max line 0) i2.1 (by omega) (by omega)
  have hs : (if s > Severity_FATAL then Severity_INFO else s) = s := by
    simp only [Severity_FATAL]; rw [if_neg (by omega)]
  simp only [formatHeader, hs, hline, e1, Option.some_bind, e2, sliceTo_ok i2, e3,
    sliceTo_ok i3, Option.map_some', List.append_assoc]

/-! ## C3: the line format -/

theorem last_after_blank (hdr msg : Str) :
    ∃ c, (hdr ++ [' ', ' '] ++ msg).getLast? = some c ∧
      (c = '\n' ↔ msg.getLast? = some '\n') := by
  rcases List.eq_nil_or_concat msg with rfl | ⟨m0, x, rfl⟩
  · refine ⟨' ', by simp, ?_⟩
    simp
  · refine ⟨x, ?_, by simp⟩
    rw [List.concat_eq_append, ← List.append_assoc, List.getLast?_append]
    simp

theorem formatLogEntry_of_header (loc : Int) (tmp0 : List Char) (e : Entry)
    (stackBytes : Str) (hdr : Str)
    (h : (formatHeader tmp0 e.Severity (Time.Unix 0 e.Time loc) e.Goroutine e.File e.Line
      none).map buffer.bytes = some (hdr ++ [' ', ' '])) :
    (formatLogEntry loc tmp0 e stackBytes none).map buffer.bytes =
      some (hdr ++ [' ', ' '] ++ e.Message
        ++ (if e.Message.getLast? = some '\n' then [] else ['\n']) ++ stackBytes) := by
  obtain ⟨buf, hb, hbytes⟩ := Option.map_eq_some'.mp h
  obtain ⟨c, hc, hiff⟩ := last_after_blank hdr e.Message
  have hstack : (if stackBytes.length > 0 then
      (fun (b : Str) => b ++ stackBytes) else fun b => b) = fun b => b ++ stackBytes := by
    cases stackBytes with
    | nil => simp
    | cons a t => simp
  simp only [formatLogEntry, hb, Option.some_bind, hbytes, hc, Option.map_some']
  by_cases hm : e.Message.getLast? = some '\n'
  · have hcn : c = '\n' := hiff.mpr hm
    cases stackBytes with
    | nil => simp [hm, hcn]
    | cons a t => simp [hm, hcn]
  · have hcn : c ≠ '\n' := fun h => hm (hiff.mp h)
    cases stackBytes with
    | nil => simp [hm, hcn]
    | cons a t => simp [hm, hcn]

/-- C3 (as amended): for every entry with severity in INFO..FATAL and a local timestamp in
the years 2000-2099, `formatLogEntry` with no colour profile produces exactly the severity
letter, `yymmdd`, a space, `hh:mm:ss.uuuuuu`, a space, the goroutine id followed by a space
only when the id is positive, the file, a colon, the decimal line number (0 when the line
is negative), two spaces, the message, a newline unless the message already ends in one,
and then the raw stack bytes. -/
theorem formatLogEntry_line_format (loc : Int) (tmp0 : List Char) (e : Entry)
    (stackBytes : Str) (htmp : tmp0.length = 64)
    (hsev : Severity_INFO ≤ e.Severity ∧ e.Severity ≤ Severity_FATAL)
    (hyear : 2000 ≤ (Time.Unix 0 e.Time loc).Year ∧ (Time.Unix 0 e.Time loc).Year ≤ 2099)
    (hgid : e.Goroutine < 2 ^ 63) (hline : e.Line < 2 ^ 63) :
    (formatLogEntry loc tmp0 e stackBytes none).map buffer.bytes =
      some (lineFormat loc e stackBytes (decimalInt (max e.Line 0))) := by
  have hn : 0 ≤ (Time.Unix 0 e.Time loc).nsec := by simp only [Time.Unix]; omega
  have hh := formatHeader_ok tmp0 e.Severity (Time.Unix 0 e.Time loc) e.Goroutine e.File
    e.Line htmp hsev.1 hsev.2 hyear.1 hn hgid hline
  have hdec : decimalInt (max e.Line 0) = decimal (max e.Line 0).toNat := by
    simp only [decimalInt]; rw [if_neg (by omega)]
  have := formatLogEntry_of_header loc tmp0 e stackBytes _ hh
  rw [this, lineFormat, hdec]

/-- Witness of `formatLogEntry_line_format` on a sample entry. -/
theorem formatLogEntry_line_format_witness :
    (formatLogEntry 0 zeroTmp sampleEntry [] none).map buffer.bytes =
      some "I161101 11:33:20.123456 12 clog.go:42  hello\n".toList ∧
    (formatLogEntry 0 zeroTmp sampleEntry [] none).map buffer.bytes =
      some (lineFormat 0 sampleEntry [] (decimalInt (max sampleEntry.Line 0))) :=
  ⟨by decide, formatLogEntry_line_format 0 zeroTmp sampleEntry [] (by decide) (by decide)
    (by decide) (by decide) (by decide)⟩

/-- C3 as stated fails: for a negative line number the formatter writes 0, not the decimal
line number. -/
theorem formatLogEntry_negative_line_counterexample :
    (formatLogEntry 0 zeroTmp ⟨Severity_INFO, 1478000000123456789, 12, "clog.go".toList, -5,
        "hello".toList⟩ [] none).map buffer.bytes
      = some "I161101 11:33:20.123456 12 clog.go:0  hello\n".toList ∧
    lineFormat 0 ⟨Severity_INFO, 1478000000123456789, 12, "clog.go".toList, -5,
        "hello".toList⟩ [] (decimalInt (-5))
      = "I161101 11:33:20.123456 12 clog.go:-5  hello\n".toList := by
  decide

/-! ## Lemmas on the matcher combinators -/

theorem isDigit_not_colon (c : Char) (h : isDigit c = true) : c ≠ ':' := by
  intro hc; subst hc; simp [isDigit] at h

theorem cls_mem (p : Char → Bool) (s : Str) (r : Char × Str) (h : r ∈ Re.cls p s) :
    s = r.1 :: r.2 ∧ p r.1 = true := by
  cases s with
  | nil => simp [Re.cls] at h
  | cons c t =>
    by_cases hp : p c = true
    · simp [Re.cls, hp] at h; subst h; exact ⟨rfl, hp⟩
    · simp [Re.cls, hp] at h

theorem lit_mem (c : Char) (s : Str) (r : Char × Str) (h : r ∈ Re.lit c s) :
    s = c :: r.2 ∧ r.1 = c := by
  obtain ⟨h1, h2⟩ := cls_mem _ s r h
  have : r.1 = c := by simpa using h2
  exact ⟨by rw [h1, this], this⟩

theorem rep_mem (p : Char → Bool) : ∀ (n : Nat) (s : Str) (r : Str × Str),
    r ∈ Re.rep p n s → s = r.1 ++ r.2 ∧ r.1.length = n ∧ r.1.all p = true := by
  intro n
  induction n with
  | zero => intro s r h; simp [Re.rep] at h; subst h; simp
  | succ n ih =>
    intro s r h
    simp only [Re.rep, List.mem_flatMap, List.mem_map] at h
    obtain ⟨a, ha, q, hq, rfl⟩ := h
    obtain ⟨h1, h2⟩ := cls_mem p s a ha
    obtain ⟨h3, h4, h5⟩ := ih a.2 q hq
    refine ⟨?_, by simp [h4], by simp [h2, h5]⟩
    rw [h1]; simp only [List.cons_append]; rw [← h3]

theorem reStamp_mem (s : Str) (r : Str × Str) (h : r ∈ reStamp s) :
    s = r.1 ++ r.2 ∧ StampShape r.1 := by
  simp only [reStamp, List.mem_flatMap, List.mem_map] at h
  obtain ⟨a, ha, b, hb, c, hc, d, hd, e, he, f, hf, g, hg, x, hx, i, hi, rfl⟩ := h
  obtain ⟨a1, a2, a3⟩ := rep_mem _ _ _ _ ha
  obtain ⟨b1, b2⟩ := lit_mem _ _ _ hb
  obtain ⟨c1, c2, c3⟩ := rep_mem _ _ _ _ hc
  obtain ⟨d1, d2⟩ := lit_mem _ _ _ hd
  obtain ⟨e1, e2, e3⟩ := rep_mem _ _ _ _ he
  obtain ⟨f1, f2⟩ := lit_mem _ _ _ hf
  obtain ⟨g1, g2, g3⟩ := rep_mem _ _ _ _ hg
  obtain ⟨x1, x2⟩ := cls_mem _ _ _ hx
  obtain ⟨i1, i2, i3⟩ := rep_mem _ _ _ _ hi
  constructor
  · rw [a1, b1, c1, d1, e1, f1, g1, x1, i1, b2, d2, f2]; simp
  · refine ⟨a.1, c.1, e.1, g.1, x.1, i.1, ?_, a2, a3, c2, c3, e2, e3, g2, g3, x2, i2, i3⟩
    rw [b2, d2, f2]; simp

theorem reHead_mem (s : Str) (r : (Char × Str) × Str) (h : r ∈ reHead s) :
    s = r.1.1 :: (r.1.2 ++ ' ' :: r.2) ∧ isSeverityChar r.1.1 = true ∧ StampShape r.1.2 := by
  simp only [reHead, List.mem_flatMap, List.mem_map] at h
  obtain ⟨a, ha, b, hb, c, hc, rfl⟩ := h
  obtain ⟨a1, a2⟩ := cls_mem _ _ _ ha
  obtain ⟨b1, b2⟩ := reStamp_mem _ _ hb
  obtain ⟨c1, _⟩ := lit_mem _ _ _ hc
  exact ⟨by rw [a1, b1, c1], a2, b2⟩

theorem digitChar_isDigit (k : Nat) (h : k < 10) : isDigit (Nat.digitChar k) = true := by
  interval_cases k <;> decide

theorem digitChar_val (k : Nat) (h : k < 10) : digitVal (Nat.digitChar k) = (k : Int) := by
  interval_cases k <;> decide

theorem fixedWidth_all_digit : ∀ (k n : Nat), (fixedWidth k n).all isDigit = true := by
  intro k
  induction k with
  | zero => intro n; rfl
  | succ k ih =>
    intro n
    simp [fixedWidth, ih, digitChar_isDigit (n % 10) (Nat.mod_lt _ (by omega))]

theorem digitsVal_snoc (a : Str) (c : Char) :
    digitsVal (a ++ [c]) = digitsVal a * 10 + digitVal c := by
  simp [digitsVal, List.foldl_append]

theorem daysSinceYear1_eq (year month day : Int) :
    daysSinceYear1 year month day =
      yearStart year + (daysBeforeAt (month - 1)
        + (if isLeap year && decide (month ≥ 3) then 1 else 0) + (day - 1)) := by
  simp only [daysSinceYear1, yearStart]
  split <;> omega

theorem yearStart_absYearDay (d : Int) :
    yearStart (absYearDay d).1 = d - (absYearDay d).2 := by
  have key : ∀ (b c g : Int), b = d / 146097 → c = (d - 146097 * b) / 36524 →
      g = (d - 146097 * b - 36524 * (c - c / 4) -
        1461 * ((d - 146097 * b - 36524 * (c - c / 4)) / 1461)) / 365 →
      yearStart (absYearDay d).1 = d - (absYearDay d).2 := by
    intro b c g hb hc hg
    have hc5 : 0 ≤ c ∧ c ≤ 4 := by omega
    have hg5 : 0 ≤ g ∧ g ≤ 4 := by omega
    obtain ⟨hc0, hc4⟩ := hc5
    obtain ⟨hg0, hg4⟩ := hg5
    simp only [absYearDay, yearStart]
    rw [← hb, ← hc, ← hg]
    interval_cases c <;> interval_cases g <;> omega
  exact key _ _ _ rfl rfl rfl

theorem daysSinceYear1_date (t : Time) :
    daysSinceYear1 t.Date.1 t.Date.2.1 t.Date.2.2 = t.localSecs / 86400 := by
  have hr := absYearDay_range (t.localSecs / 86400)
  have := monthDay_ok (isLeap (absYearDay (t.localSecs / 86400)).1)
    (absYearDay (t.localSecs / 86400)).2 hr.1 hr.2
  simp only [monthDayOK, Bool.and_eq_true, decide_eq_true_eq] at this
  obtain ⟨_, h5⟩ := this
  rw [daysSinceYear1_eq]
  simp only [Time.Date, Bool.and_eq_true, decide_eq_true_eq]
  rw [yearStart_absYearDay, h5]; omega

theorem ofDate_date (t : Time) (nsec : Int) :
    Time.ofDate t.Date.1 t.Date.2.1 t.Date.2.2 t.Clock.1 t.Clock.2.1 t.Clock.2.2 nsec t.loc =
      ⟨t.sec, nsec, t.loc⟩ := by
  simp only [Time.ofDate, daysSinceYear1_date, Time.Clock]
  congr 1
  simp only [Time.localSecs]
  omega

theorem toDigitsCore_spec : ∀ (fuel n : Nat) (ds : List Char), n < fuel →
    ∃ digs, Nat.toDigitsCore 10 fuel n ds = digs ++ ds ∧ digs ≠ [] ∧
      digs.all isDigit = true ∧ digitsVal digs = (n : Int) := by
  intro fuel
  induction fuel with
  | zero => intro n ds h; omega
  | succ fuel ih =>
    intro n ds h
    have hd := digitChar_isDigit (n % 10) (Nat.mod_lt _ (by omega))
    have hv := digitChar_val (n % 10) (Nat.mod_lt _ (by omega))
    by_cases h0 : n / 10 = 0
    · refine ⟨[Nat.digitChar (n % 10)], by simp [Nat.toDigitsCore, h0], by simp,
        by simp [hd], ?_⟩
      simp only [digitsVal, List.foldl_cons, List.foldl_nil, hv]; omega
    · obtain ⟨digs, h1, h2, h3, h4⟩ := ih (n / 10) (Nat.digitChar (n % 10) :: ds) (by omega)
      refine ⟨digs ++ [Nat.digitChar (n % 10)], by simp [Nat.toDigitsCore, h0, h1],
        by simp, by simp [h3, hd], ?_⟩
      rw [digitsVal_snoc, h4, hv]; omega

theorem decimal_spec (n : Nat) :
    decimal n ≠ [] ∧ (decimal n).all isDigit = true ∧ digitsVal (decimal n) = (n : Int) := by
  obtain ⟨digs, h1, h2, h3, h4⟩ := toDigitsCore_spec (n + 1) n [] (by omega)
  simp only [List.append_nil] at h1
  simp only [decimal, Nat.toDigits, h1]
  exact ⟨h2, h3, h4⟩

theorem Atoi_digits (s : Str) (hne : s ≠ []) (hall : s.all isDigit = true)
    (h0 : 0 ≤ digitsVal s) (h63 : digitsVal s < 2 ^ 63) : Atoi s = some (digitsVal s) := by
  cases s with
  | nil => exact absurd rfl hne
  | cons c t =>
    have hc : isDigit c = true := by simp at hall; exact hall.1
    have hplus : c ≠ '+' := by intro h; subst h; simp [isDigit] at hc
    have hminus : c ≠ '-' := by intro h; subst h; simp [isDigit] at hc
    have hbody : stripSign (c :: t) = c :: t := by
      unfold stripSign
      split
      · rename_i heq; simp at heq; exact absurd heq.1 hplus
      · rename_i heq; simp at heq; exact absurd heq.1 hminus
      · rfl
    have hneg : ((c :: t).head? == some '-') = false := by simp [hminus]
    simp only [Atoi, hbody, hneg, hall]
    simp
    omega

theorem Atoi_decimal (n : Nat) (h : (n : Int) < 2 ^ 63) : Atoi (decimal n) = some (n : Int) := by
  obtain ⟨h1, h2, h3⟩ := decimal_spec n
  have := Atoi_digits (decimal n) h1 h2 (by omega) (by omega)
  rw [this, h3]

/-! ## Where the header pattern cannot match -/

theorem endsLine_cons (bol : Bool) (c : Char) (t : Str) :
    endsLine bol (c :: t) = endsLine (c == '\n') t := by
  cases t with
  | nil => simp [endsLine]
  | cons a t =>
    simp only [endsLine, List.getLast?_cons_cons]
    cases h : (a :: t).getLast? with
    | none => simp at h
    | some x => rfl

theorem entryREFind_skip (y : Str) : ∀ (x : Str) (bol : Bool),
    (bol = true → x ≠ [] → entryREBody (x ++ y) = []) → noHeaderWithin y x →
    entryREFind bol (x ++ y) =
      (entryREFind (endsLine bol x) y).map fun r => (r.1 + x.length, r.2) := by
  intro x
  induction x with
  | nil => intro bol _ _; simp [endsLine]
  | cons c t ih =>
    intro bol h1 h2
    obtain ⟨h3, h4⟩ := h2
    have hrec := ih (c == '\n') (by
      intro hc hne
      exact h3 (by simpa using hc) hne) h4
    have hbody : (if bol = true then (entryREBody (c :: (t ++ y))).head? else none) = none := by
      cases bol with
      | false => rfl
      | true =>
        have := h1 rfl (by simp)
        simp only [List.cons_append] at this
        simp [this]
    rw [List.cons_append, entryREFind, hbody]
    simp only [hrec, endsLine_cons, Option.map_map, List.length_cons]
    congr 1

theorem noHeaderWithin_append (y a b : Str) (ha : a.all notNewline = true)
    (h : noHeaderWithin y b) : noHeaderWithin y (a ++ b) := by
  induction a with
  | nil => simpa using h
  | cons c a ih =>
    simp only [List.all_cons, Bool.and_eq_true] at ha
    refine ⟨?_, ih ha.2⟩
    intro hc; subst hc; simp [notNewline] at ha

theorem entryREBody_not_severity (c : Char) (t : Str) (h : isSeverityChar c = false) :
    entryREBody (c :: t) = [] := by
  simp [entryREBody, reHead, Re.cls, h]

theorem entryREBody_nil : entryREBody [] = [] := by
  simp [entryREBody, reHead, Re.cls]

theorem first_colon_unique : ∀ (a a2 b b2 : Str), a ++ ':' :: b = a2 ++ ':' :: b2 →
    a.all notColon = true → a2.all notColon = true → a = a2 ∧ b = b2 := by
  intro a
  induction a with
  | nil =>
    intro a2 b b2 h _ h2
    cases a2 with
    | nil => simpa using h
    | cons x a2 =>
      simp only [List.nil_append, List.cons_append, List.cons.injEq] at h
      simp [← h.1, notColon] at h2
  | cons x a ih =>
    intro a2 b b2 h h1 h2
    cases a2 with
    | nil =>
      simp only [List.nil_append, List.cons_append, List.cons.injEq] at h
      simp [h.1, notColon] at h1
    | cons y a2 =>
      simp only [List.cons_append, List.cons.injEq] at h
      simp only [List.all_cons, Bool.and_eq_true] at h1 h2
      obtain ⟨e1, e2⟩ := ih a2 b b2 h.2 h1.2 h2.2
      exact ⟨by rw [h.1, e1], e2⟩

theorem isDigit_notColon (l : Str) (h : l.all isDigit = true) : l.all notColon = true := by
  induction l with
  | nil => rfl
  | cons a l ih =>
    simp only [List.all_cons, Bool.and_eq_true] at h ⊢
    refine ⟨?_, ih h.2⟩
    have := isDigit_not_colon a h.1
    simp [notColon, this]

theorem isSeverityChar_notColon (c : Char) (h : isSeverityChar c = true) :
    notColon c = true := by
  have : c ≠ ':' := by intro hc; subst hc; simp [isSeverityChar] at h
  simp [notColon, this]

/-- No header can start inside the file field: the text from there has its first colon
followed by the line number and two blanks, where a header has `mm:ss`. -/
theorem entryREBody_in_file (f ld X : Str) (hf : f.all notColon = true)
    (hldne : ld ≠ []) (hld : ld.all isDigit = true) :
    entryREBody (f ++ ':' :: (ld ++ ' ' :: ' ' :: X)) = [] := by
  apply List.eq_nil_iff_forall_not_mem.mpr
  intro r hr
  simp only [entryREBody, List.mem_flatMap] at hr
  obtain ⟨h, hh, _⟩ := hr
  obtain ⟨hs, hc, d6, hr2, m, s, x, u, hst, a2, a3, c2, c3, e2, e3, _⟩ := reHead_mem _ _ hh
  rw [hst] at hs
  have hP : (h.1.1 :: (d6 ++ ' ' :: hr2)).all notColon = true := by
    simp only [List.all_cons, List.all_append, Bool.and_eq_true]
    exact ⟨isSeverityChar_notColon _ hc, isDigit_notColon _ a3, by decide,
      isDigit_notColon _ c3⟩
  have hs2 : f ++ ':' :: (ld ++ ' ' :: ' ' :: X) =
      (h.1.1 :: (d6 ++ ' ' :: hr2)) ++ ':' :: (m ++ ':' :: (s ++ x :: u) ++ ' ' :: h.2) := by
    rw [hs]; simp
  obtain ⟨_, hb⟩ := first_colon_unique _ _ _ _ hs2 hf hP
  match m, e2, e3 with
  | [a, b], _, hm =>
    simp only [List.all_cons, List.all_nil, Bool.and_true, Bool.and_eq_true] at hm
    match ld, hldne, hld with
    | [p], _, _ =>
      simp only [List.cons_append, List.nil_append, List.cons.injEq] at hb
      have := hb.2.1
      rw [← this] at hm
      simp [isDigit] at hm
    | [p, q], _, _ =>
      simp only [List.cons_append, List.nil_append, List.cons.injEq] at hb
      have := hb.2.2.1
      simp at this
    | p :: q :: z :: l, _, hl =>
      simp only [List.cons_append, List.nil_append, List.cons.injEq] at hb
      have := hb.2.2.1
      simp only [List.all_cons, Bool.and_eq_true] at hl
      have hz := hl.2.2.1
      rw [this] at hz
      simp [isDigit] at hz

/-! ## Decoding one header line with its stack block -/

theorem digits_noNewline (l : Str) (hl : l.all isDigit = true) :
    l.all notNewline = true := by
  induction l with
  | nil => rfl
  | cons a l ih =>
    simp only [List.all_cons, Bool.and_eq_true] at hl ⊢
    refine ⟨?_, ih hl.2⟩
    have : a ≠ '\n' := by intro ha; subst ha; simp [isDigit] at hl
    simp [notNewline, this]

theorem stampShape_noNewline (st : Str) (h : StampShape st) :
    st.all notNewline = true ∧ ∃ d t, st = d :: t ∧ isDigit d = true := by
  obtain ⟨d6, hh, m, s, x, u, rfl, a2, a3, c2, c3, e2, e3, g2, g3, x2, i2, i3⟩ := h
  have hd := digits_noNewline
  constructor
  · simp only [List.all_append, List.all_cons, Bool.and_eq_true]
    exact ⟨hd _ a3, by decide, hd _ c3, by decide, hd _ e3, by decide, hd _ g3, x2, hd _ i3⟩
  · match d6, a2, a3 with
    | d :: t, _, h3 =>
      simp only [List.all_cons, Bool.and_eq_true] at h3
      exact ⟨d, _, rfl, h3.1⟩

theorem endsLine_append (bol : Bool) (a x : Str) (h : x.getLast? = some '\n') :
    endsLine bol (a ++ x) = true := by
  simp [endsLine, List.getLast?_append, h]

theorem digit_not_severity (d : Char) (h : isDigit d = true) : isSeverityChar d = false := by
  simp only [isDigit, Bool.and_eq_true, decide_eq_true_eq] at h
  have h1 : d ≠ 'I' := by intro hd; subst hd; exact absurd h.2 (by decide)
  have h2 : d ≠ 'W' := by intro hd; subst hd; exact absurd h.2 (by decide)
  have h3 : d ≠ 'E' := by intro hd; subst hd; exact absurd h.2 (by decide)
  have h4 : d ≠ 'F' := by intro hd; subst hd; exact absurd h.2 (by decide)
  simp [isSeverityChar, h1, h2, h3, h4]

theorem noHeaderWithin_file (rest B : Str) (ld X : Str) (hB : B = ':' :: (ld ++ ' ' :: ' ' :: X))
    (hldne : ld ≠ []) (hld : ld.all isDigit = true) (hrest : noHeaderWithin rest B) :
    ∀ (file : Str), file.all notColon = true → noHeaderWithin rest (file ++ B) := by
  intro file
  induction file with
  | nil => intro _; simpa using hrest
  | cons c f ih =>
    intro hf
    simp only [List.all_cons, Bool.and_eq_true] at hf
    refine ⟨?_, ih hf.2⟩
    intro _ _
    have := entryREBody_in_file f ld (X ++ rest) hf.2 hldne hld
    rw [hB]
    simpa using this

theorem headerLine_tail_noHeader (c : Char) (st g file ld msg S rest : Str)
    (hok : LineOK c st g file ld msg) (hS : StackOK rest S) :
    noHeaderWithin rest ((headerLine c st g file ld msg ++ S).drop 1) ∧
    entryREBody ((headerLine c st g file ld msg ++ S).drop 1 ++ rest) = [] ∧
    endsLine true ((headerLine c st g file ld msg ++ S).drop 1) = true := by
  obtain ⟨hc, hst, hg, hne, hfile, hgl, hldne, hld, hmsg⟩ := hok
  obtain ⟨hS1, hS2, hS3⟩ := hS
  obtain ⟨hstn, d, t, hdt, hd⟩ := stampShape_noNewline st hst
  have hgn : (if g = [] then [] else g ++ [' ']).all notNewline = true := by
    split
    · rfl
    · simp only [List.all_append, List.all_cons, List.all_nil, Bool.and_true,
        Bool.and_eq_true]
      exact ⟨digits_noNewline g hg, by decide⟩
  have hdrop : (headerLine c st g file ld msg ++ S).drop 1 =
      (st ++ ' ' :: (if g = [] then [] else g ++ [' '])) ++
        (file ++ (':' :: (ld ++ ' ' :: ' ' :: (msg ++ '\n' :: S)))) := by
    simp [headerLine]
  refine ⟨?_, ?_, ?_⟩
  · rw [hdrop]
    apply noHeaderWithin_append
    · simp only [List.all_append, List.all_cons, Bool.and_eq_true]
      exact ⟨hstn, by decide, hgn⟩
    · apply noHeaderWithin_file rest _ ld (msg ++ '\n' :: S) rfl hldne hld _ file hfile
      have : (':' :: (ld ++ ' ' :: ' ' :: (msg ++ '\n' :: S))) =
          (':' :: (ld ++ ' ' :: ' ' :: msg)) ++ ('\n' :: S) := by simp
      rw [this]
      apply noHeaderWithin_append
      · simp only [List.all_cons, List.all_append, Bool.and_eq_true]
        exact ⟨by decide, digits_noNewline ld hld, by decide, by decide, hmsg⟩
      · exact ⟨fun _ h => hS2 h, hS3⟩
  · rw [hdrop, hdt]
    simp only [List.cons_append]
    exact entryREBody_not_severity d _ (digit_not_severity d hd)
  · rcases hS1 with rfl | hl
    · have : (headerLine c st g file ld msg ++ []).drop 1 =
          (st ++ ' ' :: ((if g = [] then [] else g ++ [' ']) ++
            (file ++ ':' :: (ld ++ ' ' :: ' ' :: msg)))) ++ ['\n'] := by
        simp [headerLine]
      rw [this]
      exact endsLine_append _ _ _ rfl
    · have : (headerLine c st g file ld msg ++ S).drop 1 =
          (headerLine c st g file ld msg).drop 1 ++ S := by
        simp [headerLine]
      rw [this]
      exact endsLine_append _ _ _ hl

theorem headerLine_cons (c : Char) (st g file ld msg : Str) :
    headerLine c st g file ld msg = c :: (headerLine c st g file ld msg).drop 1 := by
  simp [headerLine]

theorem byteLen_cons (c : Char) (t : Str) : byteLen (c :: t) = c.utf8Size + byteLen t := by
  simp [byteLen]

theorem severityLetter_isSeverityChar (s : Int) : isSeverityChar (severityLetter s) = true := by
  simp only [severityLetter]
  split
  · decide
  · split
    · decide
    · split <;> decide

theorem stampText_shape (t : Time) : StampShape (stampText t) := by
  refine ⟨fixedWidth 2 (t.Date.1 - 2000).toNat ++ fixedWidth 2 t.Date.2.1.toNat
      ++ fixedWidth 2 t.Date.2.2.toNat, fixedWidth 2 t.Clock.1.toNat,
    fixedWidth 2 t.Clock.2.1.toNat, fixedWidth 2 t.Clock.2.2.toNat, '.',
    fixedWidth 6 (t.Nanosecond / 1000).toNat, ?_, ?_, ?_, ?_, ?_, ?_, ?_, ?_, ?_, ?_, ?_, ?_⟩
  · simp [stampText]
  · simp [fixedWidth_length]
  · simp [fixedWidth_all_digit]
  · simp [fixedWidth_length]
  · simp [fixedWidth_all_digit]
  · simp [fixedWidth_length]
  · simp [fixedWidth_all_digit]
  · simp [fixedWidth_length]
  · simp [fixedWidth_all_digit]
  · decide
  · simp [fixedWidth_length]
  · simp [fixedWidth_all_digit]

theorem lineFormat_eq_headerLine (loc : Int) (e : Entry) (stackBytes : Str)
    (hline : 0 ≤ e.Line) (hmsg : e.Message.all notNewline = true) :
    lineFormat loc e stackBytes (decimalInt (max e.Line 0)) =
      headerLine (severityLetter e.Severity) (stampText (Time.Unix 0 e.Time loc))
        (gidText e.Goroutine) e.File (decimal e.Line.toNat) e.Message ++ stackBytes := by
  have hdec : decimalInt (max e.Line 0) = decimal e.Line.toNat := by
    simp only [decimalInt]; rw [if_neg (by omega), max_eq_left hline]
  have hlast : e.Message.getLast? ≠ some '\n' := by
    intro h
    obtain ⟨ys, hys⟩ := List.getLast?_eq_some_iff.mp h
    have := List.all_eq_true.mp hmsg '\n' (by rw [hys]; simp)
    simp [notNewline] at this
  by_cases hg : e.Goroutine > 0
  · have hne : decimal e.Goroutine.toNat ≠ [] := (decimal_spec _).1
    simp [lineFormat, headerLine, hdec, hlast, gidText, hg, hne]
  · simp [lineFormat, headerLine, hdec, hlast, gidText, hg]

theorem lineOK_of_entry (loc : Int) (e : Entry) (h : RoundTripOK loc e) :
    LineOK (severityLetter e.Severity) (stampText (Time.Unix 0 e.Time loc))
      (gidText e.Goroutine) e.File (decimal e.Line.toNat) e.Message := by
  obtain ⟨_, _, hne, hfile, hgl, hmsg⟩ := h
  refine ⟨severityLetter_isSeverityChar _, stampText_shape _, ?_, hne, hfile, ?_,
    (decimal_spec _).1, (decimal_spec _).2.1, hmsg⟩
  · simp only [gidText]; split
    · exact (decimal_spec _).2.1
    · rfl
  · rcases hgl with hg | hg
    · left; simp only [gidText, hg, if_true]; exact (decimal_spec _).1
    · right; exact hg

theorem encodedLen_eq (loc : Int) (c : Entry × Str)
    (hsev : Severity_INFO ≤ c.1.Severity ∧ c.1.Severity ≤ Severity_FATAL)
    (hgid : c.1.Goroutine < 2 ^ 63) (hline : c.1.Line < 2 ^ 63)
    (hok : RoundTripOK loc c.1) :
    encodedLen loc c = byteLen (headerLine (severityLetter c.1.Severity)
      (stampText (Time.Unix 0 c.1.Time loc)) (gidText c.1.Goroutine) c.1.File
      (decimal c.1.Line.toNat) c.1.Message ++ c.2) := by
  have hfmt := formatLogEntry_line_format loc zeroTmp c.1 c.2 (by decide) hsev
    ⟨hok.1.1, by have := hok.1.2; omega⟩ hgid hline
  obtain ⟨buf, hb, hbytes⟩ := Option.map_eq_some'.mp hfmt
  unfold encodedLen
  rw [hb]
  simp only
  rw [hbytes, lineFormat_eq_headerLine loc c.1 c.2 hok.2.1 hok.2.2.2.2.2]

/-- In a zone with daylight saving time the hour that the clock shows twice does not read
back: in America/New_York the entry stamped 2016-11-06 06:30:00 UTC (01:30 eastern
standard time, after the clock was set back) is written as `161106 01:30:00.000000`, and
`Decode` reads that line as 05:30:00 UTC, the first 01:30 of that night. The zone is not
steady at that instant. -/
theorem decode_repeated_hour :
    entryOffset newYork
      ⟨Severity_INFO, 1478413800000000000, 12, "clog.go".toList, 42, "hello".toList⟩
      = -18000 ∧
    (formatLogEntry (-18000) zeroTmp
      ⟨Severity_INFO, 1478413800000000000, 12, "clog.go".toList, 42, "hello".toList⟩
      [] none).map buffer.bytes
      = some "I161106 01:30:00.000000 12 clog.go:42  hello\n".toList ∧
    EntryDecoder.Decode newYork ⟨"I161106 01:30:00.000000 12 clog.go:42  hello\n".toList⟩
        Entry.zero
      = some ⟨none, ⟨Severity_INFO, 1478410200000000000, 12, "clog.go".toList, 42,
        "hello".toList⟩, ⟨[]⟩⟩ ∧
    ¬ newYork.steadyAt 1478413800 := by
  refine ⟨by decide, by decide, by decide, by unfold Location.steadyAt; decide⟩

theorem entryREFind_run (n : Nat) (bol : Bool) :
    entryREFind bol (List.replicate n 'x') = none := by
  induction n generalizing bol with
  | zero => cases bol <;> simp [entryREFind, entryREBody_nil]
  | succ n ih =>
    have hb : entryREBody ('x' :: List.replicate n 'x') = [] :=
      entryREBody_not_severity 'x' _ (by decide)
    have hx : ('x' == '\n') = false := by decide
    cases bol <;> simp [List.replicate_succ, entryREFind, hb, ih, hx]

theorem byteLen_run (n : Nat) : byteLen (List.replicate n 'x') = n := by
  induction n with
  | zero => rfl
  | succ n ih =>
    have h1 : ('x' : Char).utf8Size = 1 := by decide
    rw [List.replicate_succ, byteLen_cons, ih, h1]; omega

/-- A token that does not fit the scanner's buffer: on an input of 64 KB or more without
a header (here a run of the letter x) `Decode` returns the scanner's error
`bufio.ErrTooLong`, not `io.EOF`. -/
theorem decode_token_too_long (z : Location) (n : Nat) (h : maxScanTokenSize ≤ n + 1) :
    EntryDecoder.Decode z ⟨List.replicate (n + 1) 'x'⟩ Entry.zero =
      some ⟨some .tooLong, Entry.zero, ⟨List.replicate (n + 1) 'x'⟩⟩ := by
  have hs : EntryDecoder.scan ⟨List.replicate (n + 1) 'x'⟩ = .tooLong := by
    have hf : FindIndex ((List.replicate (n + 1) 'x').drop 1) = none := by
      simp only [List.replicate_succ, List.drop_succ_cons, List.drop_zero, FindIndex,
        entryREFind_run]
      rfl
    have hw : scanWindow (List.replicate (n + 1) 'x') = n + 2 := by
      unfold scanWindow
      simp only [List.replicate_succ, List.drop_succ_cons, List.drop_zero, entryREFind_run]
      rw [← List.replicate_succ, byteLen_run]
    have hnot : ¬ (n + 2 ≤ maxScanTokenSize) := by omega
    simp only [EntryDecoder.scan, split, hf, hw, if_neg hnot]
    simp
  rw [EntryDecoder.Decode]
  simp only [List.length_replicate, decodeLoop, hs]

theorem scan_chunk_too_long (c : Char) (st g file ld msg S : Str)
    (hok : LineOK c st g file ld msg) (hS : StackOK [] S)
    (hbig : maxScanTokenSize ≤ byteLen (headerLine c st g file ld msg ++ S)) :
    EntryDecoder.scan ⟨headerLine c st g file ld msg ++ S⟩ = .tooLong := by
  obtain ⟨h1, h2, h3⟩ := headerLine_tail_noHeader c st g file ld msg S [] hok hS
  have hskip := entryREFind_skip [] ((headerLine c st g file ld msg ++ S).drop 1) true
    (fun _ _ => h2) h1
  rw [h3] at hskip
  have hchunk : headerLine c st g file ld msg ++ S =
      c :: (headerLine c st g file ld msg ++ S).drop 1 := by
    conv_lhs => rw [headerLine_cons]
    rfl
  have hf : entryREFind true ((headerLine c st g file ld msg ++ S).drop 1) = none := by
    have := hskip
    simp only [List.append_nil] at this
    rw [this]
    simp [entryREFind, entryREBody_nil]
  have hw : ¬ (scanWindow (headerLine c st g file ld msg ++ S) ≤ maxScanTokenSize) := by
    unfold scanWindow
    rw [hf]
    simp only
    omega
  have hi : FindIndex ((headerLine c st g file ld msg ++ S).drop 1) = none := by
    simp only [FindIndex, hf]; rfl
  have hne : ((headerLine c st g file ld msg ++ S).length == 0) = false := by
    rw [hchunk]; simp
  simp only [EntryDecoder.scan, split, hi, hne, Bool.and_false, Bool.false_eq_true, if_false,
    if_true, if_neg hw]

/-- The size condition of the round trip is the scanner's: for an entry in the domain of
`decode_formatLogEntry_roundtrip` whose encoded line has `bufio.MaxScanTokenSize` bytes or
more, `Decode` of the bytes of `formatLogEntry` returns `bufio.ErrTooLong` and leaves the
Entry as it was. -/
theorem decode_long_entry (z : Location) (tmp0 : List Char) (e : Entry)
    (htmp : tmp0.length = 64)
    (hsev : Severity_INFO ≤ e.Severity ∧ e.Severity ≤ Severity_FATAL)
    (hgid : e.Goroutine < 2 ^ 63) (hline : e.Line < 2 ^ 63)
    (hok : RoundTripOK (entryOffset z e) e)
    (hbig : maxScanTokenSize ≤ encodedLen (entryOffset z e) (e, [])) :
    ∃ buf, formatLogEntry (entryOffset z e) tmp0 e [] none = some buf ∧
      EntryDecoder.Decode z ⟨buf.bytes⟩ Entry.zero =
        some ⟨some .tooLong, Entry.zero, ⟨buf.bytes⟩⟩ := by
  have hfmt := formatLogEntry_line_format (entryOffset z e) tmp0 e [] htmp hsev
    ⟨hok.1.1, by have := hok.1.2; omega⟩ hgid hline
  obtain ⟨buf, hb, hbytes⟩ := Option.map_eq_some'.mp hfmt
  refine ⟨buf, hb, ?_⟩
  rw [hbytes, lineFormat_eq_headerLine (entryOffset z e) e [] hok.2.1 hok.2.2.2.2.2]
  rw [encodedLen_eq (entryOffset z e) (e, []) hsev hgid hline hok] at hbig
  have hs := scan_chunk_too_long _ _ _ _ _ _ [] (lineOK_of_entry (entryOffset z e) e hok)
    ⟨Or.inl rfl, fun h => absurd rfl h, trivial⟩ hbig
  rw [EntryDecoder.Decode]
  simp only [decodeLoop, hs]

/-- A zone without transitions is steady at every instant of an int64. -/
theorem fixed_steadyAt (offset sec : Int) (h1 : -9223372036854775808 ≤ sec)
    (h2 : sec < 9223372036854775807) : (Location.fixed offset).steadyAt sec :=
  ⟨h1, h2, rfl⟩
/-! ## C4 and C5: the decoder on single inputs -/

/-- C4 fails on the code: decoding a header line without a goroutine id into an Entry whose
Goroutine field holds 7 (left from an earlier line) succeeds and leaves the field at 7,
where the claim says 0. -/
theorem decode_absent_gid_keeps_stale_value :
    EntryDecoder.Decode UTC ⟨"I161101 11:33:20.123456 clog.go:42  hello\n".toList⟩
        { Entry.zero with Goroutine := 7 }
      = some ⟨none, ⟨Severity_INFO, 1478000000123456000, 7, "clog.go".toList, 42,
          "hello".toList⟩, ⟨[]⟩⟩ ∧
    (FindSubmatch "I161101 11:33:20.123456 clog.go:42  hello\n".toList).map Submatch.m3
      = some [] := by
  refine ⟨by decide, by decide⟩

/-- C5 fails on the code at one input: in the stream `xI161101 11:33:20.123456 f:1  m` no
line matches the header pattern (the pattern is anchored at a line start), yet `Decode`
returns an entry and not `io.EOF`, because `split` searches `data[1:]`, where the anchor
matches at the second byte of the stream. The other conjuncts are the behaviour the claim
describes: `io.EOF` on the empty input and on a stream without a header, and an error
other than `io.EOF` for month 13, hour 25 and a line number beyond int64. -/
theorem decode_header_at_offset_one :
    (FindSubmatch "xI161101 11:33:20.123456 f:1  m\n".toList = none ∧
     EntryDecoder.Decode UTC ⟨"xI161101 11:33:20.123456 f:1  m\n".toList⟩ Entry.zero
      = some ⟨none, ⟨Severity_INFO, 1478000000123456000, 0, "f".toList, 1, "m".toList⟩,
          ⟨[]⟩⟩) ∧
    (EntryDecoder.Decode UTC ⟨[]⟩ Entry.zero).map DecodeResult.err = some (some .EOF) ∧
    (EntryDecoder.Decode UTC ⟨"goroutine 1 [running]:\nmain.main()\n".toList⟩ Entry.zero).map
        DecodeResult.err = some (some .EOF) ∧
    (EntryDecoder.Decode UTC ⟨"I161301 11:33:20.123456 f:1  m\n".toList⟩ Entry.zero).map
        DecodeResult.err = some (some .parseTime) ∧
    (EntryDecoder.Decode UTC ⟨"I161101 25:33:20.123456 f:1  m\n".toList⟩ Entry.zero).map
        DecodeResult.err = some (some .parseTime) ∧
    (EntryDecoder.Decode UTC ⟨"I161101 11:33:20.123456 f:99999999999999999999  m\n".toList⟩
        Entry.zero).map DecodeResult.err = some (some .atoi) := by
  refine ⟨⟨by decide, by decide⟩, by decide, by decide, by decide, by decide, by decide⟩

/-! ## C2: segmentation of a stream -/

theorem sameRouting_refl (a : loggingT) : sameRouting a a := ⟨rfl, rfl, rfl, rfl⟩

theorem sameRouting_trans {a b c : loggingT} (h1 : sameRouting a b) (h2 : sameRouting b c) :
    sameRouting a c :=
  ⟨h1.1.trans h2.1, h1.2.1.trans h2.2.1, h1.2.2.1.trans h2.2.2.1, h1.2.2.2.trans h2.2.2.2⟩

theorem getTermColorProfile_frame (env : Env) (l : loggingT) (c : Option colorProfile)
    (l1 : loggingT) (h : getTermColorProfile env l = some (c, l1)) : sameRouting l1 l := by
  unfold getTermColorProfile at h
  split at h
  · simp only [Option.some.injEq, Prod.mk.injEq] at h
    obtain ⟨_, rfl⟩ := h
    exact ⟨rfl, rfl, rfl, rfl⟩
  · obtain ⟨c2, _, h2⟩ := Option.map_eq_some'.mp h
    simp only [Prod.mk.injEq] at h2
    obtain ⟨_, rfl⟩ := h2
    exact ⟨rfl, rfl, rfl, rfl⟩

theorem getBuffer_frame (l : loggingT) : sameRouting (getBuffer l).2 l := by
  unfold getBuffer
  split <;> exact ⟨rfl, rfl, rfl, rfl⟩

theorem putBuffer_frame (l : loggingT) (b : buffer) : sameRouting (putBuffer l b) l := by
  unfold putBuffer
  split <;> exact ⟨rfl, rfl, rfl, rfl⟩

theorem termColors_known (env : Env) (l : loggingT) (h : l.hasColorProfile = true) :
    termColors env l = l.colorProfile := by
  simp [termColors, getTermColorProfile, h]

theorem getTermColorProfile_known (env : Env) (l : loggingT) (c : Option colorProfile)
    (l1 : loggingT) (h : getTermColorProfile env l = some (c, l1)) :
    l1.hasColorProfile = true ∧ l1.colorProfile = c ∧ termColors env l = c := by
  have ht : termColors env l = c := by simp [termColors, h]
  unfold getTermColorProfile at h
  by_cases hp : l.hasColorProfile = true
  · rw [if_pos hp] at h
    simp only [Option.some.injEq, Prod.mk.injEq] at h
    obtain ⟨h1, rfl⟩ := h
    exact ⟨hp, h1, ht⟩
  · rw [if_neg hp] at h
    obtain ⟨c2, _, h2⟩ := Option.map_eq_some'.mp h
    simp only [Prod.mk.injEq] at h2
    obtain ⟨rfl, rfl⟩ := h2
    exact ⟨rfl, rfl, ht⟩

theorem getBuffer_colors (l : loggingT) :
    (getBuffer l).2.hasColorProfile = l.hasColorProfile ∧
      (getBuffer l).2.colorProfile = l.colorProfile := by
  unfold getBuffer
  split <;> exact ⟨rfl, rfl⟩

theorem putBuffer_colors (l : loggingT) (b : buffer) :
    (putBuffer l b).hasColorProfile = l.hasColorProfile ∧
      (putBuffer l b).colorProfile = l.colorProfile := by
  unfold putBuffer
  split <;> exact ⟨rfl, rfl⟩

theorem outputToStderr_cases (env : Env) (o : Outcome) (e : Entry) (st : Str) :
    (outputToStderr env o e st).status = .panicked ∨
    ∃ data l1, outputToStderr env o e st =
        { o with l := l1, events := o.events ++ [Event.stderrWrite data] } ∧
      sameRouting l1 o.l ∧ EntryLine env e st (termColors env o.l) data ∧
      termColors env l1 = termColors env o.l := by
  unfold outputToStderr
  cases hg : getTermColorProfile env o.l with
  | none => left; rfl
  | some r =>
    obtain ⟨colors, l1⟩ := r
    have f1 := getTermColorProfile_frame env o.l colors l1 hg
    obtain ⟨k1, k2, k3⟩ := getTermColorProfile_known env o.l colors l1 hg
    have f2 := getBuffer_frame l1
    simp only
    cases hf : formatLogEntry env.loc (getBuffer l1).1.tmp e st colors with
    | none => left; rfl
    | some buf =>
      simp only
      by_cases hw : env.stderrWriteFails = true
      · left; simp [hw]
      · right
        refine ⟨buf.bytes, putBuffer (getBuffer l1).2 buf, by simp [hw], ?_, ?_, ?_⟩
        · exact sameRouting_trans (putBuffer_frame _ _) (sameRouting_trans f2 f1)
        · rw [k3]; exact ⟨_, buf, hf, rfl⟩
        · rw [k3, termColors_known]
          · rw [(putBuffer_colors _ _).2, (getBuffer_colors _).2, k2]
          · rw [(putBuffer_colors _ _).1, (getBuffer_colors _).1, k1]

theorem writeToFile_cases (env : Env) (o : Outcome) (e : Entry) (st : Str) :
    (writeToFile env o e st).status = .panicked ∨
    ∃ data l1, writeToFile env o e st =
        { o with l := l1, events := o.events ++ [Event.fileWrite data] ++
          (if o.l.syncWrites then [Event.fileFlush, Event.fileSync] else []) } ∧
      sameRouting l1 o.l ∧ EntryLine env e st none data := by
  unfold writeToFile
  have f2 := getBuffer_frame o.l
  simp only
  cases hf : formatLogEntry env.loc (getBuffer o.l).1.tmp e st none with
  | none => left; rfl
  | some buf =>
    simp only
    by_cases hw : env.fileWriteFails = true
    · left; simp [hw]
    · right
      refine ⟨buf.bytes, putBuffer (getBuffer o.l).2 buf, ?_, ?_⟩
      · simp only [hw, Bool.false_eq_true, if_false, f2.2.2.2]
        split <;> simp
      · exact ⟨sameRouting_trans (putBuffer_frame _ _) f2, _, buf, hf, rfl⟩

theorem fatalExit_events (env : Env) (o : Outcome) (s : Int) :
    (fatalExit env o s).events = o.events ++ fatalEvents env s := by
  unfold fatalExit fatalEvents callExit Outcome.emit
  by_cases hs : s = Severity_FATAL
  · by_cases hf : env.fatalNoStacks > 0 <;> by_cases he : env.exitReturns = true <;>
      simp [hs, hf, he]
  · simp [hs]

theorem exit_events (env : Env) (o : Outcome) :
    (loggingT.exit env o).events = o.events ++ [Event.exitReport] ++
      (if o.logExitFunc = true then [Event.logExitFuncCall]
       else [Event.flushAll, Event.exitCall 2]) := by
  unfold loggingT.exit callExit Outcome.emit
  by_cases hl : o.logExitFunc = true <;> by_cases he : env.exitReturns = true <;>
    simp [hl, he]

theorem andThen_panicked (o : Outcome) (f : Outcome → Outcome) (h : o.status = .panicked) :
    (o.andThen f).status = .panicked := by
  unfold Outcome.andThen; rw [h]; exact h

theorem andThen_returned (o : Outcome) (f : Outcome → Outcome) (h : o.status = .returned) :
    o.andThen f = f o := by
  unfold Outcome.andThen; rw [h]

theorem stderrStep (env : Env) (l : loggingT) (lef : Bool) (s : Int) (e : Entry) (st : Str) :
    let o1 := if s ≥ l.stderrThreshold then outputToStderr env ⟨l, lef, [], .returned⟩ e st
      else ⟨l, lef, [], .returned⟩
    o1.status = .panicked ∨
    ∃ d1 l1, o1 = ⟨l1, lef, (if s ≥ l.stderrThreshold then [Event.stderrWrite d1] else []),
      .returned⟩ ∧ sameRouting l1 l ∧
      (s ≥ l.stderrThreshold → EntryLine env e st (termColors env l) d1) ∧
      termColors env l1 = termColors env l := by
  intro o1
  by_cases hs : s ≥ l.stderrThreshold
  · rcases outputToStderr_cases env ⟨l, lef, [], .returned⟩ e st with
      hp | ⟨d, l1, heq, hr, hd, hc⟩
    · left; simp only [o1, hs, if_true]; exact hp
    · right
      refine ⟨d, l1, ?_, hr, fun _ => hd, hc⟩
      simp only [o1, hs, if_true, heq, List.nil_append]
  · right
    exact ⟨[], l, by simp only [o1, hs, if_false], sameRouting_refl l,
      fun h => absurd h hs, rfl⟩

/-- The events of a call of `outputLogEntry` that does not panic, with the bytes of each
write: the entry as `formatLogEntry` renders it, with the terminal's colour profile on
stderr and without colours in the file. -/
theorem outputLogEntry_trace (env : Env) (l : loggingT) (lef : Bool) (s : Int) (file : Str)
    (line : Int) (msg : Str)
    (hnp : (outputLogEntry env l lef s file line msg).status ≠ .panicked) :
    ∃ d1 d2 d3, (outputLogEntry env l lef s file line msg).events =
      expectedEvents env l lef s d1 d2 d3 ∧
      (s ≥ l.stderrThreshold → EntryLine env ⟨s, env.now, env.goid, file, line, msg⟩
        (stacksFor env l s file line) (termColors env l) d1) ∧
      (createFailure env l s → EntryLine env ⟨s, env.now, env.goid, file, line, msg⟩
        (stacksFor env l s file line) (termColors env l) d2) ∧
      ((env.logDirSet = true ∧ s ≥ l.fileThreshold) → ¬ createFailure env l s →
        EntryLine env ⟨s, env.now, env.goid, file, line, msg⟩
          (stacksFor env l s file line) none d3) := by
  have hstep := stderrStep env l (if s = Severity_FATAL then true else lef) s
    ⟨s, env.now, env.goid, file, line, msg⟩ (stacksFor env l s file line)
  simp only at hstep
  unfold outputLogEntry at hnp ⊢
  simp only at hnp ⊢
  rcases hstep with hp | ⟨d1, l1, heq, hr, hd1, hc1⟩
  · exact absurd (andThen_panicked _ _ hp) hnp
  · rw [heq] at hnp ⊢
    rw [andThen_returned _ _ rfl] at hnp ⊢
    simp only at hnp ⊢
    have hlef : ((if s = Severity_FATAL then true else lef) = true) ↔
        (s = Severity_FATAL ∨ lef = true) := by
      by_cases h : s = Severity_FATAL <;> simp [h]
    by_cases hfile : env.logDirSet = true ∧ s ≥ l.fileThreshold
    · have hcond : (env.logDirSet && decide (s ≥ l1.fileThreshold)) = true := by
        rw [hr.2.1]; simp [hfile.1, hfile.2]
      rw [hcond] at hnp ⊢
      simp only [if_true] at hnp ⊢
      cases hlf : l.file with
      | none =>
        have hl1 : l1.file = none := by rw [hr.1, hlf]
        rw [hl1] at hnp ⊢
        simp only at hnp ⊢
        by_cases hcf : env.createFails = true
        · simp only [hcf, if_true] at hnp ⊢
          have he : ∀ (l0 : loggingT) (b : Bool) (ev : List Event) (e : Event)
              (g : Outcome → Outcome), (Outcome.emit ⟨l0, b, ev, .returned⟩ e).andThen g =
                g (Outcome.emit ⟨l0, b, ev, .returned⟩ e) :=
            fun _ _ _ _ _ => andThen_returned _ _ rfl
          rw [he] at hnp ⊢
          rcases outputToStderr_cases env
            (Outcome.emit ⟨l1, (if s = Severity_FATAL then true else lef),
              (if s ≥ l.stderrThreshold then [Event.stderrWrite d1] else []), .returned⟩
              Event.createFile)
            ⟨s, env.now, env.goid, file, line, msg⟩ (stacksFor env l s file line)
            with hp | ⟨d2, l2, heq2, _, hd2, _⟩
          · exact absurd (andThen_panicked _ _ hp) hnp
          · rw [heq2] at hnp ⊢
            rw [andThen_returned _ _ rfl] at hnp ⊢
            have hd2b : EntryLine env ⟨s, env.now, env.goid, file, line, msg⟩
                (stacksFor env l s file line) (termColors env l) d2 := by
              rw [← hc1]; exact hd2
            refine ⟨d1, d2, [], ?_, hd1, fun _ => hd2b,
              fun _ hn => absurd ⟨hfile.1, hfile.2, hlf, hcf⟩ hn⟩
            rw [exit_events]
            simp only [expectedEvents, hfile, hlf, hcf, Outcome.emit, and_self, if_true,
              hlef, List.append_assoc, List.singleton_append, List.cons_append,
              List.nil_append]
        · simp only [hcf, Bool.false_eq_true, if_false] at hnp ⊢
          rcases writeToFile_cases env
            { Outcome.emit ⟨l1, (if s = Severity_FATAL then true else lef),
              (if s ≥ l.stderrThreshold then [Event.stderrWrite d1] else []), .returned⟩
              Event.createFile with l := { l1 with file := some ⟨0, 0⟩ } }
            ⟨s, env.now, env.goid, file, line, msg⟩ (stacksFor env l s file line)
            with hp | ⟨d3, l3, heq3, _, hd3⟩
          · exact absurd (andThen_panicked _ _ hp) hnp
          · rw [heq3] at hnp ⊢
            rw [andThen_returned _ _ rfl] at hnp ⊢
            refine ⟨d1, [], d3, ?_, hd1, fun h => absurd h.2.2.2 hcf, fun _ _ => hd3⟩
            rw [fatalExit_events]
            simp only [expectedEvents, hfile, hlf, hcf, Outcome.emit, and_self, if_true,
              Bool.false_eq_true, and_false, if_false, hr.2.2.2, List.append_assoc,
              List.singleton_append, List.cons_append, List.nil_append]
      | some sb =>
        have hl1 : l1.file = some sb := by rw [hr.1, hlf]
        rw [hl1] at hnp ⊢
        simp only at hnp ⊢
        rcases writeToFile_cases env
          ⟨l1, (if s = Severity_FATAL then true else lef),
            (if s ≥ l.stderrThreshold then [Event.stderrWrite d1] else []), .returned⟩
          ⟨s, env.now, env.goid, file, line, msg⟩ (stacksFor env l s file line)
          with hp | ⟨d3, l3, heq3, _, hd3⟩
        · exact absurd (andThen_panicked _ _ hp) hnp
        · rw [heq3] at hnp ⊢
          rw [andThen_returned _ _ rfl] at hnp ⊢
          refine ⟨d1, [], d3, ?_, hd1,
            fun h => absurd (h.2.2.1.symm.trans hlf) (by simp), fun _ _ => hd3⟩
          rw [fatalExit_events]
          simp only [expectedEvents, hfile, hlf, and_self, if_true, false_and, if_false,
            hr.2.2.2, List.append_assoc, List.singleton_append, List.cons_append,
            List.nil_append, reduceCtorEq]
    · have hcond : (env.logDirSet && decide (s ≥ l1.fileThreshold)) = false := by
        rw [hr.2.1]
        by_cases h1 : env.logDirSet = true
        · have : ¬ s ≥ l.fileThreshold := fun h => hfile ⟨h1, h⟩
          simp [this]
        · simp [h1]
      rw [hcond] at hnp ⊢
      simp only [Bool.false_eq_true, if_false] at hnp ⊢
      refine ⟨d1, [], [], ?_, hd1, fun h => absurd ⟨h.1, h.2.1⟩ hfile,
        fun h => absurd h hfile⟩
      rw [fatalExit_events]
      simp only [expectedEvents, hfile, if_false]

/-! ## C6: routing -/

theorem wroteStderr_of_events (env : Env) (l : loggingT) (lef : Bool) (s : Int)
    (d1 d2 d3 : Str) (o : Outcome) (h : o.events = expectedEvents env l lef s d1 d2 d3) :
    o.wroteStderr = true ↔ (s ≥ l.stderrThreshold ∨ createFailure env l s) := by
  unfold Outcome.wroteStderr
  rw [h]
  unfold expectedEvents fatalEvents createFailure
  split_ifs <;> simp_all

theorem wroteFile_of_events (env : Env) (l : loggingT) (lef : Bool) (s : Int)
    (d1 d2 d3 : Str) (o : Outcome) (h : o.events = expectedEvents env l lef s d1 d2 d3) :
    o.wroteFile = true ↔
      ((env.logDirSet = true ∧ s ≥ l.fileThreshold) ∧ ¬ createFailure env l s) := by
  unfold Outcome.wroteFile
  rw [h]
  unfold expectedEvents fatalEvents createFailure
  split_ifs <;> simp_all

theorem stderrWrites_of_events (env : Env) (l : loggingT) (lef : Bool) (s : Int)
    (d1 d2 d3 : Str) (o : Outcome) (h : o.events = expectedEvents env l lef s d1 d2 d3) :
    o.stderrWrites = (if s ≥ l.stderrThreshold then [d1] else []) ++
      (if createFailure env l s then [d2] else []) := by
  unfold Outcome.stderrWrites
  rw [h]
  unfold expectedEvents fatalEvents createFailure
  split_ifs <;> simp_all <;> omega

theorem fileWrites_of_events (env : Env) (l : loggingT) (lef : Bool) (s : Int)
    (d1 d2 d3 : Str) (o : Outcome) (h : o.events = expectedEvents env l lef s d1 d2 d3) :
    o.fileWrites =
      (if (env.logDirSet = true ∧ s ≥ l.fileThreshold) ∧ ¬ createFailure env l s then [d3]
       else []) := by
  unfold Outcome.fileWrites
  rw [h]
  unfold expectedEvents fatalEvents createFailure
  by_cases hw : env.logDirSet = true ∧ s ≥ l.fileThreshold
  · by_cases hcf : l.file = none ∧ env.createFails = true
    · have hn : ¬ ((env.logDirSet = true ∧ s ≥ l.fileThreshold) ∧
          ¬ (env.logDirSet = true ∧ s ≥ l.fileThreshold ∧ l.file = none ∧
            env.createFails = true)) := fun hx => hx.2 ⟨hw.1, hw.2, hcf.1, hcf.2⟩
      rw [if_pos hw, if_pos hcf, if_neg hn]
      split_ifs <;> simp
    · have hp : (env.logDirSet = true ∧ s ≥ l.fileThreshold) ∧
          ¬ (env.logDirSet = true ∧ s ≥ l.fileThreshold ∧ l.file = none ∧
            env.createFails = true) := ⟨hw, fun hx => hcf ⟨hx.2.2.1, hx.2.2.2⟩⟩
      rw [if_pos hw, if_neg hcf, if_pos hp]
      split_ifs <;> simp
  · have hn : ¬ ((env.logDirSet = true ∧ s ≥ l.fileThreshold) ∧
        ¬ (env.logDirSet = true ∧ s ≥ l.fileThreshold ∧ l.file = none ∧
          env.createFails = true)) := fun hx => hw hx.1
    rw [if_neg hw, if_neg hn]
    split_ifs <;> simp

/-- C6 (as amended): for every call of `outputLogEntry` that does not panic, when the log
file is not both wanted and impossible to create, the entry is written to stderr exactly
when its severity reaches the stderr threshold and to the file exactly when a log
directory is configured and its severity reaches the file threshold; when the file is
wanted and cannot be created, the entry is written to stderr whatever the stderr threshold
and is not written to the file. What is written is the entry: every stderr write carries
the bytes `formatLogEntry` gives for the entry of the call (severity, clock, goroutine id,
file, line, message) with its stack bytes and the terminal's colour profile, every file
write the bytes `formatLogEntry` gives for it without colours; stderr is written once for
a severity that reaches the stderr threshold and once more when the file cannot be
created, and the file is written once when it is wanted and can be had. -/
theorem outputLogEntry_routing (env : Env) (l : loggingT) (lef : Bool) (s : Int)
    (file : Str) (line : Int) (msg : Str)
    (hnp : (outputLogEntry env l lef s file line msg).status ≠ .panicked) :
    (¬ createFailure env l s →
      ((outputLogEntry env l lef s file line msg).wroteStderr = true ↔
        s ≥ l.stderrThreshold) ∧
      ((outputLogEntry env l lef s file line msg).wroteFile = true ↔
        (env.logDirSet = true ∧ s ≥ l.fileThreshold))) ∧
    (createFailure env l s →
      (outputLogEntry env l lef s file line msg).wroteStderr = true ∧
      (outputLogEntry env l lef s file line msg).wroteFile = false) ∧
    (∀ d ∈ (outputLogEntry env l lef s file line msg).stderrWrites,
      EntryLine env ⟨s, env.now, env.goid, file, line, msg⟩ (stacksFor env l s file line)
        (termColors env l) d) ∧
    (∀ d ∈ (outputLogEntry env l lef s file line msg).fileWrites,
      EntryLine env ⟨s, env.now, env.goid, file, line, msg⟩ (stacksFor env l s file line)
        none d) ∧
    (outputLogEntry env l lef s file line msg).stderrWrites.length =
      (if s ≥ l.stderrThreshold then 1 else 0) + (if createFailure env l s then 1 else 0) ∧
    (outputLogEntry env l lef s file line msg).fileWrites.length =
      (if (env.logDirSet = true ∧ s ≥ l.fileThreshold) ∧ ¬ createFailure env l s then 1
       else 0) := by
  obtain ⟨d1, d2, d3, hev, p1, p2, p3⟩ := outputLogEntry_trace env l lef s file line msg hnp
  have h1 := wroteStderr_of_events env l lef s d1 d2 d3 _ hev
  have h2 := wroteFile_of_events env l lef s d1 d2 d3 _ hev
  have h3 := stderrWrites_of_events env l lef s d1 d2 d3 _ hev
  have h4 := fileWrites_of_events env l lef s d1 d2 d3 _ hev
  refine ⟨fun hc => ⟨?_, ?_⟩, fun hc => ⟨?_, ?_⟩, ?_, ?_, ?_, ?_⟩
  · rw [h1]
    exact ⟨fun h => h.resolve_right hc, Or.inl⟩
  · rw [h2]
    exact ⟨fun h => h.1, fun h => ⟨h, hc⟩⟩
  · rw [h1]; exact Or.inr hc
  · rw [Bool.eq_false_iff]
    intro h
    exact (h2.mp h).2 hc
  · intro d hd
    rw [h3, List.mem_append] at hd
    rcases hd with hd | hd
    · by_cases hs : s ≥ l.stderrThreshold
      · rw [if_pos hs, List.mem_singleton] at hd
        rw [hd]; exact p1 hs
      · rw [if_neg hs] at hd; simp at hd
    · by_cases hc : createFailure env l s
      · rw [if_pos hc, List.mem_singleton] at hd
        rw [hd]; exact p2 hc
      · rw [if_neg hc] at hd; simp at hd
  · intro d hd
    rw [h4] at hd
    by_cases hc : (env.logDirSet = true ∧ s ≥ l.fileThreshold) ∧ ¬ createFailure env l s
    · rw [if_pos hc, List.mem_singleton] at hd
      rw [hd]; exact p3 hc.1 hc.2
    · rw [if_neg hc] at hd; simp at hd
  · rw [h3, List.length_append]
    by_cases hs : s ≥ l.stderrThreshold <;> by_cases hc : createFailure env l s <;>
      simp [hs, hc]
  · rw [h4]
    by_cases hc : (env.logDirSet = true ∧ s ≥ l.fileThreshold) ∧ ¬ createFailure env l s
    · rw [if_pos hc, if_pos hc]; rfl
    · rw [if_neg hc, if_neg hc]; rfl

/-- Witness of `outputLogEntry_routing`: an INFO entry with both thresholds at INFO is
written once to stderr and once to the file, each time as its formatted line. -/
theorem outputLogEntry_routing_witness :
    (outputLogEntry sampleEnv sampleLogging false Severity_INFO "clog.go".toList 42
      "hello".toList).status ≠ .panicked ∧
    (outputLogEntry sampleEnv sampleLogging false Severity_INFO "clog.go".toList 42
      "hello".toList).events =
      [Event.stderrWrite "I161101 11:33:20.123456 12 clog.go:42  hello\n".toList,
       Event.createFile,
       Event.fileWrite "I161101 11:33:20.123456 12 clog.go:42  hello\n".toList] ∧
    (∀ d ∈ (outputLogEntry sampleEnv sampleLogging false Severity_INFO "clog.go".toList 42
        "hello".toList).stderrWrites,
      EntryLine sampleEnv
        ⟨Severity_INFO, sampleEnv.now, sampleEnv.goid, "clog.go".toList, 42, "hello".toList⟩
        (stacksFor sampleEnv sampleLogging Severity_INFO "clog.go".toList 42)
        (termColors sampleEnv sampleLogging) d) ∧
    (¬ createFailure sampleEnv sampleLogging Severity_INFO →
      ((outputLogEntry sampleEnv sampleLogging false Severity_INFO "clog.go".toList 42
          "hello".toList).wroteStderr = true ↔
        Severity_INFO ≥ sampleLogging.stderrThreshold) ∧
      ((outputLogEntry sampleEnv sampleLogging false Severity_INFO "clog.go".toList 42
          "hello".toList).wroteFile = true ↔
        (sampleEnv.logDirSet = true ∧ Severity_INFO ≥ sampleLogging.fileThreshold))) :=
  ⟨by decide, by decide,
    (outputLogEntry_routing sampleEnv sampleLogging false Severity_INFO
      "clog.go".toList 42 "hello".toList (by decide)).2.2.1,
    (outputLogEntry_routing sampleEnv sampleLogging false Severity_INFO
      "clog.go".toList 42 "hello".toList (by decide)).1⟩

/-- C6 as stated fails: with the stderr threshold at ERROR and a log file that cannot be
created, an INFO entry is written to stderr although its severity is below the stderr
threshold, and it is not written to the file although a log directory is configured and
its severity reaches the file threshold. -/
theorem outputLogEntry_routing_counterexample :
    (outputLogEntry { sampleEnv with createFails := true }
      { sampleLogging with stderrThreshold := Severity_ERROR } false Severity_INFO
      "clog.go".toList 42 "hello".toList).events =
      [Event.createFile,
       Event.stderrWrite "I161101 11:33:20.123456 12 clog.go:42  hello\n".toList,
       Event.exitReport, Event.flushAll, Event.exitCall 2] ∧
    (outputLogEntry { sampleEnv with createFails := true }
      { sampleLogging with stderrThreshold := Severity_ERROR } false Severity_INFO
      "clog.go".toList 42 "hello".toList).wroteStderr = true ∧
    ¬ (Severity_INFO ≥ ({ sampleLogging with stderrThreshold := Severity_ERROR } :
      loggingT).stderrThreshold) ∧
    (outputLogEntry { sampleEnv with createFails := true }
      { sampleLogging with stderrThreshold := Severity_ERROR } false Severity_INFO
      "clog.go".toList 42 "hello".toList).wroteFile = false ∧
    ({ sampleEnv with createFails := true } : Env).logDirSet = true ∧
    Severity_INFO ≥ ({ sampleLogging with stderrThreshold := Severity_ERROR } :
      loggingT).fileThreshold := by
  decide

/-! ## C7: the fatal path -/

/-- C7 fails in the code: a FATAL entry whose log file cannot be created is written to
stderr, `exit` reports the error and calls the no-op `logExitFunc` that the FATAL branch
installed, and `outputLogEntry` returns: no bounded flush is attempted and the exit
function is never called, whatever the no-stacks override; the same call with a file that
can be created flushes with the 10-second bound and calls the exit function once, with
255, or with 1 under the override. -/
theorem outputLogEntry_fatal_create_failure_no_exit :
    (outputLogEntry { sampleEnv with createFails := true } sampleLogging false
      Severity_FATAL "clog.go".toList 42 "hello".toList).events =
      [Event.stderrWrite "F161101 11:33:20.123456 12 clog.go:42  hello\nSTACK1\n".toList,
       Event.createFile,
       Event.stderrWrite "F161101 11:33:20.123456 12 clog.go:42  hello\nSTACK1\n".toList,
       Event.exitReport, Event.logExitFuncCall] ∧
    (outputLogEntry { sampleEnv with createFails := true } sampleLogging false
      Severity_FATAL "clog.go".toList 42 "hello".toList).status = Status.returned ∧
    (outputLogEntry { sampleEnv with createFails := true } sampleLogging false
      Severity_FATAL "clog.go".toList 42 "hello".toList).flushed = false ∧
    (outputLogEntry { sampleEnv with createFails := true } sampleLogging false
      Severity_FATAL "clog.go".toList 42 "hello".toList).exitCalls = [] ∧
    (outputLogEntry { sampleEnv with createFails := true, fatalNoStacks := 1 } sampleLogging
      false Severity_FATAL "clog.go".toList 42 "hello".toList).exitCalls = [] ∧
    (outputLogEntry sampleEnv sampleLogging false Severity_FATAL "clog.go".toList 42
      "hello".toList).events =
      [Event.stderrWrite "F161101 11:33:20.123456 12 clog.go:42  hello\nSTACK1\n".toList,
       Event.createFile,
       Event.fileWrite "F161101 11:33:20.123456 12 clog.go:42  hello\nSTACK1\n".toList,
       Event.timeoutFlush 10, Event.exitCall 255] ∧
    (outputLogEntry { sampleEnv with fatalNoStacks := 1 } sampleLogging false Severity_FATAL
      "clog.go".toList 42 "hello".toList).exitCalls = [1] := by
  decide

/-! ## The model of `filepath.Match` always has fuel enough -/

theorem getEsc_length (chunk : Str) (r : Char) (rest : Str)
    (h : getEsc chunk = some (r, rest)) : rest.length < chunk.length := by
  unfold getEsc at h
  cases chunk with
  | nil => simp at h
  | cons c t =>
    simp only at h
    split_ifs at h with h1 h2
    · cases t with
      | nil => simp at h
      | cons a u =>
        simp only at h
        split_ifs at h
        simp only [Option.some.injEq, Prod.mk.injEq] at h
        rw [← h.2]; simp only [List.length_cons]; omega
    · simp only at h
      split_ifs at h
      simp only [Option.some.injEq, Prod.mk.injEq] at h
      rw [← h.2]; simp only [List.length_cons]; omega

theorem classLoop_total (fuel : Nat) : ∀ (r : Char) (chunk : Str) (nrange : Nat)
    (m : Bool), chunk.length < fuel →
    ∃ res, classLoop fuel r chunk nrange m = some res ∧
      ∀ b rest, res = some (b, rest) → rest.length < chunk.length := by
  induction fuel with
  | zero => intro r chunk nrange m h; omega
  | succ n ih =>
    intro r chunk nrange m h
    unfold classLoop
    split_ifs with h1
    · refine ⟨_, rfl, ?_⟩
      intro b rest hb
      simp only [Option.some.injEq, Prod.mk.injEq] at hb
      rw [← hb.2]
      cases chunk with
      | nil => simp at h1
      | cons a t => simp
    · cases he : getEsc chunk with
      | none => exact ⟨none, rfl, by intro b rest hb; simp at hb⟩
      | some p =>
        obtain ⟨lo, chunk1⟩ := p
        have hl1 := getEsc_length chunk lo chunk1 he
        simp only
        split_ifs with h2
        · cases he2 : getEsc chunk1.tail with
          | none => exact ⟨none, rfl, by intro b rest hb; simp at hb⟩
          | some q =>
            obtain ⟨hi, chunk2⟩ := q
            have hl2 := getEsc_length chunk1.tail hi chunk2 he2
            have hl3 : chunk1.tail.length ≤ chunk1.length := by simp
            simp only
            obtain ⟨res, hr, hres⟩ := ih r chunk2 (nrange + 1)
              (m || decide (lo ≤ r ∧ r ≤ hi)) (by omega)
            exact ⟨res, hr, fun b rest hb => by have := hres b rest hb; omega⟩
        · obtain ⟨res, hr, hres⟩ := ih r chunk1 (nrange + 1)
            (m || decide (lo ≤ r ∧ r ≤ lo)) (by omega)
          exact ⟨res, hr, fun b rest hb => by have := hres b rest hb; omega⟩

theorem classChunk_length (ct : Str) :
    (if ct.head? = some '^' then ct.tail else ct).length ≤ ct.length := by
  split_ifs
  · simp
  · exact le_refl _

theorem matchClass_length (ct : Str) (r : Char) (ct1 : Str)
    (h : matchClass ct r = some (.matched ct1)) : ct1.length < ct.length := by
  unfold matchClass at h
  by_cases h0 : ct = []
  · rw [if_pos h0] at h; simp at h
  · rw [if_neg h0] at h
    have h7 := classChunk_length ct
    obtain ⟨res, hr, hres⟩ := classLoop_total (ct.length + 1) r
      (if ct.head? = some '^' then ct.tail else ct) 0 false (by omega)
    rw [hr] at h
    cases res with
    | none => simp at h
    | some p =>
      obtain ⟨m, ct2⟩ := p
      simp only at h
      by_cases hm : m = decide (ct.head? = some '^')
      · rw [if_pos hm] at h; simp at h
      · rw [if_neg hm] at h
        simp only [Option.some.injEq, ChunkResult.matched.injEq] at h
        have h6 := hres m ct2 rfl
        rw [← h]; omega

theorem matchClass_total (ct : Str) (r : Char) : ∃ res, matchClass ct r = some res := by
  unfold matchClass
  by_cases h0 : ct = []
  · rw [if_pos h0]; exact ⟨_, rfl⟩
  · rw [if_neg h0]
    have h7 := classChunk_length ct
    obtain ⟨res, hr, _⟩ := classLoop_total (ct.length + 1) r
      (if ct.head? = some '^' then ct.tail else ct) 0 false (by omega)
    rw [hr]
    cases res with
    | none => exact ⟨_, rfl⟩
    | some p =>
      obtain ⟨m, ct2⟩ := p
      simp only
      by_cases hm : m = decide (ct.head? = some '^')
      · rw [if_pos hm]; exact ⟨_, rfl⟩
      · rw [if_neg hm]; exact ⟨_, rfl⟩

theorem matchChunkLoop_total (fuel : Nat) : ∀ (chunk s : Str), chunk.length < fuel →
    ∃ res, matchChunkLoop fuel chunk s = some res := by
  induction fuel with
  | zero => intro chunk s h; omega
  | succ n ih =>
    intro chunk s h
    cases chunk with
    | nil => exact ⟨_, by rw [matchChunkLoop]⟩
    | cons c ct =>
      cases s with
      | nil => exact ⟨_, by rw [matchChunkLoop]⟩
      | cons r st =>
        simp only [List.length_cons] at h
        rw [matchChunkLoop]
        split_ifs with h1 h2 h3 h4 h5 h6
        · obtain ⟨res, hr⟩ := matchClass_total ct r
          cases res with
          | matched ct1 =>
            rw [hr]
            have := matchClass_length ct r ct1 hr
            exact ih ct1 st (by omega)
          | failed => rw [hr]; exact ⟨_, rfl⟩
          | bad => rw [hr]; exact ⟨_, rfl⟩
        · exact ⟨_, rfl⟩
        · exact ih ct st (by omega)
        · exact ⟨_, rfl⟩
        · exact ⟨_, rfl⟩
        · have : ct.tail.length ≤ ct.length := by simp
          exact ih ct.tail st (by omega)
        · exact ⟨_, rfl⟩
        · exact ih ct st (by omega)

theorem matchChunk_total (chunk s : Str) : ∃ res, matchChunk chunk s = some res :=
  matchChunkLoop_total _ chunk s (Nat.lt_succ_self _)

theorem starLoop_total (chunk : Str) (lastChunk : Bool) (name : Str) :
    ∃ res, starLoop chunk lastChunk name = some res := by
  induction name with
  | nil => exact ⟨_, rfl⟩
  | cons c t ih =>
    unfold starLoop
    split_ifs
    · exact ⟨_, rfl⟩
    · obtain ⟨res, hr⟩ := matchChunk_total chunk t
      rw [hr]
      cases res with
      | matched r =>
        simp only
        split_ifs
        · exact ih
        · exact ⟨_, rfl⟩
      | failed => exact ih
      | bad => exact ⟨_, rfl⟩

theorem scanLoop_length (n : Nat) : ∀ (inrange : Bool) (p : Str), p.length ≤ n →
    (scanLoop inrange p).1.length + (scanLoop inrange p).2.length = p.length := by
  induction n with
  | zero =>
    intro inrange p h
    have : p = [] := List.length_eq_zero.mp (by omega)
    subst this
    simp [scanLoop]
  | succ n ih =>
    intro inrange p h
    cases p with
    | nil => simp [scanLoop]
    | cons c t =>
      simp only [List.length_cons] at h
      unfold scanLoop
      split_ifs with h1 h2 h3 h4
      · cases t with
        | nil => simp
        | cons d t2 =>
          simp only [List.length_cons] at h ⊢
          have := ih inrange t2 (by omega)
          omega
      · simp only [List.length_cons]
        have := ih true t (by omega)
        omega
      · simp only [List.length_cons]
        have := ih false t (by omega)
        omega
      · simp
      · simp only [List.length_cons]
        have := ih inrange t (by omega)
        omega

theorem scanLoop_chunk_ne_nil (p : Str) (hp : p ≠ []) (hs : p.head? ≠ some '*') :
    (scanLoop false p).1 ≠ [] := by
  cases p with
  | nil => exact absurd rfl hp
  | cons c t =>
    have hc : c ≠ '*' := fun h => hs (by simp [h])
    unfold scanLoop
    split_ifs with h1 h2 h3 h4
    · cases t with
      | nil => simp
      | cons d t2 => simp
    · simp
    · simp
    · exact absurd h4.1 hc
    · simp

theorem dropWhile_length_le (q : Char → Bool) (p : Str) :
    (p.dropWhile q).length ≤ p.length := by
  induction p with
  | nil => simp
  | cons c t ih =>
    simp only [List.dropWhile_cons]
    split_ifs
    · simp only [List.length_cons]; omega
    · exact le_refl _

theorem scanChunk_rest (p : Str) (hp : p ≠ [])
    (h : ¬ ((scanChunk p).1 = true ∧ (scanChunk p).2.1 = [])) :
    (scanChunk p).2.2.length < p.length := by
  simp only [scanChunk, decide_eq_true_eq] at h ⊢
  have hlen := scanLoop_length _ false (p.dropWhile fun c => c = '*') (le_refl _)
  have hd := dropWhile_length_le (fun c => decide (c = '*')) p
  by_cases hc : (scanLoop false (p.dropWhile fun c => c = '*')).1 = []
  · have hstar : p.head? ≠ some '*' := fun hs => h ⟨hs, hc⟩
    have hq : (p.dropWhile fun c => decide (c = '*')) = p := by
      cases p with
      | nil => rfl
      | cons c t =>
        have : c ≠ '*' := fun hx => hstar (by simp [hx])
        simp [List.dropWhile_cons, this]
    rw [hq] at hc
    exact absurd hc (scanLoop_chunk_ne_nil p hp hstar)
  · have : 0 < (scanLoop false (p.dropWhile fun c => c = '*')).1.length :=
      List.length_pos.mpr hc
    omega

theorem starStep_total (star : Bool) (chunk : Str) (lastChunk : Bool) (name : Str)
    (next : Str → Option (Bool × Bool)) (hnext : ∀ t, ∃ res, next t = some res) :
    ∃ res, starStep star chunk lastChunk name next = some res := by
  unfold starStep
  split_ifs
  · obtain ⟨sr, hs⟩ := starLoop_total chunk lastChunk name
    rw [hs]
    cases sr with
    | resume t => exact hnext t
    | giveUp => exact ⟨_, rfl⟩
    | bad => exact ⟨_, rfl⟩
  · exact ⟨_, rfl⟩

theorem matchLoop_total (fuel : Nat) : ∀ (pattern name : Str), pattern.length < fuel →
    ∃ res, matchLoop fuel pattern name = some res := by
  induction fuel with
  | zero => intro pattern name h; omega
  | succ n ih =>
    intro pattern name h
    rw [matchLoop]
    split_ifs with h1 h2
    · exact ⟨_, rfl⟩
    · exact ⟨_, rfl⟩
    · have hrest := scanChunk_rest pattern h1 h2
      have hnext : ∀ t, ∃ res, matchLoop n (scanChunk pattern).2.2 t = some res :=
        fun t => ih _ t (by omega)
      obtain ⟨res, hr⟩ := matchChunk_total (scanChunk pattern).2.1 name
      rw [hr]
      cases res with
      | bad => exact ⟨_, rfl⟩
      | failed => exact starStep_total _ _ _ _ _ hnext
      | matched t =>
        simp only
        split_ifs with h3
        · exact hnext t
        · exact starStep_total _ _ _ _ _ hnext

/-- The model of `filepath.Match` returns for every pattern and name. -/
theorem Match_total (pattern name : Str) : ∃ res, Match pattern name = some res :=
  matchLoop_total _ pattern name (Nat.lt_succ_self _)

/-! ## C8, C9 and C10: verbosity -/

theorem afterLastSlash_append (t s : Str) (hs : ∀ c ∈ s, c ≠ '/') :
    afterLastSlash (t ++ s) = afterLastSlash t ++ s := by
  unfold afterLastSlash
  rw [List.reverse_append, List.takeWhile_append_of_pos, List.reverse_append,
    List.reverse_reverse]
  intro a ha
  have := hs a (List.mem_reverse.mp ha)
  simpa using this

theorem afterLastSlash_suffix (f : Str) : afterLastSlash f <:+ f := by
  unfold afterLastSlash
  have h := List.takeWhile_prefix (fun c => c != '/') (l := f.reverse)
  have h2 := List.reverse_suffix.mpr h
  rwa [List.reverse_reverse] at h2

theorem trimGo_append (t : Str) : trimGo (t ++ ".go".toList) = t := by
  unfold trimGo
  have h : ".go".toList.isSuffixOf (t ++ ".go".toList) = true :=
    List.isSuffixOf_iff_suffix.mpr (List.suffix_append _ _)
  rw [if_pos h]
  apply List.take_left'
  simp

theorem trimGo_of_not_suffix (f : Str) (h : ¬ ".go".toList <:+ f) : trimGo f = f := by
  unfold trimGo
  rw [if_neg]
  intro hs
  exact h (List.isSuffixOf_iff_suffix.mp hs)

/-- Dropping the `.go` suffix and then the directories, as `setV` does, gives the
basename without its `.go` suffix. -/
theorem afterLastSlash_trimGo (f : Str) : afterLastSlash (trimGo f) = siteName f := by
  unfold siteName
  by_cases h : ".go".toList <:+ f
  · obtain ⟨t, rfl⟩ := h
    rw [trimGo_append, afterLastSlash_append t _ (by decide), trimGo_append]
  · rw [trimGo_of_not_suffix f h, trimGo_of_not_suffix]
    exact fun h2 => h (h2.trans (afterLastSlash_suffix f))

theorem match_eq_patternMatches (p : modulePat) (name : Str)
    (h : p.literal = isLiteral p.pattern) : p.match name = patternMatches p name := by
  unfold modulePat.match patternMatches
  rw [h]

theorem setVLoop_eq (l : loggingT) (pc : Nat) (file : Str) (filter : List modulePat)
    (hlit : ∀ p ∈ filter, p.literal = isLiteral p.pattern) :
    setVLoop l pc file filter = (firstMatchLevel filter file,
      { l with vmap := (pc, firstMatchLevel filter file) :: l.vmap }) := by
  induction filter with
  | nil => rfl
  | cons p rest ih =>
    have hp := match_eq_patternMatches p file (hlit p (List.mem_cons_self _ _))
    have ih2 := ih (fun q hq => hlit q (List.mem_cons_of_mem _ hq))
    unfold setVLoop
    by_cases hm : patternMatches p file = true
    · have hf : firstMatchLevel (p :: rest) file = p.level := by
        simp only [firstMatchLevel, List.find?_cons, hm]
      rw [hp, if_pos hm, hf]
    · have hm2 : patternMatches p file = false := by simpa using hm
      have hf : firstMatchLevel (p :: rest) file = firstMatchLevel rest file := by
        simp only [firstMatchLevel, List.find?_cons, hm2]
      rw [hp, if_neg hm, hf, ih2]

theorem setV_eq (cs : CallSites) (l : loggingT) (pc : Nat)
    (hlit : ∀ p ∈ l.vmodule, p.literal = isLiteral p.pattern) :
    l.setV cs pc = (firstMatchLevel l.vmodule (siteName (cs.fileLine pc)),
      { l with vmap := (pc, firstMatchLevel l.vmodule (siteName (cs.fileLine pc)))
        :: l.vmap }) := by
  unfold loggingT.setV
  rw [afterLastSlash_trimGo, setVLoop_eq l pc _ _ hlit]

theorem int32_of_small (n : Nat) (h : n < 2 ^ 31) : int32 (n : Int) = n := by
  unfold int32
  have : ((n : Int) + 2 ^ 31) % 2 ^ 32 = n + 2 ^ 31 := by
    apply Int.emod_eq_of_lt <;> omega
  omega

/-- C8: with an empty list of override patterns (and the filter length `setVState` keeps
equal to the length of the list), `VDepth(level, depth)` is true exactly for the levels
up to the global verbosity, for every call stack and depth. -/
theorem VDepth_no_overrides (cs : CallSites) (l : loggingT) (level depth : Int)
    (hempty : l.vmodule = []) (hlen : l.filterLength = int32 l.vmodule.length) :
    ((VDepth cs l level depth).1 = true ↔ level ≤ l.verbosity) ∧
    ((VDepth cs l level depth).1 = false ↔ level > l.verbosity) ∧
    (VDepth cs l level depth).2 = l := by
  have h0 : l.filterLength = 0 := by rw [hlen, hempty]; rfl
  unfold VDepth
  by_cases hv : l.verbosity ≥ level
  · rw [if_pos hv]
    exact ⟨⟨fun _ => hv, fun _ => rfl⟩, ⟨fun h => by simp at h, fun h => by omega⟩, rfl⟩
  · rw [if_neg hv, if_neg (by omega)]
    exact ⟨⟨fun h => by simp at h, fun h => absurd h hv⟩, ⟨fun _ => by omega, fun _ => rfl⟩,
      rfl⟩

/-- Witness of `VDepth_no_overrides`: verbosity 2 installed with an empty filter list. -/
theorem VDepth_no_overrides_witness :
    (sampleLogging.setVState 2 [] true).vmodule = [] ∧
    (sampleLogging.setVState 2 [] true).verbosity = 2 ∧
    ((VDepth sampleSites (sampleLogging.setVState 2 [] true) 2 1).1 = true ↔
      (2 : Int) ≤ (sampleLogging.setVState 2 [] true).verbosity) ∧
    ((VDepth sampleSites (sampleLogging.setVState 2 [] true) 3 1).1 = false ↔
      (3 : Int) > (sampleLogging.setVState 2 [] true).verbosity) :=
  ⟨rfl, rfl,
    (VDepth_no_overrides sampleSites (sampleLogging.setVState 2 [] true) 2 1 rfl rfl).1,
    (VDepth_no_overrides sampleSites (sampleLogging.setVState 2 [] true) 3 1 rfl rfl).2.1⟩

/-- C9 (as amended): in a state whose filter length is the length of the pattern list and
whose call-site cache is consistent, `VDepth(level, depth)` is true exactly when the global
verbosity is at least the level, or the pattern list is not empty, the call site exists and
the level of the first pattern in list order that matches the call site's file (0 when no
pattern matches) is at least the level. -/
theorem VDepth_enabled_iff (cs : CallSites) (l : loggingT) (level depth : Int)
    (hlen : l.filterLength = int32 l.vmodule.length) (hsmall : l.vmodule.length < 2 ^ 31)
    (hcache : CacheOK cs l)
    (hlit : ∀ p ∈ l.vmodule, p.literal = isLiteral p.pattern) :
    (VDepth cs l level depth).1 = true ↔
      (l.verbosity ≥ level ∨
        (l.vmodule ≠ [] ∧ ∃ pc, cs.callers (2 + depth) = some pc ∧
          firstMatchLevel l.vmodule (siteName (cs.fileLine pc)) ≥ level)) := by
  have hfl : l.filterLength > 0 ↔ l.vmodule ≠ [] := by
    rw [hlen, int32_of_small _ hsmall]
    cases l.vmodule with
    | nil => simp
    | cons a t => simp only [List.length_cons, ne_eq, reduceCtorEq, not_false_eq_true,
        iff_true]; omega
  unfold VDepth
  by_cases hv : l.verbosity ≥ level
  · rw [if_pos hv]
    exact ⟨fun _ => Or.inl hv, fun _ => rfl⟩
  · rw [if_neg hv]
    by_cases hf : l.filterLength > 0
    · rw [if_pos hf]
      have hne := hfl.mp hf
      cases hc : cs.callers (2 + depth) with
      | none =>
        simp only [Bool.false_eq_true, false_iff, not_or, not_and, not_exists]
        exact ⟨hv, fun _ pc hpc => by simp at hpc⟩
      | some pc =>
        have hset := setV_eq cs l pc hlit
        cases hg : vmapGet l.vmap pc with
        | none =>
          simp only [hg, hset, decide_eq_true_eq]
          constructor
          · intro h
            exact Or.inr ⟨hne, pc, rfl, h⟩
          · rintro (h | ⟨_, pc2, hpc, h⟩)
            · exact absurd h hv
            · simp only [Option.some.injEq] at hpc
              rw [hpc]; exact h
        | some v =>
          have hv2 := hcache pc v hg
          rw [hset] at hv2
          simp only at hv2
          simp only [hg, decide_eq_true_eq]
          constructor
          · intro h
            exact Or.inr ⟨hne, pc, rfl, by rw [← hv2]; exact h⟩
          · rintro (h | ⟨_, pc2, hpc, h⟩)
            · exact absurd h hv
            · simp only [Option.some.injEq] at hpc
              rw [hv2, hpc]; exact h
    · rw [if_neg hf]
      simp only [Bool.false_eq_true, false_iff, not_or, not_and, not_exists]
      exact ⟨hv, fun hne => absurd (hfl.mpr hne) hf⟩

/-- Witness of `VDepth_enabled_iff`: the filters `a*=2,ab=5` just installed, a call site
in `ab.go`, level 2. -/
theorem VDepth_enabled_iff_witness :
    CacheOK sampleSites sampleVerbose ∧
    (VDepth sampleSites sampleVerbose 2 1).1 = true ∧
    ((VDepth sampleSites sampleVerbose 2 1).1 = true ↔
      (sampleVerbose.verbosity ≥ 2 ∨
        (sampleVerbose.vmodule ≠ [] ∧ ∃ pc, sampleSites.callers (2 + 1) = some pc ∧
          firstMatchLevel sampleVerbose.vmodule (siteName (sampleSites.fileLine pc)) ≥ 2))) :=
  ⟨fun pc v h => by simp [vmapGet, sampleVerbose, loggingT.setVState] at h, by decide,
    VDepth_enabled_iff sampleSites sampleVerbose 2 1 (by decide) (by decide)
      (fun pc v h => by simp [vmapGet, sampleVerbose, loggingT.setVState] at h)
      (by decide)⟩

/-- C9 as stated fails. With the filters `a*=2,ab=5` and global verbosity 0, `VDepth(3)`
at a call site in `ab.go` is false although the pattern `ab`, which matches the file, has
level 5: the earlier pattern `a*` decides. With the filter `zz=1` and global verbosity -1,
`VDepth(0)` at the same call site is true although the global verbosity is below 0 and no
pattern matches the file: an unmatched call site resolves to level 0. -/
theorem VDepth_enabled_counterexample :
    (VDepth sampleSites sampleVerbose 3 1).1 = false ∧
    (∃ p ∈ sampleVerbose.vmodule,
      p.match (siteName (sampleSites.fileLine 3)) = true ∧ p.level ≥ 3) ∧
    (VDepth sampleSites (sampleLogging.setVState (-1) [⟨"zz".toList, true, 1⟩] true) 0 1).1
      = true ∧
    ¬ ((sampleLogging.setVState (-1) [⟨"zz".toList, true, 1⟩] true).verbosity ≥ 0) ∧
    ¬ (∃ p ∈ (sampleLogging.setVState (-1) [⟨"zz".toList, true, 1⟩] true).vmodule,
      p.match (siteName (sampleSites.fileLine 3)) = true ∧ p.level ≥ 0) := by
  decide

/-- C10: for every state whose patterns carry the literal flag `moduleSpec.Set` gives them
and every call site, `setV` returns the level of the first pattern in list order that
matches the basename of the call site's file with its `.go` suffix removed (string
equality for a pattern without metacharacters, glob matching otherwise), 0 when no pattern
matches, and stores that level in the cache for the call site, leaving the rest of the
state alone. With the patterns `a*=2,ab=5` and global verbosity 0 a call site in `ab.go`
resolves to 2, so `VDepth(2)` is true and `VDepth(3)` is false. -/
theorem setV_first_match_wins :
    (∀ (cs : CallSites) (l : loggingT) (pc : Nat),
      (∀ p ∈ l.vmodule, p.literal = isLiteral p.pattern) →
      (l.setV cs pc).1 = firstMatchLevel l.vmodule (siteName (cs.fileLine pc)) ∧
      vmapGet (l.setV cs pc).2.vmap pc =
        some (firstMatchLevel l.vmodule (siteName (cs.fileLine pc))) ∧
      (l.setV cs pc).2 = { l with vmap :=
        (pc, firstMatchLevel l.vmodule (siteName (cs.fileLine pc))) :: l.vmap }) ∧
    sampleVerbose.vmodule = [⟨"a*".toList, isLiteral "a*".toList, 2⟩,
      ⟨"ab".toList, isLiteral "ab".toList, 5⟩] ∧
    sampleVerbose.verbosity = 0 ∧
    siteName (sampleSites.fileLine 3) = "ab".toList ∧
    (sampleVerbose.setV sampleSites 3).1 = 2 ∧
    (VDepth sampleSites sampleVerbose 2 1).1 = true ∧
    (VDepth sampleSites sampleVerbose 3 1).1 = false := by
  refine ⟨fun cs l pc hlit => ?_, by decide, by decide, by decide, by decide, by decide,
    by decide⟩
  rw [setV_eq cs l pc hlit]
  refine ⟨rfl, ?_, rfl⟩
  simp [vmapGet]

theorem setV_level_eq (cs : CallSites) (l l2 : loggingT) (pc : Nat)
    (h : l2.vmodule = l.vmodule) : (l2.setV cs pc).1 = (l.setV cs pc).1 := by
  unfold loggingT.setV
  rw [h]
  generalize l.vmodule = filter
  induction filter with
  | nil => rfl
  | cons p rest ih =>
    unfold setVLoop
    split_ifs
    · rfl
    · exact ih

/-- A fresh cache is consistent. -/
theorem cacheOK_of_empty (cs : CallSites) (l : loggingT) (h : l.vmap = []) :
    CacheOK cs l := by
  intro pc v hv
  rw [h] at hv
  simp [vmapGet] at hv

theorem setVLoop_state (l : loggingT) (pc : Nat) (file : Str) (filter : List modulePat) :
    (setVLoop l pc file filter).2 =
      { l with vmap := (pc, (setVLoop l pc file filter).1) :: l.vmap } := by
  induction filter with
  | nil => rfl
  | cons p rest ih =>
    unfold setVLoop
    split_ifs
    · rfl
    · exact ih

/-- `VDepth` keeps the cache consistent and the filters in place. -/
theorem cacheOK_VDepth (cs : CallSites) (l : loggingT) (level depth : Int)
    (h : CacheOK cs l) :
    CacheOK cs (VDepth cs l level depth).2 ∧
      (VDepth cs l level depth).2.vmodule = l.vmodule := by
  unfold VDepth
  split_ifs
  · exact ⟨h, rfl⟩
  · cases hc : cs.callers (2 + depth) with
    | none => exact ⟨h, rfl⟩
    | some pc =>
      cases hg : vmapGet l.vmap pc with
      | some v => simp only [hg, and_true]; exact h
      | none =>
        simp only [hg]
        have hst : (l.setV cs pc).2 = { l with vmap := (pc, (l.setV cs pc).1) :: l.vmap } :=
          setVLoop_state l pc _ _
        have hvm : (l.setV cs pc).2.vmodule = l.vmodule := by rw [hst]
        refine ⟨?_, hvm⟩
        intro pc2 v hv
        rw [setV_level_eq cs l _ pc2 hvm]
        rw [hst] at hv
        simp only [vmapGet, List.find?_cons] at hv
        by_cases hp : pc = pc2
        · subst hp
          simp only [decide_True, Option.map_some', Option.some.injEq] at hv
          exact hv.symm
        · simp only [hp, decide_False] at hv
          exact h pc2 v hv
  · exact ⟨h, rfl⟩

/-! ## C11: the syntax of `--vmodule` -/

theorem stringsSplit_ne_nil (sep : Char) (s : Str) : stringsSplit sep s ≠ [] := by
  cases s with
  | nil => simp [stringsSplit]
  | cons c t => unfold stringsSplit; split_ifs <;> simp

theorem stringsSplit_length (sep : Char) (s : Str) :
    (stringsSplit sep s).length = s.count sep + 1 := by
  induction s with
  | nil => simp [stringsSplit]
  | cons c t ih =>
    unfold stringsSplit
    by_cases h : c = sep
    · rw [if_pos h]; subst h; simp [ih]
    · rw [if_neg h]
      have hne := stringsSplit_ne_nil sep t
      have : (stringsSplit sep t).tail.length + 1 = (stringsSplit sep t).length := by
        cases hs : stringsSplit sep t with
        | nil => exact absurd hs hne
        | cons a r => simp
      have hc : List.count sep (c :: t) = List.count sep t := by
        rw [List.count_cons]; simp [h]
      simp only [List.length_cons, hc]
      omega

theorem stringsSplit_of_count_zero (sep : Char) (s : Str) (h : s.count sep = 0) :
    stringsSplit sep s = [s] := by
  induction s with
  | nil => rfl
  | cons c t ih =>
    have hc : c ≠ sep := by
      intro hcs; subst hcs; simp at h
    have h2 : t.count sep = 0 := by
      rw [List.count_cons] at h; simp [hc] at h; exact h
    unfold stringsSplit
    rw [if_neg hc, ih h2]
    rfl

theorem stringsSplit_of_count_one (sep : Char) (s : Str) (h : s.count sep = 1) :
    stringsSplit sep s =
      [s.takeWhile fun c => c ≠ sep, (s.dropWhile fun c => c ≠ sep).drop 1] := by
  induction s with
  | nil => simp at h
  | cons c t ih =>
    unfold stringsSplit
    by_cases hc : c = sep
    · subst hc
      have h2 : t.count c = 0 := by
        rw [List.count_cons] at h; simpa using h
      rw [if_pos rfl, stringsSplit_of_count_zero c t h2]
      simp
    · have h2 : t.count sep = 1 := by
        rw [List.count_cons] at h; simpa [hc] using h
      rw [if_neg hc, ih h2]
      simp [List.takeWhile_cons, List.dropWhile_cons, hc]

theorem Atoi_nil : Atoi [] = none := by decide

theorem moduleSpecLoop_empty (rest : List Str) (filter : List modulePat) :
    moduleSpecLoop ([] :: rest) filter = moduleSpecLoop rest filter := by
  rw [moduleSpecLoop]; simp

theorem moduleSpecLoop_bad (pat : Str) (rest : List Str) (filter : List modulePat)
    (hne : pat ≠ []) (h : segmentPair pat = none) :
    ∃ e, moduleSpecLoop (pat :: rest) filter = .error e := by
  have hlen : ¬ pat.length = 0 := fun h0 => hne (List.length_eq_zero.mp h0)
  rw [moduleSpecLoop, if_neg hlen]
  unfold segmentPair at h
  by_cases hc : pat.count '=' = 1
  · rw [if_pos hc] at h
    rw [stringsSplit_of_count_one '=' pat hc]
    simp only at h ⊢
    split_ifs with h1
    · exact ⟨_, rfl⟩
    · cases ha : Atoi ((pat.dropWhile fun c => c ≠ '=').drop 1) with
      | none => exact ⟨_, rfl⟩
      | some v =>
        rw [ha] at h
        simp only at h ⊢
        have hp : (pat.takeWhile fun c => c ≠ '=') ≠ [] := by
          intro h0; apply h1; left; rw [h0]; rfl
        split_ifs at h with h2
        by_cases hv : v < 0
        · rw [if_pos hv]; exact ⟨_, rfl⟩
        · exact absurd ⟨hp, by omega⟩ h2
  · have hl := stringsSplit_length '=' pat
    cases hs : stringsSplit '=' pat with
    | nil => exact ⟨_, rfl⟩
    | cons a r =>
      cases r with
      | nil => exact ⟨_, rfl⟩
      | cons b r2 =>
        cases r2 with
        | nil =>
          rw [hs] at hl
          simp only [List.length_cons, List.length_nil] at hl
          exact absurd (by omega) hc
        | cons c r3 => exact ⟨_, rfl⟩

theorem moduleSpecLoop_good (pat : Str) (rest : List Str) (filter : List modulePat)
    (p : Str) (v : Int) (h : segmentPair pat = some (p, v)) :
    moduleSpecLoop (pat :: rest) filter =
      if v = 0 then moduleSpecLoop rest filter
      else moduleSpecLoop rest (filter ++ [mkPat (p, v)]) := by
  unfold segmentPair at h
  by_cases hc : pat.count '=' = 1
  · rw [if_pos hc] at h
    simp only at h
    cases ha : Atoi ((pat.dropWhile fun c => c ≠ '=').drop 1) with
    | none => rw [ha] at h; simp at h
    | some w =>
      rw [ha] at h
      simp only at h
      split_ifs at h with h2
      simp only [Option.some.injEq, Prod.mk.injEq] at h
      obtain ⟨hp, hv⟩ := h
      subst hv
      have hne : pat ≠ [] := by
        intro h0; rw [h0] at hc; simp at hc
      have hlen : ¬ pat.length = 0 := fun h0 => hne (List.length_eq_zero.mp h0)
      have hlev : ((pat.dropWhile fun c => c ≠ '=').drop 1) ≠ [] := by
        intro h0; rw [h0, Atoi_nil] at ha; simp at ha
      rw [moduleSpecLoop, if_neg hlen, stringsSplit_of_count_one '=' pat hc]
      simp only
      rw [if_neg (by
        intro h3
        rcases h3 with h3 | h3
        · exact h2.1 (List.length_eq_zero.mp h3)
        · exact hlev (List.length_eq_zero.mp h3)), ha]
      simp only
      rw [if_neg (by omega), hp]
      rfl
  · rw [if_neg hc] at h; simp at h

theorem moduleSpecLoop_spec (segs : List Str) : ∀ (filter : List modulePat),
    ((∃ seg ∈ segs, seg ≠ [] ∧ segmentPair seg = none) →
      ∃ e, moduleSpecLoop segs filter = .error e) ∧
    ((¬ ∃ seg ∈ segs, seg ≠ [] ∧ segmentPair seg = none) →
      moduleSpecLoop segs filter = .ok (filter ++
        (((segs.filter fun seg => seg ≠ []).filterMap fun seg =>
          match segmentPair seg with
          | some (pattern, v) => if v > 0 then some (pattern, v) else none
          | none => none).map mkPat))) := by
  induction segs with
  | nil =>
    intro filter
    exact ⟨fun ⟨seg, hs, _⟩ => by simp at hs, fun _ => by simp [moduleSpecLoop]⟩
  | cons pat rest ih =>
    intro filter
    by_cases hne : pat = []
    · subst hne
      rw [moduleSpecLoop_empty]
      constructor
      · rintro ⟨seg, hs, hn, hb⟩
        rcases List.mem_cons.mp hs with h | h
        · exact absurd h hn
        · exact (ih filter).1 ⟨seg, h, hn, hb⟩
      · intro hno
        have hno2 : ¬ ∃ seg ∈ rest, seg ≠ [] ∧ segmentPair seg = none :=
          fun ⟨seg, hs, hn, hb⟩ => hno ⟨seg, List.mem_cons_of_mem _ hs, hn, hb⟩
        rw [(ih filter).2 hno2]
        simp [List.filter_cons]
    · cases hp : segmentPair pat with
      | none =>
        constructor
        · intro _
          exact moduleSpecLoop_bad pat rest filter hne hp
        · intro hno
          exact absurd ⟨pat, List.mem_cons_self _ _, hne, hp⟩ hno
      | some pv =>
        obtain ⟨p, v⟩ := pv
        rw [moduleSpecLoop_good pat rest filter p v hp]
        have hv0 : 0 ≤ v := by
          unfold segmentPair at hp
          split_ifs at hp
          simp only at hp
          cases ha : Atoi ((pat.dropWhile fun c => c ≠ '=').drop 1) with
          | none => rw [ha] at hp; simp at hp
          | some w =>
            rw [ha] at hp
            simp only at hp
            split_ifs at hp with h2
            simp only [Option.some.injEq, Prod.mk.injEq] at hp
            rw [← hp.2]; exact h2.2
        have hiff : (∃ seg ∈ pat :: rest, seg ≠ [] ∧ segmentPair seg = none) ↔
            ∃ seg ∈ rest, seg ≠ [] ∧ segmentPair seg = none := by
          constructor
          · rintro ⟨seg, hs, hn, hb⟩
            rcases List.mem_cons.mp hs with h | h
            · rw [h, hp] at hb; simp at hb
            · exact ⟨seg, h, hn, hb⟩
          · rintro ⟨seg, hs, hn, hb⟩
            exact ⟨seg, List.mem_cons_of_mem _ hs, hn, hb⟩
        rw [hiff]
        by_cases hv : v = 0
        · rw [if_pos hv]
          refine ⟨(ih filter).1, fun hno => ?_⟩
          rw [(ih filter).2 hno]
          simp [List.filter_cons, hne, hp, hv]
        · rw [if_neg hv]
          refine ⟨(ih _).1, fun hno => ?_⟩
          rw [(ih _).2 hno]
          have hpos : v > 0 := by omega
          simp [List.filter_cons, hne, hp, hpos]

/-- What `moduleSpec.Set(value)` computes for every value: an error exactly when some
segment of the value between commas is not empty and is not `pattern=level` with exactly
one `=`, a pattern that is not empty and a level that `strconv.Atoi` reads as an integer
that is not negative, with the state kept; otherwise the call to `setVState` with one
filter for each such segment with a level above 0, in input order, built by `mkPat`; and
when every level is below 2^31 the installed patterns and levels are the pairs of the
value. -/
theorem moduleSpec_Set_grammar (l : loggingT) (value : Str) :
    ((moduleSpec.Set l value).1 ≠ none ↔
      ∃ seg ∈ stringsSplit ',' value, seg ≠ [] ∧ segmentPair seg = none) ∧
    ((moduleSpec.Set l value).1 ≠ none → (moduleSpec.Set l value).2 = l) ∧
    ((moduleSpec.Set l value).1 = none →
      (moduleSpec.Set l value).2 =
        l.setVState l.verbosity ((installedPairs value).map mkPat) true) ∧
    ((moduleSpec.Set l value).1 = none → (∀ pv ∈ installedPairs value, pv.2 < 2 ^ 31) →
      (moduleSpec.Set l value).2.vmodule.map (fun p => (p.pattern, p.level)) =
        installedPairs value) := by
  have hspec := moduleSpecLoop_spec (stringsSplit ',' value) []
  by_cases hbad : ∃ seg ∈ stringsSplit ',' value, seg ≠ [] ∧ segmentPair seg = none
  · obtain ⟨e, he⟩ := hspec.1 hbad
    have h1 : moduleSpec.Set l value = (some e, l) := by
      unfold moduleSpec.Set; rw [he]
    rw [h1]
    exact ⟨⟨fun _ => hbad, fun _ => by simp⟩, fun _ => rfl, fun h => by simp at h,
      fun h => by simp at h⟩
  · have hok := hspec.2 hbad
    rw [List.nil_append] at hok
    have h1 : moduleSpec.Set l value =
        (none, l.setVState l.verbosity ((installedPairs value).map mkPat) true) := by
      unfold moduleSpec.Set; rw [hok]; rfl
    rw [h1]
    refine ⟨⟨fun h => absurd rfl h, fun h => absurd h hbad⟩, fun h => absurd rfl h,
      fun _ => rfl, fun _ hsmall => ?_⟩
    simp only [loggingT.setVState, if_true, List.map_map]
    have : ∀ pvs : List (Str × Int), (∀ pv ∈ pvs, 0 < pv.2 ∧ pv.2 < 2 ^ 31) →
        pvs.map ((fun p : modulePat => (p.pattern, p.level)) ∘ mkPat) = pvs := by
      intro pvs hp
      induction pvs with
      | nil => rfl
      | cons a r ih =>
        have ha := hp a (List.mem_cons_self _ _)
        have hr := ih (fun pv h => hp pv (List.mem_cons_of_mem _ h))
        rw [List.map_cons, hr]
        have h32 : int32 a.2 = a.2 := by
          unfold int32
          have : (a.2 + 2 ^ 31) % 2 ^ 32 = a.2 + 2 ^ 31 := by
            apply Int.emod_eq_of_lt <;> omega
          omega
        simp only [Function.comp, mkPat, h32]
    apply this
    intro pv hpv
    refine ⟨?_, hsmall pv hpv⟩
    unfold installedPairs at hpv
    rw [List.mem_filterMap] at hpv
    obtain ⟨seg, _, hseg⟩ := hpv
    cases hsp : segmentPair seg with
    | none => rw [hsp] at hseg; simp at hseg
    | some qw =>
      obtain ⟨q, w⟩ := qw
      rw [hsp] at hseg
      simp only at hseg
      split_ifs at hseg with hw
      simp only [Option.some.injEq] at hseg
      rw [← hseg]; exact hw

/-- An instance of `moduleSpec_Set_grammar`: `a*=2,,b=0,ab=5` installs `a*=2` and
`ab=5`. -/
theorem moduleSpec_Set_grammar_instance :
    (moduleSpec.Set sampleLogging "a*=2,,b=0,ab=5".toList).1 = none ∧
    installedPairs "a*=2,,b=0,ab=5".toList = [("a*".toList, 2), ("ab".toList, 5)] ∧
    (moduleSpec.Set sampleLogging "a*=2,,b=0,ab=5".toList).2.vmodule.map
        (fun p => (p.pattern, p.level)) = installedPairs "a*=2,,b=0,ab=5".toList ∧
    (moduleSpec.Set sampleLogging "a=1,b".toList).1 ≠ none ∧
    (moduleSpec.Set sampleLogging "a=1,b".toList).2 = sampleLogging :=
  ⟨by decide, by decide,
    (moduleSpec_Set_grammar sampleLogging "a*=2,,b=0,ab=5".toList).2.2.2 (by decide)
      (by decide),
    by decide,
    (moduleSpec_Set_grammar sampleLogging "a=1,b".toList).2.1 (by decide)⟩

/-- C11 fails on the code: `moduleSpec.Set` tests the level as the 64-bit `int` that
`strconv.Atoi` returns (`v < 0` is an error, `v == 0` is skipped) and then stores
`level(v)`, an `int32`. The value `a=2147483648` passes both tests and installs the filter
`a` with level -2147483648, where `a=-1` is refused; `a=4294967296` installs the filter
`a` with level 0 (filter count 1), where `a=0` installs nothing; and `a=4294967297`
installs level 1. In all three the call succeeds and the pairs of the value with a level
above 0 are not the pairs installed. -/
theorem moduleSpec_Set_level_past_guards :
    ((moduleSpec.Set sampleLogging "a=2147483648".toList).1 = none ∧
     installedPairs "a=2147483648".toList = [("a".toList, 2147483648)] ∧
     (moduleSpec.Set sampleLogging "a=2147483648".toList).2.vmodule =
        [⟨"a".toList, true, -2147483648⟩] ∧
     (moduleSpec.Set sampleLogging "a=-1".toList).1 = some ConfigError.vmoduleNegative) ∧
    ((moduleSpec.Set sampleLogging "a=4294967296".toList).1 = none ∧
     installedPairs "a=4294967296".toList = [("a".toList, 4294967296)] ∧
     (moduleSpec.Set sampleLogging "a=4294967296".toList).2.vmodule =
        [⟨"a".toList, true, 0⟩] ∧
     (moduleSpec.Set sampleLogging "a=4294967296".toList).2.filterLength = 1 ∧
     (moduleSpec.Set sampleLogging "a=0".toList).1 = none ∧
     (moduleSpec.Set sampleLogging "a=0".toList).2.vmodule = [] ∧
     (moduleSpec.Set sampleLogging "a=0".toList).2.filterLength = 0) ∧
    ((moduleSpec.Set sampleLogging "a=4294967297".toList).1 = none ∧
     installedPairs "a=4294967297".toList = [("a".toList, 4294967297)] ∧
     (moduleSpec.Set sampleLogging "a=4294967297".toList).2.vmodule =
        [⟨"a".toList, true, 1⟩]) := by
  decide
/-! ## C12: severity input -/

theorem toUpper_upper_range (n : Nat) (h1 : 97 ≤ n) (h2 : n ≤ 122) :
    Char.ofNat (n - 32) ≠ 'ı' ∧ Char.ofNat (n - 32) ≠ 'ſ' ∧
      (Char.ofNat (n - 32)).toUpper = Char.ofNat (n - 32) := by
  interval_cases n <;> decide

theorem toUpperRune_toUpper (c : Char) : toUpperRune c.toUpper = toUpperRune c := by
  by_cases h1 : c = 'ı'
  · subst h1; decide
  · by_cases h2 : c = 'ſ'
    · subst h2; decide
    · by_cases hr : c.toNat ≥ 97 ∧ c.toNat ≤ 122
      · have hu : c.toUpper = Char.ofNat (c.toNat - 32) := by
          unfold Char.toUpper; simp only; rw [if_pos hr]
        obtain ⟨ha, hb, hc⟩ := toUpper_upper_range c.toNat hr.1 hr.2
        unfold toUpperRune
        rw [if_neg h1, if_neg h2, hu, if_neg ha, if_neg hb, hc]
      · have hu : c.toUpper = c := by
          unfold Char.toUpper; simp only; rw [if_neg hr]
        rw [hu]

theorem ToUpper_toUpper (s : Str) : ToUpper (s.map Char.toUpper) = ToUpper s := by
  unfold ToUpper
  rw [List.map_map]
  apply List.map_congr_left
  intro c _
  exact toUpperRune_toUpper c

theorem Severity_value_find :
    ∀ kv ∈ Severity_value, (Severity_value.find? fun x => x.1 = kv.1) = some kv := by
  decide

/-- C12 (as amended): `Severity.Set` stores the severity whose name is the upper-cased
value, INFO for `true` and NONE for `false` in any letter case, otherwise the integer
`strconv.Atoi` reads from the value, converted to `int32`, and otherwise returns the error
and leaves the severity as it was; `SeverityByName` gives the same result for two texts
that differ only in the case of ASCII letters. -/
theorem Severity_Set_input (s : Int) (value : Str) :
    (∀ kv ∈ Severity_value, ToUpper value = kv.1 →
      Severity.Set s value = (none, kv.2)) ∧
    (ToUpper value = "TRUE".toList → Severity.Set s value = (none, Severity_INFO)) ∧
    (ToUpper value = "FALSE".toList → Severity.Set s value = (none, Severity_NONE)) ∧
    ((∀ kv ∈ Severity_value, ToUpper value ≠ kv.1) → ToUpper value ≠ "TRUE".toList →
      ToUpper value ≠ "FALSE".toList →
      (∀ v, Atoi value = some v → Severity.Set s value = (none, int32 v)) ∧
      (Atoi value = none → Severity.Set s value = (some ConfigError.atoi, s))) ∧
    (∀ t : Str, value.map Char.toUpper = t.map Char.toUpper →
      SeverityByName value = SeverityByName t) := by
  refine ⟨?_, ?_, ?_, ?_, ?_⟩
  · intro kv hkv hu
    have hf := Severity_value_find kv hkv
    unfold Severity.Set SeverityByName
    rw [hu, hf]
    rfl
  · intro hu
    unfold Severity.Set SeverityByName
    rw [hu]
    rfl
  · intro hu
    unfold Severity.Set SeverityByName
    rw [hu]
    rfl
  · intro hno ht hf
    have hfind : (Severity_value.find? fun x => x.1 = ToUpper value) = none := by
      rw [List.find?_eq_none]
      intro x hx
      have := hno x hx
      simpa using fun h => this h.symm
    have hby : SeverityByName value = (0, false) := by
      unfold SeverityByName
      rw [hfind]
      simp only
      rw [if_neg ht, if_neg hf]
    constructor
    · intro v hv
      unfold Severity.Set
      rw [hby, hv]
      rfl
    · intro hv
      unfold Severity.Set
      rw [hby, hv]
      rfl
  · intro t ht
    unfold SeverityByName
    rw [← ToUpper_toUpper value, ← ToUpper_toUpper t, ht]

/-- Witness of `Severity_Set_input`: `Warning` is stored as WARNING, `7` as 7, and `x`
is rejected. -/
theorem Severity_Set_input_witness :
    Severity.Set Severity_INFO "Warning".toList = (none, Severity_WARNING) ∧
    Severity.Set Severity_INFO "7".toList = (none, 7) ∧
    Severity.Set Severity_INFO "x".toList = (some ConfigError.atoi, Severity_INFO) ∧
    SeverityByName "fatal".toList = SeverityByName "FaTaL".toList :=
  ⟨(Severity_Set_input Severity_INFO "Warning".toList).1
      ("WARNING".toList, Severity_WARNING) (by decide) (by decide),
    ((Severity_Set_input Severity_INFO "7".toList).2.2.2.1 (by decide) (by decide)
      (by decide)).1 7 (by decide),
    ((Severity_Set_input Severity_INFO "x".toList).2.2.2.1 (by decide) (by decide)
      (by decide)).2 (by decide),
    (Severity_Set_input Severity_INFO "fatal".toList).2.2.2.2 "FaTaL".toList (by decide)⟩

/-- C12 as stated fails: the value `4294967297` parses as a decimal integer, and the
severity stored is 1, not that integer. -/
theorem Severity_Set_counterexample :
    Atoi "4294967297".toList = some 4294967297 ∧
    (SeverityByName "4294967297".toList).2 = false ∧
    Severity.Set Severity_INFO "4294967297".toList = (none, 1) := by
  decide

/-! ## C13: the syntax of `-log_backtrace_at` -/

theorem stringsSplit_append_sep (sep : Char) (a b : Str) (h : sep ∉ a) :
    stringsSplit sep (a ++ sep :: b) = a :: stringsSplit sep b := by
  induction a with
  | nil => simp [stringsSplit]
  | cons c t ih =>
    have hc : c ≠ sep := fun hcs => h (by simp [hcs])
    have ht : sep ∉ t := fun hm => h (List.mem_cons_of_mem _ hm)
    rw [List.cons_append, stringsSplit, if_neg hc, ih ht]
    rfl

theorem stringsSplit_of_not_mem (sep : Char) (s : Str) (h : sep ∉ s) :
    stringsSplit sep s = [s] := by
  induction s with
  | nil => rfl
  | cons c t ih =>
    have hc : c ≠ sep := fun hcs => h (by simp [hcs])
    have ht : sep ∉ t := fun hm => h (List.mem_cons_of_mem _ hm)
    rw [stringsSplit, if_neg hc, ih ht]
    rfl

theorem stringsSplit_pair (sep : Char) (a b : Str) (ha : sep ∉ a) (hb : sep ∉ b) :
    stringsSplit sep (a ++ sep :: b) = [a, b] := by
  rw [stringsSplit_append_sep sep a b ha, stringsSplit_of_not_mem sep b hb]

theorem stripSign_subset (s : Str) (c : Char) (h : c ∈ s) (hp : c ≠ '+') (hm : c ≠ '-') :
    c ∈ stripSign s := by
  unfold stripSign
  split
  · rename_i t
    rcases List.mem_cons.mp h with h1 | h1
    · exact absurd h1 hp
    · exact h1
  · rename_i t
    rcases List.mem_cons.mp h with h1 | h1
    · exact absurd h1 hm
    · exact h1
  · exact h

theorem Atoi_no_colon (s : Str) (v : Int) (h : Atoi s = some v) : ':' ∉ s := by
  intro hc
  have hb := stripSign_subset s ':' hc (by decide) (by decide)
  by_cases h1 : ((stripSign s).isEmpty || !(stripSign s).all isDigit) = true
  · simp [Atoi, h1] at h
  · apply h1
    rw [Bool.or_eq_true]
    right
    rw [Bool.not_eq_true', ← Bool.not_eq_true, List.all_eq_true]
    intro hall
    have := hall ':' hb
    revert this
    decide

theorem match_iff (t : traceLocation) (path : Str) (line : Int) :
    t.match path line = true ↔ (line = t.line ∧ afterLastSlash path = t.file) := by
  unfold traceLocation.match
  by_cases h : t.line = line
  · rw [if_neg (not_not.mpr h)]
    simp only [beq_iff_eq]
    exact ⟨fun h2 => ⟨h.symm, h2.symm⟩, fun h2 => h2.2.symm⟩
  · rw [if_pos h]
    simp only [Bool.false_eq_true, false_iff, not_and]
    intro h2
    exact absurd h2.symm h

/-- C13: `traceLocation.Set("")` clears the location, so that `isSet()` is false. For a
value `file:N` whose file part has a `.` and no `:` and whose line part reads as an
integer `N > 0`, `Set` succeeds, `isSet()` is true afterwards and `match(path, line)` is
true exactly when `line` is `N` and the text of `path` after its last `/` is the file.
`Set` returns an error, and leaves the location as it was, for a value that is not empty
and does not have exactly two fields between colons, for a file part without `.`, for a
line part that is not an integer and for a line `N <= 0`. -/
theorem traceLocation_Set_grammar (t : traceLocation) :
    (traceLocation.Set t [] = (none, ⟨[], 0⟩) ∧ (traceLocation.Set t []).2.isSet = false) ∧
    (∀ (file lineText : Str) (n : Int), ':' ∉ file → '.' ∈ file →
      Atoi lineText = some n → n > 0 →
      traceLocation.Set t (file ++ ':' :: lineText) = (none, ⟨file, n⟩) ∧
      (traceLocation.Set t (file ++ ':' :: lineText)).2.isSet = true ∧
      ∀ (path : Str) (line : Int),
        (traceLocation.Set t (file ++ ':' :: lineText)).2.match path line = true ↔
          (line = n ∧ afterLastSlash path = file)) ∧
    (∀ (file lineText : Str) (n : Int), ':' ∉ file →
      Atoi lineText = some n → n ≤ 0 →
      (traceLocation.Set t (file ++ ':' :: lineText)).1 ≠ none ∧
      (traceLocation.Set t (file ++ ':' :: lineText)).2 = t) ∧
    (∀ (file lineText : Str), ':' ∉ file → ':' ∉ lineText → '.' ∉ file →
      (traceLocation.Set t (file ++ ':' :: lineText)).1 ≠ none ∧
      (traceLocation.Set t (file ++ ':' :: lineText)).2 = t) ∧
    (∀ (file lineText : Str), ':' ∉ file → ':' ∉ lineText → Atoi lineText = none →
      (traceLocation.Set t (file ++ ':' :: lineText)).1 ≠ none ∧
      (traceLocation.Set t (file ++ ':' :: lineText)).2 = t) ∧
    (∀ value : Str, value ≠ [] → (stringsSplit ':' value).length ≠ 2 →
      (traceLocation.Set t value).1 ≠ none ∧ (traceLocation.Set t value).2 = t) := by
  refine ⟨⟨rfl, rfl⟩, ?_, ?_, ?_, ?_, ?_⟩
  · intro file lineText n hf hdot ha hn
    have hl := Atoi_no_colon lineText n ha
    have hc : (file.contains '.') = true := by simpa using hdot
    have hset : traceLocation.Set t (file ++ ':' :: lineText) = (none, ⟨file, n⟩) := by
      unfold traceLocation.Set
      rw [if_neg (by simp), stringsSplit_pair ':' file lineText hf hl]
      simp only [hc, ha, Bool.not_true, Bool.false_eq_true, if_false]
      rw [if_neg (by omega)]
    rw [hset]
    refine ⟨rfl, ?_, ?_⟩
    · simp only [traceLocation.isSet, decide_eq_true_eq]; exact hn
    · intro path line
      exact match_iff _ path line
  · intro file lineText n hf ha hn
    have hl := Atoi_no_colon lineText n ha
    unfold traceLocation.Set
    rw [if_neg (by simp), stringsSplit_pair ':' file lineText hf hl]
    by_cases hc : (file.contains '.') = true
    · simp only [hc, ha, Bool.not_true, Bool.false_eq_true, if_false]
      rw [if_pos hn]
      exact ⟨by simp, rfl⟩
    · simp only [hc, Bool.not_false, if_true]
      simp
  · intro file lineText hf hl hdot
    have hc : (file.contains '.') = false := by simpa using hdot
    unfold traceLocation.Set
    rw [if_neg (by simp), stringsSplit_pair ':' file lineText hf hl]
    simp only [hc, Bool.not_false, if_true]
    simp
  · intro file lineText hf hl ha
    unfold traceLocation.Set
    rw [if_neg (by simp), stringsSplit_pair ':' file lineText hf hl]
    by_cases hc : (file.contains '.') = true
    · simp only [hc, ha, Bool.not_true, Bool.false_eq_true, if_false]
      simp
    · simp only [hc, Bool.not_false, if_true]
      simp
  · intro value hv hlen
    unfold traceLocation.Set
    rw [if_neg hv]
    cases hs : stringsSplit ':' value with
    | nil => exact ⟨by simp, rfl⟩
    | cons a r =>
      cases r with
      | nil => exact ⟨by simp, rfl⟩
      | cons b r2 =>
        cases r2 with
        | nil => rw [hs] at hlen; simp at hlen
        | cons c r3 => exact ⟨by simp, rfl⟩

/-- Witness of `traceLocation_Set_grammar`: `clog.go:234` is set and matches
`/src/pkg/clog.go` at line 234 only; `clog.go:0`, `clog:5`, `clog.go:x` and `a:b:c` are
rejected. -/
theorem traceLocation_Set_grammar_witness :
    traceLocation.Set ⟨[], 0⟩ "clog.go:234".toList = (none, ⟨"clog.go".toList, 234⟩) ∧
    (traceLocation.Set ⟨[], 0⟩ "clog.go:234".toList).2.match "/src/pkg/clog.go".toList 234
      = true ∧
    (traceLocation.Set ⟨[], 0⟩ "clog.go:234".toList).2.match "/src/pkg/clog.go".toList 235
      = false ∧
    (traceLocation.Set ⟨[], 0⟩ "clog.go:0".toList).1 ≠ none ∧
    (traceLocation.Set ⟨[], 0⟩ "clog:5".toList).1 ≠ none ∧
    (traceLocation.Set ⟨[], 0⟩ "clog.go:x".toList).1 ≠ none ∧
    (traceLocation.Set ⟨[], 0⟩ "a:b:c".toList).1 ≠ none :=
  ⟨((traceLocation_Set_grammar ⟨[], 0⟩).2.1 "clog.go".toList "234".toList 234 (by decide)
      (by decide) (by decide) (by decide)).1,
    by decide, by decide,
    ((traceLocation_Set_grammar ⟨[], 0⟩).2.2.1 "clog.go".toList "0".toList 0 (by decide)
      (by decide) (by decide)).1,
    ((traceLocation_Set_grammar ⟨[], 0⟩).2.2.2.1 "clog".toList "5".toList (by decide)
      (by decide) (by decide)).1,
    ((traceLocation_Set_grammar ⟨[], 0⟩).2.2.2.2.1 "clog.go".toList "x".toList (by decide)
      (by decide) (by decide)).1,
    ((traceLocation_Set_grammar ⟨[], 0⟩).2.2.2.2.2 "a:b:c".toList (by decide)
      (by decide)).1⟩

/-! ## C14: a rejected input changes nothing -/

/-- C14: whenever `Severity.Set`, `level.Set`, `moduleSpec.Set` or `traceLocation.Set`
returns an error, the state it is called on (the severity; the engine state with the
global verbosity, the pattern list, the filter length and the call-site cache; the trace
location) is what it was before the call. -/
theorem Set_error_keeps_state :
    (∀ (s : Int) (value : Str),
      (Severity.Set s value).1 ≠ none → (Severity.Set s value).2 = s) ∧
    (∀ (l : loggingT) (value : Str),
      (level.Set l value).1 ≠ none → (level.Set l value).2 = l) ∧
    (∀ (l : loggingT) (value : Str),
      (moduleSpec.Set l value).1 ≠ none → (moduleSpec.Set l value).2 = l) ∧
    (∀ (t : traceLocation) (value : Str),
      (traceLocation.Set t value).1 ≠ none → (traceLocation.Set t value).2 = t) := by
  refine ⟨?_, ?_, ?_, ?_⟩
  · intro s value h
    unfold Severity.Set at h ⊢
    split_ifs at h ⊢ with h1
    · exact absurd rfl h
    · cases ha : Atoi value with
      | none => rfl
      | some v => rw [ha] at h; exact absurd rfl h
  · intro l value h
    unfold level.Set at h ⊢
    cases ha : Atoi value with
    | none => rfl
    | some v => rw [ha] at h; exact absurd rfl h
  · intro l value h
    unfold moduleSpec.Set at h ⊢
    cases hm : moduleSpecLoop (stringsSplit ',' value) [] with
    | error e => rfl
    | ok filter => rw [hm] at h; exact absurd rfl h
  · intro t value h
    unfold traceLocation.Set at h ⊢
    split_ifs at h ⊢ with h1
    · exact absurd rfl h
    · cases hs : stringsSplit ':' value with
      | nil => rfl
      | cons a r =>
        cases r with
        | nil => rfl
        | cons b r2 =>
          cases r2 with
          | nil =>
            rw [hs] at h
            simp only at h ⊢
            split_ifs at h ⊢ with h2
            · rfl
            · cases ha : Atoi b with
              | none => rfl
              | some v =>
                rw [ha] at h
                simp only at h ⊢
                split_ifs at h ⊢ with h3
                · rfl
                · exact absurd rfl h
          | cons c r3 => rfl

/-- Witness of `Set_error_keeps_state`: four rejected inputs. -/
theorem Set_error_keeps_state_witness :
    (Severity.Set Severity_ERROR "loud".toList).1 ≠ none ∧
    (Severity.Set Severity_ERROR "loud".toList).2 = Severity_ERROR ∧
    (level.Set sampleVerbose "2x".toList).1 ≠ none ∧
    (level.Set sampleVerbose "2x".toList).2 = sampleVerbose ∧
    (moduleSpec.Set sampleVerbose "a=1,b=-1".toList).1 ≠ none ∧
    (moduleSpec.Set sampleVerbose "a=1,b=-1".toList).2 = sampleVerbose ∧
    (traceLocation.Set ⟨"clog.go".toList, 7⟩ "clog.go:-3".toList).1 ≠ none ∧
    (traceLocation.Set ⟨"clog.go".toList, 7⟩ "clog.go:-3".toList).2 =
      ⟨"clog.go".toList, 7⟩ :=
  ⟨by decide, Set_error_keeps_state.1 Severity_ERROR "loud".toList (by decide),
    by decide, Set_error_keeps_state.2.1 sampleVerbose "2x".toList (by decide),
    by decide, Set_error_keeps_state.2.2.1 sampleVerbose "a=1,b=-1".toList (by decide),
    by decide,
    Set_error_keeps_state.2.2.2 ⟨"clog.go".toList, 7⟩ "clog.go:-3".toList (by decide)⟩

/-! ## C15: buffer reuse -/

/-- C15: `putBuffer` of a buffer shorter than 256 bytes followed by `getBuffer` returns
that buffer, emptied, and leaves the free list as it was before the put; `putBuffer` of a
buffer of 256 bytes or more leaves the state as it is; `getBuffer` always returns an empty
buffer, a new one when the free list is empty. -/
theorem putBuffer_getBuffer_reuse (l : loggingT) (b : buffer) :
    (byteLen b.bytes < 256 →
      getBuffer (putBuffer l b) = ({ b with bytes := [] }, l)) ∧
    (byteLen b.bytes ≥ 256 → putBuffer l b = l) ∧
    byteLen (getBuffer l).1.bytes = 0 ∧
    (l.freeList = [] → getBuffer l = (⟨[], zeroTmp⟩, l)) ∧
    (∀ (b0 : buffer) (rest : List buffer), l.freeList = b0 :: rest →
      getBuffer l = ({ b0 with bytes := [] }, { l with freeList := rest })) := by
  refine ⟨?_, ?_, ?_, ?_, ?_⟩
  · intro h
    unfold putBuffer
    rw [if_neg (by omega)]
    rfl
  · intro h
    unfold putBuffer
    rw [if_pos h]
  · unfold getBuffer
    cases l.freeList with
    | nil => rfl
    | cons a r => rfl
  · intro h
    unfold getBuffer
    rw [h]
  · intro b0 rest h
    unfold getBuffer
    rw [h]

set_option maxRecDepth 100000 in
/-- Witness of `putBuffer_getBuffer_reuse`: a buffer of 5 bytes comes back emptied, a
buffer of 300 bytes is dropped. -/
theorem putBuffer_getBuffer_reuse_witness :
    getBuffer (putBuffer sampleLogging ⟨"hello".toList, zeroTmp⟩) =
      (⟨[], zeroTmp⟩, sampleLogging) ∧
    putBuffer sampleLogging ⟨List.replicate 300 'x', zeroTmp⟩ = sampleLogging :=
  ⟨(putBuffer_getBuffer_reuse sampleLogging ⟨"hello".toList, zeroTmp⟩).1 (by decide),
    (putBuffer_getBuffer_reuse sampleLogging ⟨List.replicate 300 'x', zeroTmp⟩).2.1
      (by decide)⟩

/-! ## C16, C17 and C18: retention -/

/-- C16 (as amended): over files of sizes 10, 20, 30 and 40, newest first, with a budget
of 25, `gcOldFiles` removes the files of sizes 20, 30 and 40, in that order, and leaves
the newest file only: the running totals 30, 60 and 100 all reach the budget. -/
theorem gcOldFiles_example :
    gcOldFiles true (some sampleFiles) 25 = ["log.3".toList, "log.2".toList, "log.1".toList] ∧
    (sampleFiles.filter fun f => f.Name ∉ gcOldFiles true (some sampleFiles) 25) =
      [⟨"log.4".toList, 10⟩] ∧
    (List.range 4).map (runningTotal sampleFiles) = [10, 30, 60, 100] := by
  decide

/-- C16 as stated fails: the file of size 20 is removed too, so the files left are not
the two newest. -/
theorem gcOldFiles_example_counterexample :
    "log.3".toList ∈ gcOldFiles true (some sampleFiles) 25 ∧
    (sampleFiles.filter fun f => f.Name ∉ gcOldFiles true (some sampleFiles) 25) ≠
      [⟨"log.4".toList, 10⟩, ⟨"log.3".toList, 20⟩] := by
  decide

theorem gcLoop_sublist (max : Int) (rest : List FileInfo) : ∀ sum : Int,
    (gcLoop max sum rest).Sublist (rest.map FileInfo.Name) := by
  induction rest with
  | nil => intro sum; simp [gcLoop]
  | cons f r ih =>
    intro sum
    unfold gcLoop
    split_ifs
    · exact List.Sublist.cons _ (ih _)
    · exact List.Sublist.cons₂ _ (ih _)

/-- C17: for every list of files that is not empty, every size and every budget,
`gcOldFiles` passes to `os.Remove` only names of files after the first, in list order; so
the newest file, whose name no older file has, is never removed. -/
theorem gcOldFiles_keeps_newest (logDirSet : Bool) (f0 : FileInfo) (rest : List FileInfo)
    (max : Int) :
    (gcOldFiles logDirSet (some (f0 :: rest)) max).Sublist (rest.map FileInfo.Name) ∧
    ((∀ f ∈ rest, f.Name ≠ f0.Name) →
      f0.Name ∉ gcOldFiles logDirSet (some (f0 :: rest)) max) := by
  have hsub : (gcOldFiles logDirSet (some (f0 :: rest)) max).Sublist
      (rest.map FileInfo.Name) := by
    unfold gcOldFiles
    split_ifs
    · exact List.nil_sublist _
    · exact gcLoop_sublist max rest _
  refine ⟨hsub, fun hne hmem => ?_⟩
  have := hsub.subset hmem
  rw [List.mem_map] at this
  obtain ⟨f, hf, hname⟩ := this
  exact hne f hf hname

/-- Witness of `gcOldFiles_keeps_newest`: budgets 0 and -5 over the sample files. -/
theorem gcOldFiles_keeps_newest_witness :
    "log.4".toList ∉ gcOldFiles true (some sampleFiles) 0 ∧
    "log.4".toList ∉ gcOldFiles true (some sampleFiles) (-5) ∧
    gcOldFiles true (some sampleFiles) 0 =
      ["log.3".toList, "log.2".toList, "log.1".toList] :=
  ⟨(gcOldFiles_keeps_newest true ⟨"log.4".toList, 10⟩
      [⟨"log.3".toList, 20⟩, ⟨"log.2".toList, 30⟩, ⟨"log.1".toList, 40⟩] 0).2 (by decide),
    (gcOldFiles_keeps_newest true ⟨"log.4".toList, 10⟩
      [⟨"log.3".toList, 20⟩, ⟨"log.2".toList, 30⟩, ⟨"log.1".toList, 40⟩] (-5)).2
      (by decide),
    by decide⟩

theorem int64_of_range (n : Int) (h1 : -(2 ^ 63) ≤ n) (h2 : n < 2 ^ 63) : int64 n = n := by
  unfold int64
  have : (n + 2 ^ 63) % 2 ^ 64 = n + 2 ^ 63 := by
    apply Int.emod_eq_of_lt <;> omega
  omega

theorem sizes_sum_nonneg (rest : List FileInfo) (hnn : ∀ f ∈ rest, 0 ≤ f.SizeBytes) :
    0 ≤ (rest.map FileInfo.SizeBytes).sum := by
  induction rest with
  | nil => simp
  | cons f r ih =>
    have h1 := hnn f (List.mem_cons_self _ _)
    have h2 := ih (fun g hg => hnn g (List.mem_cons_of_mem _ hg))
    simp only [List.map_cons, List.sum_cons]
    omega

theorem gcLoop_all (max : Int) (rest : List FileInfo) : ∀ sum : Int,
    (∀ f ∈ rest, 0 ≤ f.SizeBytes) → 0 ≤ sum → max ≤ sum →
    sum + (rest.map FileInfo.SizeBytes).sum < 2 ^ 63 →
    gcLoop max sum rest = rest.map FileInfo.Name := by
  induction rest with
  | nil => intro sum _ _ _ _; rfl
  | cons f r ih =>
    intro sum hnn h0 hmax hov
    have hf := hnn f (List.mem_cons_self _ _)
    have hr := sizes_sum_nonneg r (fun g hg => hnn g (List.mem_cons_of_mem _ hg))
    simp only [List.map_cons, List.sum_cons] at hov
    have h64 : int64 (sum + f.SizeBytes) = sum + f.SizeBytes :=
      int64_of_range _ (by omega) (by omega)
    unfold gcLoop
    rw [h64, if_neg (by omega),
      ih (sum + f.SizeBytes) (fun g hg => hnn g (List.mem_cons_of_mem _ hg)) (by omega)
        (by omega) (by omega)]
    rfl

theorem gcLoop_suffix (max : Int) (rest : List FileInfo) : ∀ sum : Int,
    (∀ f ∈ rest, 0 ≤ f.SizeBytes) → 0 ≤ sum →
    sum + (rest.map FileInfo.SizeBytes).sum < 2 ^ 63 →
    ∃ j, j ≤ rest.length ∧ gcLoop max sum rest = (rest.drop j).map FileInfo.Name ∧
      ∀ i, i < rest.length →
        (j ≤ i ↔ max ≤ sum + ((rest.take (i + 1)).map FileInfo.SizeBytes).sum) := by
  induction rest with
  | nil =>
    intro sum _ _ _
    exact ⟨0, le_refl _, rfl, fun i hi => by simp at hi⟩
  | cons f r ih =>
    intro sum hnn h0 hov
    have hf := hnn f (List.mem_cons_self _ _)
    have hnr : ∀ g ∈ r, 0 ≤ g.SizeBytes := fun g hg => hnn g (List.mem_cons_of_mem _ hg)
    have hr := sizes_sum_nonneg r hnr
    simp only [List.map_cons, List.sum_cons] at hov
    have h64 : int64 (sum + f.SizeBytes) = sum + f.SizeBytes :=
      int64_of_range _ (by omega) (by omega)
    by_cases hlt : sum + f.SizeBytes < max
    · obtain ⟨j, hj, hg, hi⟩ := ih (sum + f.SizeBytes) hnr (by omega) (by omega)
      refine ⟨j + 1, by simp only [List.length_cons]; omega, ?_, ?_⟩
      · rw [gcLoop, h64, if_pos hlt, hg]
        rfl
      · intro i hil
        cases i with
        | zero =>
          simp only [List.take_succ_cons, List.take_zero, List.map_cons, List.map_nil,
            List.sum_cons, List.sum_nil]
          constructor
          · intro h; omega
          · intro h; omega
        | succ i =>
          simp only [List.length_cons] at hil
          have := hi i (by omega)
          simp only [List.take_succ_cons, List.map_cons, List.sum_cons]
          constructor
          · intro h
            have := this.mp (by omega)
            omega
          · intro h
            have := this.mpr (by omega)
            omega
    · refine ⟨0, Nat.zero_le _, ?_, ?_⟩
      · rw [gcLoop, h64, if_neg hlt,
          gcLoop_all max r (sum + f.SizeBytes) hnr (by omega) (by omega) (by omega)]
        rfl
      · intro i hil
        have hmono : 0 ≤ (((f :: r).take (i + 1)).map FileInfo.SizeBytes).sum - f.SizeBytes := by
          simp only [List.take_succ_cons, List.map_cons, List.sum_cons]
          have := sizes_sum_nonneg (r.take i)
            (fun g hg => hnr g (List.mem_of_mem_take hg))
          omega
        constructor
        · intro _; omega
        · intro _; exact Nat.zero_le _

/-- C18 (as amended): for every list of files, newest first, with sizes that are not
negative and a total below 2^63, and every budget, there is an index `k >= 1` such that
`gcOldFiles` removes exactly the files from index `k` on, in order, and a file after the
first is among them exactly when the running total of the sizes from the newest file up
to and including that file has reached the budget; when no running total reaches the
budget nothing is removed. -/
theorem gcOldFiles_selection (f0 : FileInfo) (rest : List FileInfo) (max : Int)
    (hnn : ∀ f ∈ f0 :: rest, 0 ≤ f.SizeBytes)
    (hov : ((f0 :: rest).map FileInfo.SizeBytes).sum < 2 ^ 63) :
    (∃ k, 1 ≤ k ∧ k ≤ (f0 :: rest).length ∧
      gcOldFiles true (some (f0 :: rest)) max = ((f0 :: rest).drop k).map FileInfo.Name ∧
      ∀ i, 1 ≤ i → i < (f0 :: rest).length →
        (k ≤ i ↔ max ≤ runningTotal (f0 :: rest) i)) ∧
    ((∀ i, i < (f0 :: rest).length → runningTotal (f0 :: rest) i < max) →
      gcOldFiles true (some (f0 :: rest)) max = []) := by
  have h0 := hnn f0 (List.mem_cons_self _ _)
  have hnr : ∀ g ∈ rest, 0 ≤ g.SizeBytes := fun g hg => hnn g (List.mem_cons_of_mem _ hg)
  simp only [List.map_cons, List.sum_cons] at hov
  obtain ⟨j, hj, hg, hi⟩ := gcLoop_suffix max rest f0.SizeBytes hnr h0 hov
  have hgc : gcOldFiles true (some (f0 :: rest)) max = gcLoop max f0.SizeBytes rest := rfl
  have hsplit : ∀ i, 1 ≤ i → i < (f0 :: rest).length →
      (j + 1 ≤ i ↔ max ≤ runningTotal (f0 :: rest) i) := by
    intro i h1 h2
    obtain ⟨i2, rfl⟩ : ∃ i2, i = i2 + 1 := ⟨i - 1, by omega⟩
    simp only [List.length_cons] at h2
    have := hi i2 (by omega)
    simp only [runningTotal, List.take_succ_cons, List.map_cons, List.sum_cons]
    constructor
    · intro h; exact this.mp (by omega)
    · intro h; have := this.mpr h; omega
  refine ⟨⟨j + 1, by omega, by simp only [List.length_cons]; omega, ?_, hsplit⟩, ?_⟩
  · rw [hgc, hg]; rfl
  · intro hall
    rw [hgc, hg]
    have hjl : j = rest.length := by
      by_contra hne
      have hlt : j < rest.length := by omega
      have h1 := (hsplit (j + 1) (by omega) (by simp only [List.length_cons]; omega)).mp
        (le_refl _)
      have h2 := hall (j + 1) (by simp only [List.length_cons]; omega)
      omega
    rw [hjl]
    simp

/-- Witness of `gcOldFiles_selection`: sizes 10, 20, 30 and 40 with a budget of 60 lose
the two oldest files. -/
theorem gcOldFiles_selection_witness :
    gcOldFiles true (some sampleFiles) 60 = ["log.2".toList, "log.1".toList] ∧
    ∃ k, 1 ≤ k ∧ k ≤ sampleFiles.length ∧
      gcOldFiles true (some sampleFiles) 60 = (sampleFiles.drop k).map FileInfo.Name ∧
      ∀ i, 1 ≤ i → i < sampleFiles.length → (k ≤ i ↔ 60 ≤ runningTotal sampleFiles i) :=
  ⟨by decide,
    (gcOldFiles_selection ⟨"log.4".toList, 10⟩
      [⟨"log.3".toList, 20⟩, ⟨"log.2".toList, 30⟩, ⟨"log.1".toList, 40⟩] 60 (by decide)
      (by decide)).1⟩

/-- C18 as stated fails: over files of sizes 5, 5 and 5 with a budget of 10 the running
total meets the budget at the second file, and `gcOldFiles` removes that file as well as
the older one that remains after it. -/
theorem gcOldFiles_selection_counterexample :
    (List.range 3).map (runningTotal
      [⟨"c".toList, 5⟩, ⟨"b".toList, 5⟩, ⟨"a".toList, 5⟩]) = [5, 10, 15] ∧
    gcOldFiles true (some [⟨"c".toList, 5⟩, ⟨"b".toList, 5⟩, ⟨"a".toList, 5⟩]) 10 =
      ["b".toList, "a".toList] ∧
    gcOldFiles true (some [⟨"c".toList, 5⟩, ⟨"b".toList, 5⟩, ⟨"a".toList, 5⟩]) 10 ≠
      ["a".toList] := by
  decide

/-! ## C19: rotation -/

theorem preambleLoop_nil (env : RotateEnv) (o : SinkState) : preambleLoop env [] o = o :=
  rfl

theorem preambleLoop_cons (env : RotateEnv) (msg : Str) (rest : List Str) (o : SinkState) :
    preambleLoop env (msg :: rest) o =
      match (preambleStep env msg o).failed with
      | true => preambleStep env msg o
      | false => preambleLoop env rest (preambleStep env msg o) := rfl

theorem preambleStep_ok (env : RotateEnv) (msg : Str) (o : SinkState)
    (h : (preambleStep env msg o).failed = false) :
    o.failed = false ∧
    ∃ d, PreambleLine env d msg ∧
      (preambleStep env msg o).events = o.events ++ [SinkEvent.preamble d] ∧
      (preambleStep env msg o).sb.nbytes = o.sb.nbytes + byteLen d ∧
      (preambleStep env msg o).sb.lastRotation = o.sb.lastRotation ∧
      (preambleStep env msg o).fileOpen = o.fileOpen := by
  unfold preambleStep at h ⊢
  cases hf : formatLogEntry env.loc (getBuffer o.l).1.tmp (preambleEntry env msg) [] none with
  | none => rw [hf] at h; exact absurd h (by simp)
  | some buf =>
    rw [hf] at h
    simp only at h ⊢
    by_cases hp : env.preambleFails = true
    · rw [if_pos hp] at h; exact absurd h (by simp)
    · rw [if_neg hp] at h ⊢
      exact ⟨h, buf.bytes, ⟨_, buf, hf, rfl⟩, rfl, rfl, rfl, rfl⟩

theorem preambleLoop_ok (env : RotateEnv) (msgs : List Str) : ∀ o : SinkState,
    (preambleLoop env msgs o).failed = false →
    o.failed = false ∧
    ∃ ds, List.Forall₂ (PreambleLine env) ds msgs ∧
      (preambleLoop env msgs o).events = o.events ++ ds.map SinkEvent.preamble ∧
      (preambleLoop env msgs o).sb.nbytes =
        o.sb.nbytes + (ds.map fun d => (byteLen d : Int)).sum ∧
      (preambleLoop env msgs o).sb.lastRotation = o.sb.lastRotation ∧
      (preambleLoop env msgs o).fileOpen = o.fileOpen := by
  induction msgs with
  | nil =>
    intro o h
    rw [preambleLoop_nil] at h ⊢
    refine ⟨h, [], List.Forall₂.nil, ?_, ?_, rfl, rfl⟩
    · rw [List.map_nil, List.append_nil]
    · rw [List.map_nil, List.sum_nil, add_zero]
  | cons msg rest ih =>
    intro o h
    rw [preambleLoop_cons] at h ⊢
    cases hs : (preambleStep env msg o).failed with
    | true => rw [hs] at h; simp only at h; rw [hs] at h; exact absurd h (by simp)
    | false =>
      rw [hs] at h
      simp only at h ⊢
      obtain ⟨h0, d, hd, hev1, hnb1, hlr1, hfo1⟩ := preambleStep_ok env msg o hs
      obtain ⟨_, ds, hds, hev, hnb, hlr, hfo⟩ := ih _ h
      refine ⟨h0, d :: ds, List.Forall₂.cons hd hds, ?_, ?_, ?_, ?_⟩
      · rw [hev, hev1, List.map_cons, List.append_assoc, List.singleton_append]
      · rw [hnb, hnb1]; simp only [List.map_cons, List.sum_cons]; omega
      · rw [hlr, hlr1]
      · rw [hfo, hfo1]

theorem rotateFile_ok (env : RotateEnv) (o : SinkState)
    (h : (syncBuffer.rotateFile env o).failed = false) :
    ∃ ds, List.Forall₂ (PreambleLine env) ds (preambleMessages env) ∧
      (syncBuffer.rotateFile env o).events = o.events ++ rotationEvents o.fileOpen o.l ds ∧
      (syncBuffer.rotateFile env o).sb.nbytes = (ds.map fun d => (byteLen d : Int)).sum ∧
      (syncBuffer.rotateFile env o).sb.lastRotation = env.createdAt ∧
      (syncBuffer.rotateFile env o).fileOpen = true := by
  unfold syncBuffer.rotateFile at h ⊢
  by_cases h1 : o.fileOpen = true ∧ env.flushFails = true
  · rw [if_pos h1] at h; exact absurd h (by simp)
  rw [if_neg h1] at h ⊢
  by_cases h2 : o.fileOpen = true ∧ env.closeFails = true
  · rw [if_pos h2] at h; exact absurd h (by simp)
  rw [if_neg h2] at h ⊢
  by_cases h3 : env.createFails = true
  · rw [if_pos h3] at h; exact absurd h (by simp)
  rw [if_neg h3] at h ⊢
  by_cases h4 : (o.l.stderrThreshold > Severity_INFO ∧ o.l.noStderrRedirect = false)
      ∧ env.hijackFails = true
  · rw [if_pos h4] at h; exact absurd h (by simp)
  rw [if_neg h4] at h ⊢
  simp only at h ⊢
  by_cases h5 : (preambleLoop env (preambleMessages env) (rotateStart env o)).failed = true
  · rw [if_pos h5] at h; rw [h5] at h; exact absurd h (by simp)
  · rw [if_neg h5] at h ⊢
    have h6 : (preambleLoop env (preambleMessages env) (rotateStart env o)).failed = false := by
      simpa using h5
    obtain ⟨_, ds, hds, hev, hnb, hlr, hfo⟩ := preambleLoop_ok env _ _ h6
    refine ⟨ds, hds, ?_, ?_, ?_, ?_⟩
    · show (preambleLoop env (preambleMessages env) (rotateStart env o)).events
        ++ [SinkEvent.gcNotify] = _
      rw [hev]
      simp only [rotationEvents, rotateStart, List.append_assoc]
    · show (preambleLoop env (preambleMessages env) (rotateStart env o)).sb.nbytes = _
      rw [hnb]
      simp only [rotateStart]; omega
    · show (preambleLoop env (preambleMessages env) (rotateStart env o)).sb.lastRotation = _
      rw [hlr]; rfl
    · show (preambleLoop env (preambleMessages env) (rotateStart env o)).fileOpen = _
      rw [hfo]; rfl

/-- C19 (as amended): a call of `syncBuffer.Write(p)` in which no step fails rotates
exactly once, before `p` is written, when the bytes written since the last rotation plus
`len(p)` reach or pass `LogFileMaxSize`, and does not rotate otherwise. The rotation
flushes and closes the open file, creates the new one, writes the five formatted preamble
lines to it and starts the byte counter again, at the bytes of the preamble; `p` follows,
and the counter grows by `len(p)`. Without a rotation the counter grows by exactly
`len(p)`. -/
theorem syncBuffer_Write_rotation (env : RotateEnv) (o : SinkState) (p : Str)
    (hstart : o.failed = false)
    (hok : (syncBuffer.Write env o p).failed = false) :
    (o.sb.nbytes + byteLen p ≥ env.LogFileMaxSize →
      ∃ ds, List.Forall₂ (PreambleLine env) ds (preambleMessages env) ∧
        (syncBuffer.Write env o p).events =
          o.events ++ rotationEvents o.fileOpen o.l ds ++ [SinkEvent.write p] ∧
        (syncBuffer.Write env o p).sb.nbytes =
          (ds.map fun d => (byteLen d : Int)).sum + byteLen p ∧
        (syncBuffer.Write env o p).sb.lastRotation = env.createdAt ∧
        ((rotationEvents o.fileOpen o.l ds ++ [SinkEvent.write p]).count SinkEvent.create
          = 1)) ∧
    (o.sb.nbytes + byteLen p < env.LogFileMaxSize →
      (syncBuffer.Write env o p).events = o.events ++ [SinkEvent.write p] ∧
      (syncBuffer.Write env o p).sb.nbytes = o.sb.nbytes + byteLen p ∧
      (syncBuffer.Write env o p).sb.lastRotation = o.sb.lastRotation) := by
  constructor
  · intro hge
    unfold syncBuffer.Write at hok ⊢
    rw [if_pos hge] at hok ⊢
    simp only at hok ⊢
    by_cases hr : (syncBuffer.rotateFile env o).failed = true
    · rw [if_pos hr] at hok; rw [hr] at hok; exact absurd hok (by simp)
    · rw [if_neg hr] at hok ⊢
      by_cases hw : env.writeFails = true
      · rw [if_pos hw] at hok; exact absurd hok (by simp)
      · rw [if_neg hw]
        obtain ⟨ds, hds, hev, hnb, hlr, _⟩ := rotateFile_ok env o (by simpa using hr)
        refine ⟨ds, hds, ?_, ?_, ?_, ?_⟩
        · simp only [hev]
        · simp only [hnb]
        · simp only [hlr]
        · have hp : ∀ ds : List Str, (ds.map SinkEvent.preamble).count SinkEvent.create = 0 := by
            intro ds
            rw [List.count_eq_zero]
            intro hm
            rw [List.mem_map] at hm
            obtain ⟨d, _, hd⟩ := hm
            exact absurd hd (by simp)
          simp only [rotationEvents, List.count_append, hp]
          split_ifs <;> simp
  · intro hlt
    unfold syncBuffer.Write at hok ⊢
    have hnot : ¬ (o.sb.nbytes + byteLen p ≥ env.LogFileMaxSize) := by omega
    rw [if_neg hnot] at hok ⊢
    simp only at hok ⊢
    have hf : ¬ (o.failed = true) := by rw [hstart]; simp
    rw [if_neg hf] at hok ⊢
    by_cases hw : env.writeFails = true
    · rw [if_pos hw] at hok; exact absurd hok (by simp)
    · rw [if_neg hw]
      exact ⟨rfl, rfl, rfl⟩

set_option maxRecDepth 100000 in
/-- Witness of `syncBuffer_Write_rotation`: with a ceiling of 1000 bytes, ten bytes
written to a sink that holds 989 bytes do not rotate it, and ten bytes written to a sink
that holds 995 bytes do. -/
theorem syncBuffer_Write_rotation_witness :
    ((syncBuffer.Write sampleRotateEnv (sampleSink 989) "0123456789".toList).events =
        [SinkEvent.write "0123456789".toList] ∧
      (syncBuffer.Write sampleRotateEnv (sampleSink 989) "0123456789".toList).sb.nbytes =
        989 + 10 ∧
      (syncBuffer.Write sampleRotateEnv (sampleSink 989) "0123456789".toList).sb.lastRotation
        = 1477000000) ∧
    ∃ ds, List.Forall₂ (PreambleLine sampleRotateEnv) ds (preambleMessages sampleRotateEnv) ∧
      (syncBuffer.Write sampleRotateEnv (sampleSink 995) "0123456789".toList).events =
        [] ++ rotationEvents true sampleLogging ds ++ [SinkEvent.write "0123456789".toList] ∧
      (syncBuffer.Write sampleRotateEnv (sampleSink 995) "0123456789".toList).sb.nbytes =
        (ds.map fun d => (byteLen d : Int)).sum + byteLen "0123456789".toList ∧
      (syncBuffer.Write sampleRotateEnv (sampleSink 995) "0123456789".toList).sb.lastRotation
        = 1478000000 ∧
      ((rotationEvents true sampleLogging ds ++ [SinkEvent.write "0123456789".toList]).count
        SinkEvent.create = 1) :=
  ⟨(syncBuffer_Write_rotation sampleRotateEnv (sampleSink 989) "0123456789".toList rfl
      (by decide)).2 (by decide),
    (syncBuffer_Write_rotation sampleRotateEnv (sampleSink 995) "0123456789".toList rfl
      (by decide)).1 (by decide)⟩

set_option maxRecDepth 100000 in
/-- C19 as stated fails: with a ceiling of 1000 bytes, ten bytes written to a sink that
holds 990 bytes bring the file to the ceiling and not past it, and the sink rotates. -/
theorem syncBuffer_Write_counterexample :
    ¬ ((sampleSink 990).sb.nbytes + byteLen "0123456789".toList >
      sampleRotateEnv.LogFileMaxSize) ∧
    (syncBuffer.Write sampleRotateEnv (sampleSink 990) "0123456789".toList).failed = false ∧
    (syncBuffer.Write sampleRotateEnv (sampleSink 990) "0123456789".toList).events.count
      SinkEvent.create = 1 ∧
    (syncBuffer.Write sampleRotateEnv (sampleSink 990) "0123456789".toList).sb =
      ⟨1478000000, 407⟩ := by
  decide

/-! ## C20: a file that cannot be created -/

/-- C21 fails in the code: the stack block of a FATAL entry follows the startup policy
(none, the calling goroutine, all goroutines), but the override `fatalNoStacks` has no
part in it: with the override set and the policy `single`, the FATAL entry is written
with the stack of the calling goroutine, and only the exit status changes to 1. -/
theorem fatal_stacks_ignore_override :
    (∀ (env : Env) (l : loggingT) (file : Str) (line : Int),
      (env.traceback = tracebackNone → stacksFor env l Severity_FATAL file line = []) ∧
      (env.traceback = tracebackSingle →
        stacksFor env l Severity_FATAL file line = env.stacksSingle) ∧
      (env.traceback = tracebackAll →
        stacksFor env l Severity_FATAL file line = env.stacksAll) ∧
      stacksFor { env with fatalNoStacks := 1 } l Severity_FATAL file line =
        stacksFor env l Severity_FATAL file line) ∧
    ({ sampleEnv with fatalNoStacks := 1 } : Env).traceback = tracebackSingle ∧
    (outputLogEntry { sampleEnv with fatalNoStacks := 1 } sampleLogging false Severity_FATAL
      "clog.go".toList 42 "hello".toList).events =
      [Event.stderrWrite "F161101 11:33:20.123456 12 clog.go:42  hello\nSTACK1\n".toList,
       Event.createFile,
       Event.fileWrite "F161101 11:33:20.123456 12 clog.go:42  hello\nSTACK1\n".toList,
       Event.timeoutFlush 10, Event.exitCall 1] := by
  refine ⟨fun env l file line => ⟨?_, ?_, ?_, rfl⟩, by decide, by decide⟩
  · intro h
    unfold stacksFor
    rw [if_pos rfl, h]
    rfl
  · intro h
    unfold stacksFor
    rw [if_pos rfl, if_pos h]
  · intro h
    unfold stacksFor
    rw [if_pos rfl, h]
    rfl

/-! ## C22: the digit helpers -/

theorem fixedWidth_zero (j : Nat) : fixedWidth j 0 = List.replicate j '0' := by
  induction j with
  | zero => rfl
  | succ j ih =>
    rw [fixedWidth, Nat.zero_div, ih, List.replicate_succ']
    rfl

theorem fixedWidth_pad (j : Nat) : ∀ (m n : Nat), n < 10 ^ m →
    fixedWidth (j + m) n = List.replicate j '0' ++ fixedWidth m n := by
  intro m
  induction m with
  | zero =>
    intro n h
    have : n = 0 := by simpa using h
    subst this
    rw [Nat.add_zero, fixedWidth_zero]
    simp [fixedWidth]
  | succ m ih =>
    intro n h
    have h2 : n / 10 < 10 ^ m := by
      rw [pow_succ] at h
      exact Nat.div_lt_of_lt_mul (by omega)
    rw [← Nat.add_assoc, fixedWidth, ih (n / 10) h2, fixedWidth, List.append_assoc]

theorem toDigitsCore_fixedWidth : ∀ (fuel n : Nat) (ds : List Char), n < fuel →
    ∃ m, 1 ≤ m ∧ Nat.toDigitsCore 10 fuel n ds = fixedWidth m n ++ ds ∧
      (m = 1 ∨ 10 ^ (m - 1) ≤ n) ∧ n < 10 ^ m := by
  intro fuel
  induction fuel with
  | zero => intro n ds h; omega
  | succ fuel ih =>
    intro n ds h
    by_cases h0 : n / 10 = 0
    · refine ⟨1, le_refl _, ?_, Or.inl rfl, by omega⟩
      simp [Nat.toDigitsCore, h0, fixedWidth]
    · obtain ⟨m, hm1, hcore, hlow, hup⟩ :=
        ih (n / 10) (Nat.digitChar (n % 10) :: ds) (by omega)
      refine ⟨m + 1, by omega, ?_, Or.inr ?_, ?_⟩
      · simp [Nat.toDigitsCore, h0, hcore, fixedWidth]
      · rw [Nat.add_sub_cancel]
        rcases hlow with h1 | h1
        · subst h1; simp; omega
        · have : 10 ^ m = 10 ^ (m - 1) * 10 := by
            rw [← pow_succ]; congr 1; omega
          rw [this]
          have := Nat.div_mul_le_self n 10
          nlinarith
      · rw [pow_succ]
        have := Nat.lt_mul_of_div_lt hup (by omega : 0 < 10)
        omega

theorem fixedWidth_eq_zeroPadded (k n : Nat) (hk : 1 ≤ k) (h : n < 10 ^ k) :
    fixedWidth k n = zeroPadded k n := by
  obtain ⟨m, hm1, hcore, hlow, hup⟩ := toDigitsCore_fixedWidth (n + 1) n [] (by omega)
  have hdec : decimal n = fixedWidth m n := by
    simp only [decimal, Nat.toDigits, hcore, List.append_nil]
  have hmk : m ≤ k := by
    rcases hlow with h1 | h1
    · omega
    · have h2 : 10 ^ (m - 1) < 10 ^ k := lt_of_le_of_lt h1 h
      have := (Nat.pow_lt_pow_iff_right (by omega : 1 < 10)).mp h2
      omega
  unfold zeroPadded
  rw [hdec, fixedWidth_length]
  have := fixedWidth_pad (k - m) m n hup
  rw [Nat.sub_add_cancel hmk] at this
  exact this

theorem scratch_cut (tmp : List Char) (i k : Nat) (h : i + k ≤ tmp.length) :
    ∃ mid, mid.length = k ∧ tmp = tmp.take i ++ (mid ++ tmp.drop (i + k)) ∧
      (tmp.take i).length = i := by
  refine ⟨(tmp.drop i).take k, ?_, ?_, ?_⟩
  · simp; omega
  · rw [← List.drop_drop, List.take_append_drop, List.take_append_drop]
  · simp; omega

theorem scratch_paste (pre w post : List Char) (i k : Nat) (hi : pre.length = i)
    (hk : w.length = k) :
    (pre ++ (w ++ post)).take i = pre ∧ ((pre ++ (w ++ post)).drop i).take k = w ∧
      (pre ++ (w ++ post)).drop (i + k) = post := by
  subst hi hk
  refine ⟨by simp, by simp, ?_⟩
  rw [← List.append_assoc, ← List.length_append, List.drop_left]

theorem someDigits_room (tmp : List Char) (i : Nat) (d : Int) (htmp : tmp.length = 64)
    (hd : 0 ≤ d) (hd2 : d < 2 ^ 63) (hroom : i + (decimal d.toNat).length ≤ 64) :
    ∃ t, someDigits tmp i d = some (t, (decimal d.toNat).length) ∧ t.length = 64 ∧
      t.take i = tmp.take i ∧ (t.drop i).take (decimal d.toNat).length = decimal d.toNat := by
  obtain ⟨a2, junk, digs, hsplit, hj, hdk, hd1, hcore, hloop⟩ :=
    someDigitsLoop_mid (d.toNat + 1) d tmp [] 19 hd (by omega) (by omega) (by omega)
      (by omega)
  simp only [List.append_nil] at hcore hloop
  have hdec : decimal d.toNat = digs := by simp [decimal, Nat.toDigits, hcore]
  rw [hdec] at hroom ⊢
  have ha2 : a2.length + digs.length = 64 := by
    have := congrArg List.length hsplit; simp [htmp] at this; omega
  have hpre : a2.take i = tmp.take i := by
    rw [hsplit, List.take_append_of_le_length (by omega)]
  have hcopy : copyAt (a2 ++ digs) i ((a2 ++ digs).drop a2.length) =
      some (a2.take i ++ digs ++ (a2 ++ digs).drop (i + digs.length), digs.length) := by
    have hk : min ((a2 ++ digs).length - i) digs.length = digs.length := by
      simp; omega
    simp only [copyAt, List.drop_left, hk, List.take_length]
    rw [if_pos (by simp; omega), List.take_append_of_le_length (by omega)]
  have hlen : (a2.take i).length = i := by simp; omega
  obtain ⟨p1, p2, _⟩ := scratch_paste (a2.take i) digs ((a2 ++ digs).drop (i + digs.length))
    i digs.length hlen rfl
  refine ⟨a2.take i ++ digs ++ (a2 ++ digs).drop (i + digs.length), ?_, ?_, ?_, ?_⟩
  · simp only [someDigits, hloop, Option.bind_eq_bind, Option.some_bind, hcopy]
  · simp; omega
  · rw [List.append_assoc, p1, hpre]
  · rw [List.append_assoc, p2]

/-- C22: on a scratch array of 64 bytes and for an offset that leaves room,
`twoDigits(i, d)` writes the zero-padded two-digit decimal of `d` for `0 <= d < 100`,
`nDigits(n, i, d, '0')` writes exactly `n` bytes, the zero-padded `n`-digit decimal of
`d`, for `0 <= d < 10^n`, and `someDigits(i, d)` writes the shortest decimal of `d` for
`d >= 0` and returns its number of digits; each leaves the bytes before the offset as
they were (and the first two also the bytes after the field). -/
theorem digit_helpers_agree (tmp : List Char) (i : Nat) (d : Int)
    (htmp : tmp.length = 64) (hd : 0 ≤ d) :
    (d < 100 → i + 2 ≤ 64 →
      ∃ t, twoDigits tmp i d = some (t, 2) ∧ t.take i = tmp.take i ∧
        (t.drop i).take 2 = zeroPadded 2 d.toNat ∧ t.drop (i + 2) = tmp.drop (i + 2)) ∧
    (∀ n : Nat, 1 ≤ n → d < 10 ^ n → i + n ≤ 64 →
      ∃ t, nDigits tmp n i d '0' = some (t, n) ∧ t.take i = tmp.take i ∧
        (t.drop i).take n = zeroPadded n d.toNat ∧ t.drop (i + n) = tmp.drop (i + n)) ∧
    (d < 2 ^ 63 → i + (decimal d.toNat).length ≤ 64 →
      ∃ t, someDigits tmp i d = some (t, (decimal d.toNat).length) ∧
        t.take i = tmp.take i ∧
        (t.drop i).take (decimal d.toNat).length = decimal d.toNat) := by
  refine ⟨?_, ?_, ?_⟩
  · intro h100 hroom
    obtain ⟨mid, hmid, hsplit, hpre⟩ := scratch_cut tmp i 2 (by omega)
    match mid, hmid with
    | [x, y], _ =>
      have h2 := twoDigits_mid (tmp.take i) (tmp.drop (i + 2)) x y d hd
      rw [hpre] at h2
      simp only [List.cons_append, List.nil_append] at hsplit
      rw [← hsplit] at h2
      have hw : (fixedWidth 2 d.toNat).length = 2 := fixedWidth_length 2 _
      obtain ⟨p1, p2, p3⟩ := scratch_paste (tmp.take i) (fixedWidth 2 d.toNat)
        (tmp.drop (i + 2)) i 2 hpre hw
      refine ⟨_, h2, p1, ?_, p3⟩
      rw [p2]
      exact fixedWidth_eq_zeroPadded 2 d.toNat (by omega) (by omega)
  · intro n hn hlt hroom
    obtain ⟨mid, hmid, hsplit, hpre⟩ := scratch_cut tmp i n (by omega)
    have h2 := nDigitsLoop_mid (tmp.take i) n mid (tmp.drop (i + n)) d hd hmid
    rw [hpre, ← hsplit] at h2
    have hw : (fixedWidth n d.toNat).length = n := fixedWidth_length n _
    obtain ⟨p1, p2, p3⟩ := scratch_paste (tmp.take i) (fixedWidth n d.toNat)
      (tmp.drop (i + n)) i n hpre hw
    refine ⟨_, by simp only [nDigits, h2, Option.map_some'], p1, ?_, p3⟩
    rw [p2]
    apply fixedWidth_eq_zeroPadded n d.toNat hn
    have : ((d.toNat : Nat) : Int) < ((10 ^ n : Nat) : Int) := by
      rw [Int.toNat_of_nonneg hd]; push_cast; exact hlt
    exact_mod_cast this
  · intro h63 hroom
    obtain ⟨t, h1, _, h3, h4⟩ := someDigits_room tmp i d htmp hd h63 hroom
    exact ⟨t, h1, h3, h4⟩

/-- Witness of `digit_helpers_agree`: 7 in two digits, 123 in six digits and 4242 in as
many digits as it has, at offset 10 of an empty scratch array. -/
theorem digit_helpers_agree_witness :
    (∃ t, twoDigits zeroTmp 10 7 = some (t, 2) ∧ t.take 10 = zeroTmp.take 10 ∧
      (t.drop 10).take 2 = zeroPadded 2 7 ∧ t.drop (10 + 2) = zeroTmp.drop (10 + 2)) ∧
    zeroPadded 2 7 = "07".toList ∧
    (∃ t, nDigits zeroTmp 6 10 123 '0' = some (t, 6) ∧ t.take 10 = zeroTmp.take 10 ∧
      (t.drop 10).take 6 = zeroPadded 6 123 ∧ t.drop (10 + 6) = zeroTmp.drop (10 + 6)) ∧
    zeroPadded 6 123 = "000123".toList ∧
    (∃ t, someDigits zeroTmp 10 4242 = some (t, (decimal 4242).length) ∧
      t.take 10 = zeroTmp.take 10 ∧
      (t.drop 10).take (decimal 4242).length = decimal 4242) ∧
    decimal 4242 = "4242".toList :=
  ⟨(digit_helpers_agree zeroTmp 10 7 (by decide) (by decide)).1 (by decide) (by decide),
    by decide,
    (digit_helpers_agree zeroTmp 10 123 (by decide) (by decide)).2.1 6 (by decide)
      (by decide) (by decide),
    by decide,
    (digit_helpers_agree zeroTmp 10 4242 (by decide) (by decide)).2.2 (by decide)
      (by decide),
    by decide⟩

/-! ## C23 and C24: the verbosity state along a history -/

theorem level_Set_cases (l : loggingT) (value : Str) :
    (Atoi value = none ∧ level.Set l value = (some ConfigError.atoi, l)) ∨
    (∃ v, Atoi value = some v ∧
      level.Set l value = (none, l.setVState (int32 v) l.vmodule false)) := by
  unfold level.Set
  cases h : Atoi value with
  | none => exact Or.inl ⟨rfl, rfl⟩
  | some v => exact Or.inr ⟨v, rfl, rfl⟩

theorem moduleSpec_Set_cases (l : loggingT) (value : Str) :
    (∃ e, moduleSpec.Set l value = (some e, l)) ∨
    moduleSpec.Set l value =
      (none, l.setVState l.verbosity ((installedPairs value).map mkPat) true) := by
  have hspec := moduleSpecLoop_spec (stringsSplit ',' value) []
  by_cases hbad : ∃ seg ∈ stringsSplit ',' value, seg ≠ [] ∧ segmentPair seg = none
  · obtain ⟨e, he⟩ := hspec.1 hbad
    left
    refine ⟨e, ?_⟩
    unfold moduleSpec.Set; rw [he]
  · have hok := hspec.2 hbad
    rw [List.nil_append] at hok
    right
    unfold moduleSpec.Set; rw [hok]; rfl

theorem cacheOK_congr (cs : CallSites) (l l2 : loggingT) (h1 : l2.vmodule = l.vmodule)
    (h2 : l2.vmap = l.vmap) (h : CacheOK cs l) : CacheOK cs l2 := by
  intro pc v hv
  rw [h2] at hv
  rw [setV_level_eq cs l l2 pc h1]
  exact h pc v hv

theorem mkPat_literal (pvs : List (Str × Int)) :
    ∀ p ∈ pvs.map mkPat, p.literal = isLiteral p.pattern := by
  intro p hp
  rw [List.mem_map] at hp
  obtain ⟨pv, _, rfl⟩ := hp
  rfl

theorem setVState_keep (l : loggingT) (v : Int) (f : List modulePat) :
    (l.setVState v f false).vmodule = l.vmodule ∧ (l.setVState v f false).vmap = l.vmap ∧
    (l.setVState v f false).verbosity = v ∧
    (l.setVState v f false).filterLength = int32 f.length := by
  simp [loggingT.setVState]

theorem setVState_install (l : loggingT) (v : Int) (f : List modulePat) :
    (l.setVState v f true).vmodule = f ∧ (l.setVState v f true).vmap = [] ∧
    (l.setVState v f true).verbosity = v ∧
    (l.setVState v f true).filterLength = int32 f.length := by
  simp [loggingT.setVState]

theorem VDepth_state (cs : CallSites) (l : loggingT) (level depth : Int) :
    (VDepth cs l level depth).2 = l ∨
    ∃ pc v, (VDepth cs l level depth).2 = { l with vmap := (pc, v) :: l.vmap } := by
  unfold VDepth
  by_cases hv : l.verbosity ≥ level
  · rw [if_pos hv]; exact Or.inl rfl
  · rw [if_neg hv]
    by_cases hf : l.filterLength > 0
    · rw [if_pos hf]
      cases hcs : cs.callers (2 + depth) with
      | none => exact Or.inl rfl
      | some pc =>
        cases hg : vmapGet l.vmap pc with
        | some v => simp only [hg]; exact Or.inl trivial
        | none =>
          simp only [hg]
          right
          exact ⟨pc, _, setVLoop_state l pc _ _⟩
    · rw [if_neg hf]; exact Or.inl rfl

theorem applyOp_inv (cs : CallSites) (l : loggingT) (op : VOp)
    (hlit : ∀ p ∈ l.vmodule, p.literal = isLiteral p.pattern) (hc : CacheOK cs l)
    (hlen : l.filterLength = int32 l.vmodule.length) :
    (∀ p ∈ (applyOp cs l op).vmodule, p.literal = isLiteral p.pattern) ∧
    CacheOK cs (applyOp cs l op) ∧
    (applyOp cs l op).filterLength = int32 (applyOp cs l op).vmodule.length := by
  cases op with
  | levelSet value =>
    show (∀ p ∈ (level.Set l value).2.vmodule, p.literal = isLiteral p.pattern) ∧
      CacheOK cs (level.Set l value).2 ∧
      (level.Set l value).2.filterLength = int32 (level.Set l value).2.vmodule.length
    rcases level_Set_cases l value with ⟨_, h⟩ | ⟨v, _, h⟩
    · rw [h]; exact ⟨hlit, hc, hlen⟩
    · rw [h]
      obtain ⟨k1, k2, _, k4⟩ := setVState_keep l (int32 v) l.vmodule
      refine ⟨?_, cacheOK_congr cs l _ k1 k2 hc, ?_⟩
      · show ∀ p ∈ (l.setVState (int32 v) l.vmodule false).vmodule, _
        rw [k1]; exact hlit
      · show (l.setVState (int32 v) l.vmodule false).filterLength =
          int32 (l.setVState (int32 v) l.vmodule false).vmodule.length
        rw [k4, k1]
  | moduleSet value =>
    show (∀ p ∈ (moduleSpec.Set l value).2.vmodule, p.literal = isLiteral p.pattern) ∧
      CacheOK cs (moduleSpec.Set l value).2 ∧
      (moduleSpec.Set l value).2.filterLength =
        int32 (moduleSpec.Set l value).2.vmodule.length
    rcases moduleSpec_Set_cases l value with ⟨e, h⟩ | h
    · rw [h]; exact ⟨hlit, hc, hlen⟩
    · rw [h]
      obtain ⟨k1, k2, _, k4⟩ := setVState_install l l.verbosity
        ((installedPairs value).map mkPat)
      refine ⟨?_, cacheOK_of_empty cs _ k2, ?_⟩
      · show ∀ p ∈ (l.setVState l.verbosity ((installedPairs value).map mkPat) true).vmodule,
          _
        rw [k1]; exact mkPat_literal _
      · show (l.setVState l.verbosity ((installedPairs value).map mkPat) true).filterLength
          = int32 (l.setVState l.verbosity ((installedPairs value).map mkPat)
            true).vmodule.length
        rw [k4, k1]
  | vdepth level depth =>
    obtain ⟨h1, h2⟩ := cacheOK_VDepth cs l level depth hc
    have h3 : (VDepth cs l level depth).2.filterLength = l.filterLength := by
      rcases VDepth_state cs l level depth with h | ⟨pc, v, h⟩ <;> rw [h]
    show (∀ p ∈ (VDepth cs l level depth).2.vmodule, p.literal = isLiteral p.pattern) ∧
      CacheOK cs (VDepth cs l level depth).2 ∧
      (VDepth cs l level depth).2.filterLength =
        int32 (VDepth cs l level depth).2.vmodule.length
    refine ⟨?_, h1, ?_⟩
    · rw [h2]; exact hlit
    · rw [h3, h2]; exact hlen

theorem runOps_inv (cs : CallSites) (ops : List VOp) : ∀ l : loggingT,
    (∀ p ∈ l.vmodule, p.literal = isLiteral p.pattern) → CacheOK cs l →
    l.filterLength = int32 l.vmodule.length →
    (∀ p ∈ (runOps cs l ops).vmodule, p.literal = isLiteral p.pattern) ∧
    CacheOK cs (runOps cs l ops) ∧
    (runOps cs l ops).filterLength = int32 (runOps cs l ops).vmodule.length := by
  induction ops with
  | nil => intro l h1 h2 h3; exact ⟨h1, h2, h3⟩
  | cons op rest ih =>
    intro l h1 h2 h3
    obtain ⟨a, b, c⟩ := applyOp_inv cs l op h1 h2 h3
    exact ih _ a b c

theorem initialLogging_inv (cs : CallSites) :
    (∀ p ∈ initialLogging.vmodule, p.literal = isLiteral p.pattern) ∧
    CacheOK cs initialLogging ∧
    initialLogging.filterLength = int32 initialLogging.vmodule.length :=
  ⟨by decide, cacheOK_of_empty cs _ rfl, by decide⟩

/-- C23: in every state reached from the initial state through `level.Set`,
`moduleSpec.Set` and `VDepth`, each level stored in the cache for a call site is the
first-match resolution of that call site's file against the installed pattern list; a
successful `moduleSpec.Set` leaves the cache empty, and `level.Set` changes neither the
pattern list nor the cache. -/
theorem cache_never_stale (cs : CallSites) (ops : List VOp) :
    CacheFresh cs (runOps cs initialLogging ops) ∧
    (∀ (l : loggingT) (value : Str), (moduleSpec.Set l value).1 = none →
      (moduleSpec.Set l value).2.vmap = []) ∧
    (∀ (l : loggingT) (value : Str), (level.Set l value).2.vmodule = l.vmodule ∧
      (level.Set l value).2.vmap = l.vmap) := by
  obtain ⟨i1, i2, i3⟩ := initialLogging_inv cs
  obtain ⟨hlit, hc, _⟩ := runOps_inv cs ops initialLogging i1 i2 i3
  refine ⟨?_, ?_, ?_⟩
  · intro pc v hv
    have := hc pc v hv
    rw [setV_eq cs _ pc hlit] at this
    exact this
  · intro l value h
    rcases moduleSpec_Set_cases l value with ⟨e, h2⟩ | h2
    · rw [h2] at h; simp at h
    · rw [h2]; exact (setVState_install l _ _).2.1
  · intro l value
    rcases level_Set_cases l value with ⟨_, h⟩ | ⟨v, _, h⟩
    · rw [h]; exact ⟨rfl, rfl⟩
    · rw [h]
      exact ⟨(setVState_keep l _ _).1, (setVState_keep l _ _).2.1⟩

/-- Witness of `cache_never_stale`: after `--vmodule=a*=2,ab=5`, a call of `VDepth` at a
call site in `ab.go` and `--verbosity=1`, the cache holds level 2 for the call site. -/
theorem cache_never_stale_witness :
    (runOps sampleSites initialLogging
      [VOp.moduleSet "a*=2,ab=5".toList, VOp.vdepth 3 1, VOp.levelSet "1".toList]).vmap
      = [(3, 2)] ∧
    CacheFresh sampleSites (runOps sampleSites initialLogging
      [VOp.moduleSet "a*=2,ab=5".toList, VOp.vdepth 3 1, VOp.levelSet "1".toList]) :=
  ⟨by decide,
    (cache_never_stale sampleSites
      [VOp.moduleSet "a*=2,ab=5".toList, VOp.vdepth 3 1, VOp.levelSet "1".toList]).1⟩

theorem applyOp_verbosity (cs : CallSites) (l : loggingT) (op : VOp) (acc : Int)
    (h : l.verbosity = int32 acc) :
    (applyOp cs l op).verbosity = int32 (match op with
      | .levelSet value => (Atoi value).getD acc
      | _ => acc) := by
  cases op with
  | levelSet value =>
    show (level.Set l value).2.verbosity = int32 ((Atoi value).getD acc)
    rcases level_Set_cases l value with ⟨ha, h2⟩ | ⟨v, ha, h2⟩
    · rw [h2, ha]; exact h
    · rw [h2, ha]; exact (setVState_keep l _ _).2.2.1
  | moduleSet value =>
    show (moduleSpec.Set l value).2.verbosity = int32 acc
    rcases moduleSpec_Set_cases l value with ⟨e, h2⟩ | h2
    · rw [h2]; exact h
    · rw [h2]; exact (setVState_install l _ _).2.2.1.trans h
  | vdepth level depth =>
    show (VDepth cs l level depth).2.verbosity = int32 acc
    have : (VDepth cs l level depth).2.verbosity = l.verbosity := by
      rcases VDepth_state cs l level depth with h | ⟨pc, v, h⟩ <;> rw [h]
    rw [this]; exact h

theorem runOps_verbosity (cs : CallSites) (ops : List VOp) : ∀ (l : loggingT) (acc : Int),
    l.verbosity = int32 acc →
    (runOps cs l ops).verbosity = int32 (ops.foldl (fun acc op =>
      match op with
      | .levelSet value => (Atoi value).getD acc
      | _ => acc) acc) := by
  induction ops with
  | nil => intro l acc h; exact h
  | cons op rest ih =>
    intro l acc h
    exact ih _ _ (applyOp_verbosity cs l op acc h)

/-- C24 (as amended): after initialisation and after every call of `level.Set`,
`moduleSpec.Set` or `VDepth`, successful or not, `filterLength` is the length of the
installed pattern list converted to `int32` (the length itself for fewer than 2^31
patterns), and the stored global verbosity is the value of the last successful
`level.Set` converted to `int32` (0 when there was none); `moduleSpec.Set` leaves the
global verbosity as it was. -/
theorem verbosity_state_consistent (cs : CallSites) (ops : List VOp) :
    (runOps cs initialLogging ops).filterLength =
      int32 (runOps cs initialLogging ops).vmodule.length ∧
    ((runOps cs initialLogging ops).vmodule.length < 2 ^ 31 →
      (runOps cs initialLogging ops).filterLength =
        (runOps cs initialLogging ops).vmodule.length) ∧
    (runOps cs initialLogging ops).verbosity = int32 (lastLevelValue ops) ∧
    (∀ (l : loggingT) (value : Str), (moduleSpec.Set l value).2.verbosity = l.verbosity) := by
  obtain ⟨i1, i2, i3⟩ := initialLogging_inv cs
  obtain ⟨_, _, hlen⟩ := runOps_inv cs ops initialLogging i1 i2 i3
  refine ⟨hlen, ?_, ?_, ?_⟩
  · intro hsmall
    rw [hlen, int32_of_small _ hsmall]
  · exact runOps_verbosity cs ops initialLogging 0 (by decide)
  · intro l value
    rcases moduleSpec_Set_cases l value with ⟨e, h2⟩ | h2
    · rw [h2]
    · rw [h2]; exact (setVState_install l _ _).2.2.1

/-- Witness of `verbosity_state_consistent`: `--verbosity=3`, a rejected `--verbosity=x`
and `--vmodule=a*=2,ab=5` leave verbosity 3 and filter length 2. -/
theorem verbosity_state_consistent_witness :
    (runOps sampleSites initialLogging [VOp.levelSet "3".toList, VOp.levelSet "x".toList,
      VOp.moduleSet "a*=2,ab=5".toList]).verbosity = 3 ∧
    (runOps sampleSites initialLogging [VOp.levelSet "3".toList, VOp.levelSet "x".toList,
      VOp.moduleSet "a*=2,ab=5".toList]).filterLength =
      (runOps sampleSites initialLogging [VOp.levelSet "3".toList, VOp.levelSet "x".toList,
        VOp.moduleSet "a*=2,ab=5".toList]).vmodule.length ∧
    (runOps sampleSites initialLogging [VOp.levelSet "3".toList, VOp.levelSet "x".toList,
      VOp.moduleSet "a*=2,ab=5".toList]).vmodule.length = 2 :=
  ⟨by decide,
    (verbosity_state_consistent sampleSites [VOp.levelSet "3".toList,
      VOp.levelSet "x".toList, VOp.moduleSet "a*=2,ab=5".toList]).2.1 (by decide),
    by decide⟩

/-- C24 as stated fails: after the successful `level.Set("4294967297")` the stored global
verbosity is 1, not the value that was set. -/
theorem verbosity_state_counterexample :
    (level.Set initialLogging "4294967297".toList).1 = none ∧
    lastLevelValue [VOp.levelSet "4294967297".toList] = 4294967297 ∧
    (runOps sampleSites initialLogging [VOp.levelSet "4294967297".toList]).verbosity = 1 := by
  decide

/-! ## C25: indexing in the formatter -/

set_option maxRecDepth 100000 in
/-- C25 fails in the code: for an entry stamped at the Unix epoch (local year 1970),
`formatLogEntry` panics: `twoDigits(n, year-2000)` is called with -30 and looks up
`digits[-3]`. The same holds for 1999 (`digits[-1]`). With the 256-colour profile and a
goroutine id of 18 digits the header fills the 64 bytes of the scratch array and the
assignment `tmp[n] = ' '` after the id is at index 64. -/
theorem formatLogEntry_index_out_of_range :
    (Time.Unix 0 0 0).Year = 1970 ∧
    twoDigits zeroTmp 1 (1970 - 2000) = none ∧
    charAt digits (((1970 - 2000 : Int).tdiv 10).tmod 10) = none ∧
    formatLogEntry 0 zeroTmp ⟨Severity_INFO, 0, 12, "clog.go".toList, 42, "hello".toList⟩
      [] none = none ∧
    (Time.Unix 0 915148800000000000 0).Year = 1999 ∧
    formatLogEntry 0 zeroTmp
      ⟨Severity_INFO, 915148800000000000, 12, "clog.go".toList, 42, "hello".toList⟩
      [] none = none ∧
    formatLogEntry 0 zeroTmp
      ⟨Severity_ERROR, 1478000000123456789, 100000000000000000, "clog.go".toList, 42,
        "hello".toList⟩ [] (some colorProfile256) = none ∧
    (formatLogEntry 0 zeroTmp
      ⟨Severity_ERROR, 1478000000123456789, 100000000000000000, "clog.go".toList, 42,
        "hello".toList⟩ [] none).map buffer.bytes =
      some "E161101 11:33:20.123456 100000000000000000 clog.go:42  hello\n".toList := by
  decide

/-! ## C26: the bridge from the standard `log` package -/

theorem char_le_lit (c : Char) (k : Nat) (hk : k < UInt32.size) :
    (c.val ≤ UInt32.ofNatCore k hk) ↔ c.toNat ≤ k := by
  show c.val.toBitVec.toNat ≤ k ↔ c.val.toBitVec.toNat ≤ k
  exact Iff.rfl

theorem utf8Char_length (c : Char) : (utf8Char c).length = c.utf8Size := by
  unfold utf8Char Char.utf8Size
  have h1 := char_le_lit c 127 (by decide)
  have h2 := char_le_lit c 2047 (by decide)
  have h3 := char_le_lit c 65535 (by decide)
  by_cases a1 : c.toNat ≤ 127
  · have b1 : c.toNat < 0x80 := by omega
    simp only [h1.mpr a1, b1, if_true]; rfl
  · have b1 : ¬ c.toNat < 0x80 := by omega
    have c1 : ¬ _ := fun h => a1 (h1.mp h)
    by_cases a2 : c.toNat ≤ 2047
    · have b2 : c.toNat < 0x800 := by omega
      simp only
      rw [if_neg b1, if_pos b2, if_neg c1, if_pos (h2.mpr a2)]; rfl
    · have b2 : ¬ c.toNat < 0x800 := by omega
      have c2 : ¬ _ := fun h => a2 (h2.mp h)
      by_cases a3 : c.toNat ≤ 65535
      · have b3 : c.toNat < 0x10000 := by omega
        simp only
        rw [if_neg b1, if_neg b2, if_pos b3, if_neg c1, if_neg c2, if_pos (h3.mpr a3)]; rfl
      · have b3 : ¬ c.toNat < 0x10000 := by omega
        have c3 : ¬ _ := fun h => a3 (h3.mp h)
        simp only
        rw [if_neg b1, if_neg b2, if_neg b3, if_neg c1, if_neg c2, if_neg c3]; rfl

/-- The bytes of a text are as many as its length in bytes. -/
theorem utf8_length (s : Str) : (utf8 s).length = byteLen s := by
  induction s with
  | nil => rfl
  | cons c t ih =>
    simp only [utf8, List.flatMap_cons, List.length_append, byteLen, List.map_cons,
      List.sum_cons] at ih ⊢
    rw [utf8Char_length, ih]

/-- The encoding on runes of one, two, three and four bytes. -/
theorem utf8_examples :
    utf8 "a:".toList = [97, 58] ∧ utf8 "é".toList = [195, 169] ∧
    utf8 "€".toList = [226, 130, 172] ∧ utf8 "😀".toList = [240, 159, 152, 128] := by
  decide

theorem splitN_three (file lineText rest : Bytes) (hf : 58 ∉ file) (hl : 58 ∉ lineText) :
    splitN 58 3 (file ++ 58 :: (lineText ++ 58 :: rest)) = [file, lineText, rest] := by
  have tw : ∀ (a b : Bytes), 58 ∉ a →
      ((a ++ 58 :: b).takeWhile fun c => c ≠ 58) = a ∧
      (((a ++ 58 :: b).dropWhile fun c => c ≠ 58).drop 1) = b ∧
      ((a ++ 58 :: b).contains 58) = true := by
    intro a b ha
    induction a with
    | nil => simp
    | cons c t ih =>
      have hc : c ≠ 58 := fun h => ha (by simp [h])
      have ht : 58 ∉ t := fun h => ha (List.mem_cons_of_mem _ h)
      obtain ⟨i1, i2, i3⟩ := ih ht
      refine ⟨?_, ?_, ?_⟩
      · simp only [List.cons_append, List.takeWhile_cons, hc, ne_eq, not_false_eq_true,
          decide_True, if_true, i1]
      · simp only [List.cons_append, List.dropWhile_cons, hc, ne_eq, not_false_eq_true,
          decide_True, if_true, i2]
      · simp
  obtain ⟨a1, a2, a3⟩ := tw file (lineText ++ 58 :: rest) hf
  obtain ⟨b1, b2, b3⟩ := tw lineText rest hl
  rw [splitN, if_pos a3, a1, a2, splitN, if_pos b3, b1, b2, splitN]

theorem Write_of_parse (log : BridgeCall → Status) (lb : Int) (b : Bytes) (c : BridgeCall)
    (h : bridgeParse lb b = some c) :
    logBridge.Write log lb b = loggedOnce log c b.length := by
  unfold logBridge.Write loggedOnce
  rw [h]
  simp only
  cases hl : log c <;> simp

theorem bridgeParse_bad_format (lb : Int) (b : Bytes)
    (hb : (splitN 58 3 b).length ≠ 3 ∨ (splitN 58 3 b).head? = some [] ∨
      (splitN 58 3 b).getLast? = some []) :
    bridgeParse lb b =
      some ⟨lb, utf8 "???".toList, 1, utf8 "bad log format: ".toList ++ b⟩ := by
  unfold bridgeParse
  cases hs : splitN 58 3 b with
  | nil => rfl
  | cons p0 r =>
    cases r with
    | nil => rfl
    | cons p1 r2 =>
      cases r2 with
      | nil => rfl
      | cons p2 r3 =>
        cases r3 with
        | cons p3 r4 => rfl
        | nil =>
          rw [hs] at hb
          have hcond : p0.length < 1 ∨ p2.length < 1 := by
            rcases hb with h | h | h
            · simp at h
            · left
              simp only [List.head?_cons, Option.some.injEq] at h
              rw [h]; decide
            · right
              simp only [List.getLast?_cons_cons, List.getLast?_singleton,
                Option.some.injEq] at h
              rw [h]; decide
          simp only
          rw [if_pos hcond]

theorem bridgeParse_three (lb : Int) (b p0 p1 p2 : Bytes) (hs : splitN 58 3 b = [p0, p1, p2])
    (h0 : p0 ≠ []) (h2 : 2 ≤ p2.length) :
    bridgeParse lb b =
      match atoiBytes p1 with
      | some v => some ⟨lb, p0, v, (p2.drop 1).take (p2.length - 2)⟩
      | none => some ⟨lb, p0, 1, utf8 "bad line number: ".toList ++ b⟩ := by
  have hp0 : ¬ (p0.length < 1 ∨ p2.length < 1) := by
    have : 0 < p0.length := List.length_pos.mpr h0
    omega
  have hp2 : ¬ (p2.length - 1 < 1) := by omega
  unfold bridgeParse
  rw [hs]
  simp only
  rw [if_neg hp0, if_neg hp2]
  rfl

/-- C26 (as amended): for every byte slice `b` whose third part between colons (of at most
three) is not a single byte, `logBridge.Write` calls `outputLogEntry` exactly once, with
the severity of the bridge, and returns `len(b)` when that call returns (when it panics or
exits, `Write` ends the same way and returns nothing). For `b` of the shape
`file:line:rest` with a file part that is not empty and a third part of two bytes or more,
the call carries the file, the line and the third part without its first and last byte
when the line part is an integer, and the file, line 1 and the message `bad line number: `
followed by `b` when it is not. For `b` with fewer than three parts, an empty file part or
an empty third part it carries file `???`, line 1 and the message `bad log format: `
followed by `b`. Lengths and cuts are in bytes. -/
theorem logBridge_Write_entry (log : BridgeCall → Status) (lb : Int) :
    (∀ b : Bytes, (∀ p0 p1 p2, splitN 58 3 b = [p0, p1, p2] → p2.length ≠ 1) →
      ∃ c, c.s = lb ∧ logBridge.Write log lb b = loggedOnce log c b.length) ∧
    (∀ (file lineText rest : Bytes), 58 ∉ file → 58 ∉ lineText → file ≠ [] →
      2 ≤ rest.length →
      (∀ n, atoiBytes lineText = some n →
        logBridge.Write log lb (file ++ 58 :: (lineText ++ 58 :: rest)) =
          loggedOnce log ⟨lb, file, n, (rest.drop 1).take (rest.length - 2)⟩
            (file ++ 58 :: (lineText ++ 58 :: rest)).length) ∧
      (atoiBytes lineText = none →
        logBridge.Write log lb (file ++ 58 :: (lineText ++ 58 :: rest)) =
          loggedOnce log ⟨lb, file, 1,
              utf8 "bad line number: ".toList ++ (file ++ 58 :: (lineText ++ 58 :: rest))⟩
            (file ++ 58 :: (lineText ++ 58 :: rest)).length)) ∧
    (∀ b : Bytes, ((splitN 58 3 b).length ≠ 3 ∨ (splitN 58 3 b).head? = some [] ∨
        (splitN 58 3 b).getLast? = some []) →
      logBridge.Write log lb b =
        loggedOnce log ⟨lb, utf8 "???".toList, 1, utf8 "bad log format: ".toList ++ b⟩
          b.length) := by
  refine ⟨?_, ?_, ?_⟩
  · intro b hb
    by_cases hbad : (splitN 58 3 b).length ≠ 3 ∨ (splitN 58 3 b).head? = some [] ∨
        (splitN 58 3 b).getLast? = some []
    · exact ⟨_, rfl, Write_of_parse log lb b _ (bridgeParse_bad_format lb b hbad)⟩
    · simp only [not_or, not_not] at hbad
      obtain ⟨h3, hh, hl⟩ := hbad
      cases hs : splitN 58 3 b with
      | nil => rw [hs] at h3; simp at h3
      | cons p0 r =>
        cases r with
        | nil => rw [hs] at h3; simp at h3
        | cons p1 r2 =>
          cases r2 with
          | nil => rw [hs] at h3; simp at h3
          | cons p2 r3 =>
            cases r3 with
            | cons p3 r4 => rw [hs] at h3; simp at h3
            | nil =>
              rw [hs] at hh hl
              have h0 : p0 ≠ [] := fun h => hh (by simp [h])
              have h2 : p2 ≠ [] := fun h => hl (by simp [h])
              have h1 := hb p0 p1 p2 hs
              have hlen : 2 ≤ p2.length := by
                have : 0 < p2.length := List.length_pos.mpr h2
                omega
              have hp := bridgeParse_three lb b p0 p1 p2 hs h0 hlen
              cases ha : atoiBytes p1 with
              | some v =>
                rw [ha] at hp
                exact ⟨_, rfl, Write_of_parse log lb b _ hp⟩
              | none =>
                rw [ha] at hp
                exact ⟨_, rfl, Write_of_parse log lb b _ hp⟩
  · intro file lineText rest hf hl hne hrest
    have hs := splitN_three file lineText rest hf hl
    have hp := bridgeParse_three lb _ file lineText rest hs hne hrest
    constructor
    · intro n hn
      rw [hn] at hp
      exact Write_of_parse log lb _ _ hp
    · intro hn
      rw [hn] at hp
      exact Write_of_parse log lb _ _ hp
  · intro b hb
    exact Write_of_parse log lb b _ (bridgeParse_bad_format lb b hb)

/-- Witness of `logBridge_Write_entry`: `d.go:23: message` is logged with file `d.go`,
line 23 and text `message`, and its 17 bytes are the count returned, here with the
modelled `outputLogEntry` (on the sample state, where it returns) as the call; a third part
of one rune of two bytes gives an empty text. -/
theorem logBridge_Write_entry_witness :
    bridgeParse Severity_INFO (utf8 "d.go:23: message\n".toList) =
      some ⟨Severity_INFO, utf8 "d.go".toList, 23, utf8 "message".toList⟩ ∧
    bridgeParse Severity_INFO (utf8 "d.go:23:é".toList) =
      some ⟨Severity_INFO, utf8 "d.go".toList, 23, []⟩ ∧
    logBridge.Write
        (fun c => (outputLogEntry sampleEnv sampleLogging false c.s (c.file.map Char.ofNat)
          c.line (c.text.map Char.ofNat)).status) Severity_INFO
        (utf8 "d.go".toList ++ 58 :: (utf8 "23".toList ++ 58 :: utf8 " message\n".toList)) =
      ⟨[⟨Severity_INFO, utf8 "d.go".toList, 23, utf8 "message".toList⟩], .returned,
        some 17⟩ ∧
    logBridge.Write (fun _ => Status.returned) Severity_INFO
        (utf8 "d.go".toList ++ 58 :: (utf8 "23".toList ++ 58 :: utf8 " message\n".toList)) =
      loggedOnce (fun _ => Status.returned)
        ⟨Severity_INFO, utf8 "d.go".toList, 23,
          ((utf8 " message\n".toList).drop 1).take ((utf8 " message\n".toList).length - 2)⟩
        (utf8 "d.go".toList ++ 58 ::
          (utf8 "23".toList ++ 58 :: utf8 " message\n".toList)).length :=
  ⟨by decide, by decide, by decide,
    (((logBridge_Write_entry (fun _ => Status.returned) Severity_INFO).2.1)
      (utf8 "d.go".toList) (utf8 "23".toList) (utf8 " message\n".toList) (by decide)
      (by decide) (by decide) (by decide)).1 23 (by decide)⟩

/-- C26 as stated fails: for `d.go:xx: message` the line part is not an integer, and the
entry carries the file `d.go`, not `???`. -/
theorem logBridge_Write_counterexample :
    atoiBytes (utf8 "xx".toList) = none ∧
    bridgeParse Severity_INFO (utf8 "d.go:xx: message\n".toList) =
      some ⟨Severity_INFO, utf8 "d.go".toList, 1,
        utf8 "bad line number: d.go:xx: message\n".toList⟩ ∧
    (logBridge.Write (fun _ => Status.returned) Severity_INFO
      (utf8 "d.go:xx: message\n".toList)).calls.map BridgeCall.file ≠
        [utf8 "???".toList] := by
  decide

/-- The slice `parts[2][1 : len(parts[2])-1]` in `logBridge.Write` is out of range when
the third part has a single byte: the call panics before it logs. And when the call of
`outputLogEntry` does not return (here the modelled one on a FATAL entry, with an exit
function that ends the process), `Write` returns no count. -/
theorem bridgeParse_short_third_part :
    bridgeParse Severity_INFO (utf8 "d.go:23:\n".toList) = none ∧
    logBridge.Write (fun _ => Status.returned) Severity_INFO (utf8 "d.go:23:\n".toList) =
      ⟨[], .panicked, none⟩ ∧
    logBridge.Write
        (fun c => (outputLogEntry { sampleEnv with exitReturns := false } sampleLogging false
          c.s (c.file.map Char.ofNat) c.line (c.text.map Char.ofNat)).status)
        Severity_FATAL (utf8 "d.go:23: message\n".toList) =
      ⟨[⟨Severity_FATAL, utf8 "d.go".toList, 23, utf8 "message".toList⟩],
        .exited 255, none⟩ := by
  decide
/-! ## C27: the text of the override list parses back -/

theorem stringLoop_succ (fs : List modulePat) : ∀ i : Nat,
    stringLoop (i + 1) fs = (fs.map fun g => ',' :: patText g).flatten := by
  induction fs with
  | nil => intro i; rfl
  | cons f rest ih =>
    intro i
    rw [stringLoop, if_pos (by omega), ih (i + 1)]
    simp [patText]

theorem stringLoop_zero_cons (f : modulePat) (rest : List modulePat) :
    stringLoop 0 (f :: rest) = patText f ++ (rest.map fun g => ',' :: patText g).flatten := by
  rw [stringLoop, if_neg (by omega), stringLoop_succ rest 0]
  simp [patText]

theorem stringsSplit_texts (a : Str) (rest : List modulePat) (ha : ',' ∉ a)
    (hr : ∀ g ∈ rest, ',' ∉ patText g) :
    stringsSplit ',' (a ++ (rest.map fun g => ',' :: patText g).flatten) =
      a :: rest.map patText := by
  induction rest generalizing a with
  | nil =>
    simp only [List.map_nil, List.flatten_nil, List.append_nil]
    exact stringsSplit_of_not_mem ',' a ha
  | cons g r ih =>
    simp only [List.map_cons, List.flatten_cons, List.cons_append]
    rw [stringsSplit_append_sep ',' a _ ha,
      ih (patText g) (hr g (List.mem_cons_self _ _))
        (fun x hx => hr x (List.mem_cons_of_mem _ hx))]

theorem decimal_no (c : Char) (hc : isDigit c = false) (n : Nat) : c ∉ decimal n := by
  intro hm
  have := (decimal_spec n).2.1
  rw [List.all_eq_true] at this
  have h2 := this c hm
  rw [hc] at h2
  exact absurd h2 (by simp)

theorem decimalInt_pos (v : Int) (hv : 0 < v) : decimalInt v = decimal v.toNat := by
  unfold decimalInt
  rw [if_neg (by omega)]

theorem patText_no_comma (f : modulePat) (hp : ',' ∉ f.pattern) (hv : 0 < f.level) :
    ',' ∉ patText f := by
  unfold patText
  rw [decimalInt_pos _ hv]
  intro hm
  rcases List.mem_append.mp hm with h | h
  · exact hp h
  · rcases List.mem_cons.mp h with h | h
    · exact absurd h (by decide)
    · exact decimal_no ',' (by decide) _ h

theorem segmentPair_patText (f : modulePat) (hne : f.pattern ≠ []) (hp : '=' ∉ f.pattern)
    (hv : 0 < f.level) (h63 : f.level < 2 ^ 63) :
    segmentPair (patText f) = some (f.pattern, f.level) := by
  have hd : '=' ∉ decimal f.level.toNat := decimal_no '=' (by decide) _
  have hcount : (patText f).count '=' = 1 := by
    unfold patText
    rw [decimalInt_pos _ hv, List.count_append, List.count_cons_self,
      List.count_eq_zero.mpr hp, List.count_eq_zero.mpr hd]
  have htw : ∀ (a b : Str), '=' ∉ a →
      ((a ++ '=' :: b).takeWhile fun c => c ≠ '=') = a ∧
      (((a ++ '=' :: b).dropWhile fun c => c ≠ '=').drop 1) = b := by
    intro a b ha
    induction a with
    | nil => simp
    | cons c t ih =>
      have hc : c ≠ '=' := fun h => ha (by simp [h])
      have ht : '=' ∉ t := fun h => ha (List.mem_cons_of_mem _ h)
      obtain ⟨i1, i2⟩ := ih ht
      refine ⟨?_, ?_⟩
      · simp only [List.cons_append, List.takeWhile_cons, hc, ne_eq, not_false_eq_true,
          decide_True, if_true, i1]
      · simp only [List.cons_append, List.dropWhile_cons, hc, ne_eq, not_false_eq_true,
          decide_True, if_true, i2]
  have ha : Atoi (decimal f.level.toNat) = some f.level := by
    have := Atoi_decimal f.level.toNat (by rw [Int.toNat_of_nonneg (by omega)]; exact h63)
    rw [this, Int.toNat_of_nonneg (by omega)]
  unfold segmentPair
  rw [if_pos hcount]
  simp only
  unfold patText
  rw [decimalInt_pos _ hv, (htw f.pattern _ hp).1, (htw f.pattern _ hp).2, ha]
  simp only
  rw [if_pos ⟨hne, by omega⟩]

theorem int32_of_range (n : Int) (h1 : -(2 ^ 31) ≤ n) (h2 : n < 2 ^ 31) : int32 n = n := by
  unfold int32
  have : (n + 2 ^ 31) % 2 ^ 32 = n + 2 ^ 31 := by
    apply Int.emod_eq_of_lt <;> omega
  omega

theorem int32_lt (n : Int) : int32 n < 2 ^ 31 := by
  unfold int32
  have := Int.emod_lt_of_pos (n + 2 ^ 31) (by norm_num : (0 : Int) < 2 ^ 32)
  omega

theorem moduleSpecLoop_texts (filter : List modulePat) (h : InstalledOK filter) :
    ∀ acc : List modulePat, moduleSpecLoop (filter.map patText) acc = .ok (acc ++ filter) := by
  induction filter with
  | nil => intro acc; simp [moduleSpecLoop]
  | cons f rest ih =>
    intro acc
    obtain ⟨hne, heq, hcomma, hlit, hpos, h31⟩ := h f (List.mem_cons_self _ _)
    have hseg := segmentPair_patText f hne heq hpos (by omega)
    have hmk : mkPat (f.pattern, f.level) = f := by
      unfold mkPat
      simp only
      rw [int32_of_range _ (by omega) h31, ← hlit]
    rw [List.map_cons, moduleSpecLoop_good _ _ _ f.pattern f.level hseg, if_neg (by omega),
      hmk, ih (fun g hg => h g (List.mem_cons_of_mem _ hg)), List.append_assoc]
    rfl

theorem Set_String_ok (l : loggingT) (h : InstalledOK l.vmodule) :
    moduleSpec.Set l (moduleSpec.String l) =
      (none, l.setVState l.verbosity l.vmodule true) := by
  have hcomma : ∀ g ∈ l.vmodule, ',' ∉ patText g := fun g hg =>
    patText_no_comma g (h g hg).2.2.1 (h g hg).2.2.2.2.1
  have hloop := moduleSpecLoop_texts l.vmodule h []
  unfold moduleSpec.Set moduleSpec.String
  cases hf : l.vmodule with
  | nil => rfl
  | cons f rest =>
    rw [hf] at hcomma hloop
    have hsplit : stringsSplit ',' (stringLoop 0 (f :: rest)) = (f :: rest).map patText := by
      rw [stringLoop_zero_cons,
        stringsSplit_texts (patText f) rest (hcomma f (List.mem_cons_self _ _))
          (fun g hg => hcomma g (List.mem_cons_of_mem _ hg))]
      rfl
    rw [hsplit, hloop, List.nil_append]

theorem stringsSplit_no_sep (sep : Char) (s : Str) : ∀ seg ∈ stringsSplit sep s, sep ∉ seg := by
  induction s with
  | nil => intro seg h; simp [stringsSplit] at h; subst h; simp
  | cons c t ih =>
    intro seg h
    unfold stringsSplit at h
    by_cases hc : c = sep
    · rw [if_pos hc] at h
      rcases List.mem_cons.mp h with h1 | h1
      · subst h1; simp
      · exact ih seg h1
    · rw [if_neg hc] at h
      have hne := stringsSplit_ne_nil sep t
      cases hs : stringsSplit sep t with
      | nil => exact absurd hs hne
      | cons a r =>
        rw [hs] at h ih
        simp only [List.headD_cons, List.tail_cons] at h
        rcases List.mem_cons.mp h with h1 | h1
        · subst h1
          intro hm
          rcases List.mem_cons.mp hm with h2 | h2
          · exact hc h2.symm
          · exact ih a (List.mem_cons_self _ _) h2
        · exact ih seg (List.mem_cons_of_mem _ h1)

theorem segmentPair_pattern (seg p : Str) (v : Int) (h : segmentPair seg = some (p, v)) :
    p ≠ [] ∧ '=' ∉ p ∧ (∀ c, c ∈ p → c ∈ seg) := by
  unfold segmentPair at h
  split_ifs at h with hc
  simp only at h
  cases ha : Atoi ((seg.dropWhile fun c => c ≠ '=').drop 1) with
  | none => rw [ha] at h; simp at h
  | some w =>
    rw [ha] at h
    simp only at h
    split_ifs at h with h2
    simp only [Option.some.injEq, Prod.mk.injEq] at h
    obtain ⟨hp, _⟩ := h
    subst hp
    refine ⟨h2.1, ?_, ?_⟩
    · intro hm
      have := List.mem_takeWhile_imp hm
      simp at this
    · intro c hm
      exact (List.takeWhile_sublist _).subset hm

theorem installed_OK (l0 l : loggingT) (value : Str)
    (hset : moduleSpec.Set l0 value = (none, l)) (hpos : ∀ f ∈ l.vmodule, 0 < f.level) :
    InstalledOK l.vmodule := by
  have hv : l.vmodule = (installedPairs value).map mkPat := by
    rcases moduleSpec_Set_cases l0 value with ⟨e, h⟩ | h
    · rw [h] at hset; simp at hset
    · rw [h] at hset
      simp only [Prod.mk.injEq, true_and] at hset
      rw [← hset]
      exact (setVState_install l0 _ _).1
  intro f hf
  have hfpos := hpos f hf
  rw [hv, List.mem_map] at hf
  obtain ⟨pv, hpv, rfl⟩ := hf
  unfold installedPairs at hpv
  rw [List.mem_filterMap] at hpv
  obtain ⟨seg, hseg, hsp⟩ := hpv
  have hsegmem : seg ∈ stringsSplit ',' value := (List.mem_filter.mp hseg).1
  cases hs : segmentPair seg with
  | none => rw [hs] at hsp; simp at hsp
  | some qw =>
    obtain ⟨q, w⟩ := qw
    rw [hs] at hsp
    simp only at hsp
    split_ifs at hsp with hw
    simp only [Option.some.injEq] at hsp
    subst hsp
    obtain ⟨a1, a2, a3⟩ := segmentPair_pattern seg q w hs
    refine ⟨a1, a2, ?_, rfl, hfpos, int32_lt _⟩
    intro hm
    exact stringsSplit_no_sep ',' value seg hsegmem (a3 _ hm)

/-- Where the text does parse back: for a pattern list installed by a successful
`moduleSpec.Set` whose stored levels are all above 0, `moduleSpec.Set` on the text of
`moduleSpec.String` succeeds and installs an equal list (same patterns, literal flags,
levels and order), and `String` of the result is the same text. -/
theorem moduleSpec_String_parses_back (l0 l : loggingT) (value : Str)
    (hset : moduleSpec.Set l0 value = (none, l)) (hpos : ∀ f ∈ l.vmodule, 0 < f.level) :
    (moduleSpec.Set l (moduleSpec.String l)).1 = none ∧
    (moduleSpec.Set l (moduleSpec.String l)).2.vmodule = l.vmodule ∧
    moduleSpec.String (moduleSpec.Set l (moduleSpec.String l)).2 = moduleSpec.String l := by
  have hok := Set_String_ok l (installed_OK l0 l value hset hpos)
  rw [hok]
  have hv := (setVState_install l l.verbosity l.vmodule).1
  refine ⟨rfl, hv, ?_⟩
  show moduleSpec.String (l.setVState l.verbosity l.vmodule true) = moduleSpec.String l
  unfold moduleSpec.String
  rw [hv]

/-- An instance of `moduleSpec_String_parses_back`: the list installed by
`a*=2,,b=0,ab=5` prints as `a*=2,ab=5`. -/
theorem moduleSpec_String_parses_back_instance :
    moduleSpec.String (moduleSpec.Set sampleLogging "a*=2,,b=0,ab=5".toList).2 =
      "a*=2,ab=5".toList ∧
    (moduleSpec.Set (moduleSpec.Set sampleLogging "a*=2,,b=0,ab=5".toList).2
      (moduleSpec.String (moduleSpec.Set sampleLogging "a*=2,,b=0,ab=5".toList).2)).1
      = none ∧
    (moduleSpec.Set (moduleSpec.Set sampleLogging "a*=2,,b=0,ab=5".toList).2
      (moduleSpec.String (moduleSpec.Set sampleLogging
        "a*=2,,b=0,ab=5".toList).2)).2.vmodule =
      (moduleSpec.Set sampleLogging "a*=2,,b=0,ab=5".toList).2.vmodule :=
  ⟨by decide,
    (moduleSpec_String_parses_back sampleLogging
      (moduleSpec.Set sampleLogging "a*=2,,b=0,ab=5".toList).2 "a*=2,,b=0,ab=5".toList
      (by decide) (by decide)).1,
    (moduleSpec_String_parses_back sampleLogging
      (moduleSpec.Set sampleLogging "a*=2,,b=0,ab=5".toList).2 "a*=2,,b=0,ab=5".toList
      (by decide) (by decide)).2.1⟩

/-- C27 fails on the code: `a=4294967296` is accepted by `moduleSpec.Set` (the level is
tested as a 64-bit `int` and stored as `level(v)`, an `int32`) and installed with level 0;
`String` prints the list as `a=0`, and `moduleSpec.Set` on that text succeeds and
installs the empty list, not the list printed. And `a=2147483648` is installed with level
-2147483648; `String` prints `a=-2147483648`, which `moduleSpec.Set` refuses. -/
theorem moduleSpec_String_not_parsed_back :
    ((moduleSpec.Set sampleLogging "a=4294967296".toList).1 = none ∧
     (moduleSpec.Set sampleLogging "a=4294967296".toList).2.vmodule =
       [⟨"a".toList, true, 0⟩] ∧
     moduleSpec.String (moduleSpec.Set sampleLogging "a=4294967296".toList).2 =
       "a=0".toList ∧
     (moduleSpec.Set (moduleSpec.Set sampleLogging "a=4294967296".toList).2
       "a=0".toList).1 = none ∧
     (moduleSpec.Set (moduleSpec.Set sampleLogging "a=4294967296".toList).2
       "a=0".toList).2.vmodule = []) ∧
    ((moduleSpec.Set sampleLogging "a=2147483648".toList).1 = none ∧
     (moduleSpec.Set sampleLogging "a=2147483648".toList).2.vmodule =
       [⟨"a".toList, true, -2147483648⟩] ∧
     moduleSpec.String (moduleSpec.Set sampleLogging "a=2147483648".toList).2 =
       "a=-2147483648".toList ∧
     (moduleSpec.Set (moduleSpec.Set sampleLogging "a=2147483648".toList).2
       "a=-2147483648".toList).1 = some ConfigError.vmoduleNegative) := by
  decide

end Clog
